import Mathlib

/-!
# POSIX-Shell: a shallow embedding of the command-execution engine

The development follows the C++ sources:

* `src/redirection.cpp`  : `parse_redirection`, `setup_redirection`, `restore_stdio`
* `src/pipeline.cpp`     : `is_builtin_command`, `parse_pipeline`,
                           `execute_command_in_pipeline`, `execute_pipeline`
* `src/shell.cpp`        : `tokenize_with_redirection`, `tokenize_simple`,
                           `execute_command`, `parse_and_execute`
* `src/main.cpp`         : `sigint_handler`, `sigtstp_handler`, `sigchld_handler`,
                           `parse_semicolon_commands`
* `src/builtins.cpp`     : `builtin_ls` (option scan), `builtin_cd`, `builtin_pwd`,
                           `builtin_echo`, `handle_builtin`

Conventions.

* A token or path (`char *`, `std::string`) is a `String`; an input line or
  statement that is scanned character by character is a `List Char`, one
  `Char` per byte, without the terminating NUL.
* A `vector<char *>` is a `List (Option String)`; `none` is `nullptr`, the
  end-of-list marker that `execvp` and the builtins expect.
* `pid_t` and descriptors returned by the system are `Int` / `Nat`.
* System calls whose outcome the program cannot determine (`pipe`, `fork`,
  `dup`, `open`, `chdir`, `waitpid`) take their results from an explicit `Os`
  record that is part of the state, so that every theorem quantifies over all
  outcomes.
* Output is logged as `Event.write`; the text of `perror(s)` is represented by
  its prefix `s`, the part the program chooses.
-/

namespace PosixShell

/-! ## Data model (`include/redirection.h`, `include/pipeline.h`) -/

/-- The struct `RedirectionInfo` of `redirection.h`, with its default member
initialisers. -/
structure RedirectionInfo where
  has_input_redirect : Bool := false
  has_output_redirect : Bool := false
  output_append : Bool := false
  input_file : String := ""
  output_file : String := ""
  clean_args : List (Option String) := []
deriving DecidableEq, Repr

/-- The struct `Command` of `pipeline.h`. -/
structure Command where
  args : List (Option String) := []
  redirection : RedirectionInfo := {}
  has_redirection : Bool := false
deriving DecidableEq, Repr

/-- The struct `Pipeline` of `pipeline.h`. -/
structure Pipeline where
  commands : List Command := []
  background : Bool := false
deriving DecidableEq, Repr

/-! ## `parse_redirection` (redirection.cpp, lines 13-84) -/

/-- The `for` loop of `parse_redirection` from index `i` on: the first argument
is `args[i..]`, `redir` and `clean_args` are the two locals.  The second
component of the result is what the call wrote to `cerr`.  On a dangling
operator the function returns a freshly constructed `RedirectionInfo`
(`redir = RedirectionInfo(); return redir;`), whose `clean_args` is empty. -/
def parse_redirection_loop :
    List (Option String) → RedirectionInfo → List (Option String) →
      RedirectionInfo × List String
  | [], redir, clean_args => ({ redir with clean_args := clean_args ++ [none] }, [])
  | none :: _, redir, clean_args => ({ redir with clean_args := clean_args ++ [none] }, [])
  | some arg :: rest, redir, clean_args =>
    if arg = "<" then
      match rest with
      | some f :: rest2 =>
        parse_redirection_loop rest2
          { redir with has_input_redirect := true, input_file := f } clean_args
      | _ => ({}, ["shell: syntax error near unexpected token \x27<\x27\n"])
    else if arg = ">" then
      match rest with
      | some f :: rest2 =>
        parse_redirection_loop rest2
          { redir with has_output_redirect := true, output_append := false, output_file := f }
          clean_args
      | _ => ({}, ["shell: syntax error near unexpected token \x27>\x27\n"])
    else if arg = ">>" then
      match rest with
      | some f :: rest2 =>
        parse_redirection_loop rest2
          { redir with has_output_redirect := true, output_append := true, output_file := f }
          clean_args
      | _ => ({}, ["shell: syntax error near unexpected token \x27>>\x27\n"])
    else
      parse_redirection_loop rest redir (clean_args ++ [some arg])

/-- The function `parse_redirection`: the resolved `RedirectionInfo` and the
lines written to `cerr`. -/
def parse_redirection (args : List (Option String)) : RedirectionInfo × List String :=
  parse_redirection_loop args {} []

/-! ## `is_builtin_command` and `parse_pipeline` (pipeline.cpp, lines 20-89) -/

/-- The function `is_builtin_command`. -/
def is_builtin_command (cmd : String) : Bool :=
  cmd = "cd" || cmd = "pwd" || cmd = "echo" || cmd = "ls" ||
  cmd = "exit" || cmd = "pinfo" || cmd = "search" || cmd = "history"

/-- The block that `parse_pipeline` runs on a non-empty `current_command`
(lines 41-56, repeated at lines 71-85): resolve the redirection, then either
take over `clean_args` or append the null terminator to the segment. -/
def finish_command (current_args : List (Option String)) : Command × List String :=
  let r := parse_redirection current_args
  let has_redirection := r.1.has_input_redirect || r.1.has_output_redirect
  let args :=
    if has_redirection && !r.1.clean_args.isEmpty then r.1.clean_args
    else current_args ++ [none]
  ({ args := args, redirection := r.1, has_redirection := has_redirection }, r.2)

/-- The `for` loop of `parse_pipeline` from index `i` on, followed by the
handling of the last command.  `commands` is `pipeline.commands`, `current` is
`current_command.args`, `errs` collects what was written to `cerr`. -/
def parse_pipeline_loop :
    List (Option String) → List Command → List (Option String) → List String →
      Pipeline × List String
  | some arg :: rest, commands, current, errs =>
    if arg = "|" then
      if current ≠ [] then
        parse_pipeline_loop rest (commands ++ [(finish_command current).1]) []
          (errs ++ (finish_command current).2)
      else
        parse_pipeline_loop rest commands [] errs
    else
      parse_pipeline_loop rest commands (current ++ [some arg]) errs
  | _, commands, current, errs =>
    if current ≠ [] then
      ({ commands := commands ++ [(finish_command current).1] },
        errs ++ (finish_command current).2)
    else
      ({ commands := commands }, errs)

/-- The function `parse_pipeline`: the pipeline and the lines written to
`cerr` while resolving the redirections of its segments. -/
def parse_pipeline (args : List (Option String)) : Pipeline × List String :=
  parse_pipeline_loop args [] [] []

/-! ## Tokenizer (shell.cpp, lines 61-144) -/

/-- The three characters both tokenizers treat as separators. -/
def is_space (c : Char) : Bool := c = ' ' || c = '\t' || c = '\n'

/-- The characters that end a regular token in `tokenize_with_redirection`
(line 101-102). -/
def is_word_char (c : Char) : Bool :=
  !(c = ' ' || c = '\t' || c = '\n' || c = '<' || c = '>' || c = '|')

/-- The outer `while (*start)` loop of `tokenize_with_redirection`; every
iteration that does not stop consumes at least one character, so
`fuel = length + 1` iterations always reach the end of the string. -/
def tokenize_with_redirection_loop : Nat → List Char → List String → List String
  | 0, _, temp_tokens => temp_tokens
  | fuel + 1, start, temp_tokens =>
    match start.dropWhile is_space with
    | [] => temp_tokens
    | '>' :: '>' :: rest => tokenize_with_redirection_loop fuel rest (temp_tokens ++ [">>"])
    | c :: rest =>
      if c = '<' ∨ c = '>' then
        tokenize_with_redirection_loop fuel rest (temp_tokens ++ [String.singleton c])
      else if c = '|' then
        tokenize_with_redirection_loop fuel rest (temp_tokens ++ ["|"])
      else
        tokenize_with_redirection_loop fuel ((c :: rest).dropWhile is_word_char)
          (temp_tokens ++ [String.mk ((c :: rest).takeWhile is_word_char)])

/-- The function `tokenize_with_redirection`. -/
def tokenize_with_redirection (command : List Char) : List (Option String) :=
  (tokenize_with_redirection_loop (command.length + 1) command []).map some

/-- The `strtok(command, " \t\n")` loop of `tokenize_simple`: skip delimiters,
then take the token up to the next delimiter. -/
def strtok_loop : Nat → List Char → List String → List String
  | 0, _, tokens => tokens
  | fuel + 1, s, tokens =>
    match s.dropWhile is_space with
    | [] => tokens
    | c :: rest =>
      strtok_loop fuel ((c :: rest).dropWhile (fun x => !is_space x))
        (tokens ++ [String.mk ((c :: rest).takeWhile (fun x => !is_space x))])

/-- The function `tokenize_simple`. -/
def tokenize_simple (command : List Char) : List (Option String) :=
  if '<' ∈ command ∨ '>' ∈ command ∨ '|' ∈ command then
    tokenize_with_redirection command
  else
    (strtok_loop (command.length + 1) command []).map some

/-! ## Statement splitting: the text part of `parse_semicolon_commands`
(main.cpp, lines 123-203) -/

/-- The first loop of `parse_semicolon_commands` (lines 132-153) from index `i`
on: every `;` met while `in_quotes` is overwritten by the placeholder `\1` and
its index in `input_str` is pushed on `protected_semicolons`. -/
def protect_semicolons : List Char → Nat → Bool → Char → List Char × List Nat
  | [], _, _, _ => ([], [])
  | c :: rest, i, in_quotes, quote_char =>
    if !in_quotes && (c = '\x22' || c = '\x27') then
      (c :: (protect_semicolons rest (i + 1) true c).1,
        (protect_semicolons rest (i + 1) true c).2)
    else if in_quotes && c = quote_char then
      (c :: (protect_semicolons rest (i + 1) false '\x00').1,
        (protect_semicolons rest (i + 1) false '\x00').2)
    else if in_quotes && c = ';' then
      ('\x01' :: (protect_semicolons rest (i + 1) in_quotes quote_char).1,
        i :: (protect_semicolons rest (i + 1) in_quotes quote_char).2)
    else
      (c :: (protect_semicolons rest (i + 1) in_quotes quote_char).1,
        (protect_semicolons rest (i + 1) in_quotes quote_char).2)

/-- The splitting loop (lines 156-173): `cur` is `input_str[start..]` read so
far; a piece is pushed at a `;` only when `pos > start`, and the last piece
only when `start < input_str.length()`. -/
def split_semicolons : List Char → List Char → List (List Char) → List (List Char)
  | [], cur, commands => if cur ≠ [] then commands ++ [cur] else commands
  | c :: rest, cur, commands =>
    if c = ';' then
      split_semicolons rest [] (if cur ≠ [] then commands ++ [cur] else commands)
    else
      split_semicolons rest (cur ++ [c]) commands

/-- The restoring loop (lines 179-185): `cmd[pos] = ';'` for every recorded
position `pos < cmd.length()`; `pos` is used as recorded, an index into
`input_str`. -/
def restore_semicolons (protected_semicolons : List Nat) (cmd : List Char) : List Char :=
  protected_semicolons.foldl (fun c pos => if pos < c.length then c.set pos ';' else c) cmd

/-- The call `cmd.find_first_not_of(" \t\n")`; `none` is `string::npos`. -/
def find_first_not_of_space (cmd : List Char) : Option Nat :=
  if cmd.findIdx (fun c => !is_space c) < cmd.length then
    some (cmd.findIdx (fun c => !is_space c))
  else none

/-- The call `cmd.find_last_not_of(" \t\n")`; `none` is `string::npos`. -/
def find_last_not_of_space (cmd : List Char) : Option Nat :=
  if cmd.reverse.findIdx (fun c => !is_space c) < cmd.length then
    some (cmd.length - 1 - cmd.reverse.findIdx (fun c => !is_space c))
  else none

/-- Lines 187-195 for one piece: restore, trim; `none` when the piece is
skipped (`continue`, or empty after trimming). -/
def prepare_statement (protected_semicolons : List Nat) (cmd : List Char) :
    Option (List Char) :=
  match find_first_not_of_space (restore_semicolons protected_semicolons cmd),
    find_last_not_of_space (restore_semicolons protected_semicolons cmd) with
  | some first, some last =>
    if ((restore_semicolons protected_semicolons cmd).drop first).take (last - first + 1) ≠ []
    then some (((restore_semicolons protected_semicolons cmd).drop first).take (last - first + 1))
    else none
  | _, _ => none

/-- The statements that `parse_semicolon_commands` hands to
`parse_and_execute`, in order, for the line `input`. -/
def semicolon_statements (input : List Char) : List (List Char) :=
  (split_semicolons (protect_semicolons input 0 false '\x00').1 [] []).filterMap
    (prepare_statement (protect_semicolons input 0 false '\x00').2)

/-! ## The text part of `parse_and_execute` (shell.cpp, lines 210-292) -/

/-- The quote-aware scan for `&` (lines 222-241) from index `i` on; `none` is
`amp_pos == -1`. -/
def amp_scan : List Char → Nat → Bool → Char → Option Nat → Option Nat
  | [], _, _, _, amp_pos => amp_pos
  | c :: rest, i, in_quotes, quote_char, amp_pos =>
    if !in_quotes && (c = '\x22' || c = '\x27') then
      amp_scan rest (i + 1) true c amp_pos
    else if in_quotes && c = quote_char then
      amp_scan rest (i + 1) false quote_char amp_pos
    else if !in_quotes && c = '&' then
      amp_scan rest (i + 1) in_quotes quote_char (some i)
    else
      amp_scan rest (i + 1) in_quotes quote_char amp_pos

/-- The loop of lines 261-265: drop trailing spaces and tabs. -/
def strip_trailing_blanks (s : List Char) : List Char :=
  (s.reverse.dropWhile (fun c => c = ' ' || c = '\t')).reverse

/-- Lines 212-267: skip leading blanks, detect a trailing unquoted `&`;
returns the text handed to the tokenizer and the `background` flag. -/
def strip_background (command_line : List Char) : List Char × Bool :=
  match amp_scan (command_line.dropWhile (fun c => c = ' ' || c = '\t')) 0 false '\x00' none with
  | none => (command_line.dropWhile (fun c => c = ' ' || c = '\t'), false)
  | some amp_pos =>
    if ((command_line.dropWhile (fun c => c = ' ' || c = '\t')).drop (amp_pos + 1)).all is_space
    then
      (strip_trailing_blanks
        ((command_line.dropWhile (fun c => c = ' ' || c = '\t')).take amp_pos), true)
    else (command_line.dropWhile (fun c => c = ' ' || c = '\t'), false)

/-- The loop of lines 284-292: some token is the pipe operator. -/
def has_pipe (tokens : List (Option String)) : Bool :=
  tokens.any (fun t => t = some "|")

/-- The string `full_cmd` of lines 297-303: the tokens up to the first null,
joined by single spaces. -/
def join_tokens : List (Option String) → String
  | some t :: some u :: rest => t ++ " " ++ join_tokens (some u :: rest)
  | some t :: _ => t
  | _ => ""

/-! ## The process model

The shell process is a record `Shell`; system calls are functions on it that
take their outcome from `Shell.os` and append an `Event` to `Shell.log`. -/

/-- What an open descriptor refers to. -/
inductive FileRef where
  /-- The stream descriptor `fd` of the shell referred to at startup. -/
  | std (fd : Nat)
  /-- The read end of the channel made by the `chan`-th successful `pipe()`. -/
  | pipe_read (chan : Nat)
  /-- The write end of the channel made by the `chan`-th successful `pipe()`. -/
  | pipe_write (chan : Nat)
  /-- A file opened by `open(path, ...)`; `writing` is `O_WRONLY | O_CREAT`,
  `append` tells `O_APPEND` from `O_TRUNC`. -/
  | file (path : String) (writing : Bool) (append : Bool)
deriving DecidableEq, Repr

/-- The descriptor table of a process: descriptor number and what it refers to. -/
abbrev FdTable := List (Nat × FileRef)

/-- What descriptor `fd` refers to, `none` when it is closed. -/
def fd_lookup (t : FdTable) (fd : Nat) : Option FileRef :=
  (t.find? (fun e => e.1 = fd)).map (fun e => e.2)

/-- The table after `close(fd)`. -/
def fd_close (t : FdTable) (fd : Nat) : FdTable :=
  t.filter (fun e => e.1 ≠ fd)

/-- The table after `dup2(oldfd, newfd)`; unchanged when `oldfd` is not open
(the call fails) or when both are the same. -/
def fd_dup2 (t : FdTable) (oldfd newfd : Nat) : FdTable :=
  match fd_lookup t oldfd with
  | none => t
  | some r => if oldfd = newfd then t else (newfd, r) :: fd_close t newfd

/-- What a forked child does once its standard streams are wired. -/
inductive ChildAction where
  /-- The child calls `handle_builtin(args)` and then `exit(EXIT_SUCCESS)`. -/
  | handle_builtin (args : List (Option String))
  /-- The child calls `execvp(file, argv)`; if that fails it reports the
  cause and calls `exit(EXIT_FAILURE)`. -/
  | execvp (file : String) (argv : List (Option String))
deriving DecidableEq, Repr

/-- A child created by `fork()`: its descriptor table after the `dup2`/`close`
calls that wire the pipe ends, the file redirection it then sets up with
`setup_redirection` (it calls `exit(EXIT_FAILURE)` if that fails), and the
action it takes afterwards. -/
structure ChildRun where
  fds : FdTable
  redirection : Option RedirectionInfo
  action : ChildAction
deriving DecidableEq, Repr

/-- How a `waitpid(pid, &status, 0)` call ends. -/
inductive WaitResult where
  | ok
  | eintr
  | error
deriving DecidableEq, Repr

/-- The signals the shell sends with `kill`. -/
inductive Signal where
  | SIGINT
  | SIGTSTP
deriving DecidableEq, Repr

/-- The calls into the line-input collaborator made by the signal handlers. -/
inductive ReadlineCall where
  | rl_on_new_line
  | rl_replace_line (text : String)
  | rl_redisplay
deriving DecidableEq, Repr

/-- How a child left the state reported by `waitpid(-1, &status, WNOHANG)`:
`WIFSIGNALED(status)` holds for `signaled` only. -/
inductive ChildStatus where
  | exited (code : Nat)
  | signaled (signal : Nat)
deriving DecidableEq, Repr

/-- What the shell process does, in program order. -/
inductive Event where
  /-- Text written to descriptor `fd` (1 for `cout`, 2 for `cerr`/`perror`),
  and what that descriptor referred to at the time. -/
  | write (fd : Nat) (ref : Option FileRef) (text : String)
  | pipe (result : Option (Nat × Nat))
  /-- The call `fork()` as seen by the parent, and the child when one exists. -/
  | fork (result : Int) (child : Option ChildRun)
  | open_file (path : String) (writing : Bool) (append : Bool) (result : Option Nat)
  | dup (fd : Nat) (result : Option Nat)
  | dup2 (oldfd newfd : Nat)
  | close (fd : Nat)
  | chdir (dir : String) (result : Option String)
  | waitpid (pid : Int) (result : WaitResult)
  /-- The call `handle_builtin(args)` made by the shell process itself. -/
  | handle_builtin (args : List (Option String))
  /-- The body of a builtin that is not modelled further (`ls`, `pinfo`,
  `search`, `history`). -/
  | builtin_body (name : String) (args : List (Option String))
  | exit (status : Nat)
  /-- The call `kill(pid, signal)` made by a signal handler. -/
  | kill (pid : Int) (signal : Signal)
  /-- A call into readline made by a signal handler. -/
  | readline (call : ReadlineCall)
deriving DecidableEq, Repr

/-- The outcomes of the system calls still to come, each list in call order.
When a list is used up the call fails (`pipe`, `fork`, `dup`, `open`, `chdir`)
or succeeds (`waitpid`, the unmodelled builtin bodies). -/
structure Os where
  pipe_results : List (Option (Nat × Nat)) := []
  /-- What `fork()` returns in the parent: a positive pid, or `-1`. -/
  fork_results : List Int := []
  dup_results : List (Option Nat) := []
  open_results : List (Option Nat) := []
  /-- For every `chdir`: `none` on failure, the new working directory on success. -/
  chdir_results : List (Option String) := []
  wait_results : List WaitResult := []
  /-- Return values of `builtin_pinfo`, `builtin_search`, `builtin_history`. -/
  builtin_results : List Int := []
  /-- The value of `get_user_home_dir()`. -/
  user_home : String := "/"
deriving DecidableEq, Repr

/-- The shell process: the globals `foreground_pid` (shell.cpp), `previous_dir`
and `command_history` (builtins.cpp), the function-static `expanded_path` of
`builtin_cd` (`none` until its initialiser has run), the descriptor table, the
working directory, and the log. -/
structure Shell where
  os : Os := {}
  fds : FdTable := [(0, FileRef.std 0), (1, FileRef.std 1), (2, FileRef.std 2)]
  foreground_pid : Int := -1
  cwd : String := "/"
  previous_dir : String := ""
  expanded_path : Option String := none
  command_history : List String := []
  /-- Number of successful `pipe()` calls so far. -/
  pipe_count : Nat := 0
  /-- The status once `exit()` has been called by the shell process. -/
  exited : Option Nat := none
  log : List Event := []
deriving DecidableEq, Repr

/-- Write `text` to descriptor `fd`. -/
def sys_write (fd : Nat) (text : String) (sh : Shell) : Shell :=
  { sh with log := sh.log ++ [Event.write fd (fd_lookup sh.fds fd) text] }

/-- Write each line of `lines` to `cerr`. -/
def write_cerr (lines : List String) (sh : Shell) : Shell :=
  lines.foldl (fun s l => sys_write 2 l s) sh

/-- The call `close(fd)`. -/
def sys_close (fd : Nat) (sh : Shell) : Shell :=
  { sh with fds := fd_close sh.fds fd, log := sh.log ++ [Event.close fd] }

/-- The call `dup2(oldfd, newfd)`; the flag is `false` when it returns `-1`. -/
def sys_dup2 (oldfd newfd : Nat) (sh : Shell) : Bool × Shell :=
  ((fd_lookup sh.fds oldfd).isSome,
    { sh with fds := fd_dup2 sh.fds oldfd newfd, log := sh.log ++ [Event.dup2 oldfd newfd] })

/-- The call `dup(fd)`; `none` is the return value `-1`. -/
def sys_dup (fd : Nat) (sh : Shell) : Option Nat × Shell :=
  match fd_lookup sh.fds fd, sh.os.dup_results.head?.join with
  | some r, some n =>
    (some n, { sh with os := { sh.os with dup_results := sh.os.dup_results.tail },
                       fds := (n, r) :: fd_close sh.fds n,
                       log := sh.log ++ [Event.dup fd (some n)] })
  | _, _ =>
    (none, { sh with os := { sh.os with dup_results := sh.os.dup_results.tail },
                     log := sh.log ++ [Event.dup fd none] })

/-- The call `open(path, flags)`; `none` is the return value `-1`. -/
def sys_open (path : String) (writing append : Bool) (sh : Shell) : Option Nat × Shell :=
  match sh.os.open_results.head?.join with
  | some n =>
    (some n, { sh with os := { sh.os with open_results := sh.os.open_results.tail },
                       fds := (n, FileRef.file path writing append) :: fd_close sh.fds n,
                       log := sh.log ++ [Event.open_file path writing append (some n)] })
  | none =>
    (none, { sh with os := { sh.os with open_results := sh.os.open_results.tail },
                     log := sh.log ++ [Event.open_file path writing append none] })

/-- The call `pipe(pipefd)`; `none` is the return value `-1`, otherwise the
pair is `(pipefd[0], pipefd[1])`. -/
def sys_pipe (sh : Shell) : Option (Nat × Nat) × Shell :=
  match sh.os.pipe_results.head?.join with
  | some rw =>
    (some rw, { sh with os := { sh.os with pipe_results := sh.os.pipe_results.tail },
                        fds := (rw.1, FileRef.pipe_read sh.pipe_count) ::
                               (rw.2, FileRef.pipe_write sh.pipe_count) ::
                               fd_close (fd_close sh.fds rw.1) rw.2,
                        pipe_count := sh.pipe_count + 1,
                        log := sh.log ++ [Event.pipe (some rw)] })
  | none =>
    (none, { sh with os := { sh.os with pipe_results := sh.os.pipe_results.tail },
                     log := sh.log ++ [Event.pipe none] })

/-- The call `fork()` in the parent: the value returned, with `child` recorded
as the new process when the value is a pid. -/
def sys_fork (child : ChildRun) (sh : Shell) : Int × Shell :=
  ((sh.os.fork_results.head?).getD (-1),
    { sh with os := { sh.os with fork_results := sh.os.fork_results.tail },
              log := sh.log ++ [Event.fork ((sh.os.fork_results.head?).getD (-1))
                (if 0 < (sh.os.fork_results.head?).getD (-1) then some child else none)] })

/-- The call `waitpid(pid, &status, 0)` with the `perror` of lines 198-204
(shell.cpp) and 352-358 (pipeline.cpp). -/
def sys_waitpid (pid : Int) (sh : Shell) : Shell :=
  let r := (sh.os.wait_results.head?).getD WaitResult.ok
  let sh1 : Shell :=
    { sh with os := { sh.os with wait_results := sh.os.wait_results.tail },
              log := sh.log ++ [Event.waitpid pid r] }
  if r = WaitResult.error then sys_write 2 "waitpid" sh1 else sh1

/-! ## `setup_redirection` and `restore_stdio` (redirection.cpp, lines 87-154) -/

/-- The output half of `setup_redirection` (lines 109-137). -/
def setup_output_redirection (redir : RedirectionInfo) (sh : Shell) : Bool × Shell :=
  if redir.has_output_redirect then
    match sys_open redir.output_file true redir.output_append sh with
    | (none, sh1) => (false, sys_write 2 ("shell: " ++ redir.output_file) sh1)
    | (some output_fd, sh1) =>
      if (sys_dup2 output_fd 1 sh1).1 then
        (true, sys_close output_fd (sys_dup2 output_fd 1 sh1).2)
      else
        (false, sys_close output_fd (sys_write 2 "dup2 output" (sys_dup2 output_fd 1 sh1).2))
  else (true, sh)

/-- The function `setup_redirection`, run by the shell process itself. -/
def setup_redirection (redir : RedirectionInfo) (sh : Shell) : Bool × Shell :=
  if redir.has_input_redirect then
    match sys_open redir.input_file false false sh with
    | (none, sh1) => (false, sys_write 2 ("shell: " ++ redir.input_file) sh1)
    | (some input_fd, sh1) =>
      if (sys_dup2 input_fd 0 sh1).1 then
        setup_output_redirection redir (sys_close input_fd (sys_dup2 input_fd 0 sh1).2)
      else
        (false, sys_close input_fd (sys_write 2 "dup2 input" (sys_dup2 input_fd 0 sh1).2))
  else setup_output_redirection redir sh

/-- One half of `restore_stdio`: `dup2(saved, fd); close(saved)` unless
`saved == -1`. -/
def restore_one (saved : Option Nat) (fd : Nat) (sh : Shell) : Shell :=
  match saved with
  | none => sh
  | some s => sys_close s (sys_dup2 s fd sh).2

/-- The function `restore_stdio`. -/
def restore_stdio (saved_stdin saved_stdout : Option Nat) (sh : Shell) : Shell :=
  restore_one saved_stdout 1 (restore_one saved_stdin 0 sh)

/-! ## Builtins (builtins.cpp) -/

/-- The count `argc` every builtin computes: the arguments before the first
null. -/
def argc_of (args : List (Option String)) : Nat :=
  (args.takeWhile Option.isSome).length

/-- The function `add_to_history` (`MAX_HISTORY` is 20). -/
def add_to_history (command : String) (sh : Shell) : Shell :=
  if command ≠ "" ∧ command ≠ "history" then
    if (sh.command_history ++ [command]).length > 20 then
      { sh with command_history := (sh.command_history ++ [command]).tail }
    else
      { sh with command_history := sh.command_history ++ [command] }
  else sh

/-- The tail of `builtin_cd` (lines 352-377) once `dir` is chosen: `getcwd`,
`chdir(dir)`, and the update of `previous_dir` after a successful change.
`getcwd` is taken to succeed and to return `Shell.cwd`. -/
def cd_to (dir : String) (sh : Shell) : Int × Shell :=
  match sh.os.chdir_results.head?.join with
  | none =>
    (-1, sys_write 2 "cd"
      { sh with os := { sh.os with chdir_results := sh.os.chdir_results.tail },
                log := sh.log ++ [Event.chdir dir none] })
  | some new_cwd =>
    (0, { sh with os := { sh.os with chdir_results := sh.os.chdir_results.tail },
                  cwd := new_cwd,
                  previous_dir := if sh.cwd ≠ "" then sh.cwd else sh.previous_dir,
                  log := sh.log ++ [Event.chdir dir (some new_cwd)] })

/-- The function `builtin_cd`. -/
def builtin_cd (args : List (Option String)) (sh : Shell) : Int × Shell :=
  if argc_of args > 2 then (-1, sys_write 2 "cd: too many arguments\n" sh)
  else if argc_of args = 1 then cd_to sh.os.user_home sh
  else if argc_of args = 2 then
    match args with
    | _ :: some arg :: _ =>
      if arg = "~" then cd_to sh.os.user_home sh
      else
        match arg.data with
        | '~' :: '/' :: _ =>
          let expanded := sh.expanded_path.getD (sh.os.user_home ++ String.mk (arg.data.drop 1))
          cd_to expanded { sh with expanded_path := some expanded }
        | _ =>
          if arg = "." then (0, sh)
          else if arg = ".." then cd_to ".." sh
          else if arg = "-" then
            if sh.previous_dir = "" then (-1, sys_write 2 "cd: OLDPWD not set\n" sh)
            else cd_to sh.previous_dir sh
          else if arg.data.head? = some '-' then
            (-1, sys_write 2 ("cd: " ++ arg ++ ": No such file or directory\n") sh)
          else cd_to arg sh
    | _ => (-1, sys_write 2 "cd: invalid directory\n" sh)
  else (-1, sys_write 2 "cd: invalid directory\n" sh)

/-- The function `builtin_echo`: the arguments after the name, joined by
single spaces, and a newline, on `cout`. -/
def builtin_echo (args : List (Option String)) (sh : Shell) : Int × Shell :=
  (0, sys_write 1
    (String.intercalate " " (((args.takeWhile Option.isSome).filterMap id).drop 1) ++ "\n") sh)

/-- The function `builtin_pwd`; `getcwd` is taken to succeed. -/
def builtin_pwd (sh : Shell) : Int × Shell :=
  (0, sys_write 1 (sh.cwd ++ "\n") sh)

/-- A builtin whose body is not modelled (`pinfo`, `search`, `history`): the
call is logged and its return value comes from `Os.builtin_results`. -/
def builtin_other (name : String) (args : List (Option String)) (sh : Shell) : Int × Shell :=
  ((sh.os.builtin_results.head?).getD 0,
    { sh with os := { sh.os with builtin_results := sh.os.builtin_results.tail },
              log := sh.log ++ [Event.builtin_body name args] })

/-- The option scan of `builtin_ls` (lines 187-214) over `args[1..]`: the first
character after the `-` of an option argument that is neither `a` nor `l`. -/
def ls_invalid_option : List String → Option Char
  | [] => none
  | arg :: rest =>
    if arg.data.head? = some '-' then
      match (arg.data.drop 1).find? (fun c => c ≠ 'a' && c ≠ 'l') with
      | some c => some c
      | none => ls_invalid_option rest
    else ls_invalid_option rest

/-- The function `builtin_ls`, which returns nothing: on an invalid option it
reports it and returns; the listing itself is not modelled further. -/
def builtin_ls (args : List (Option String)) (sh : Shell) : Shell :=
  match ls_invalid_option (((args.takeWhile Option.isSome).filterMap id).drop 1) with
  | some c => sys_write 2 ("ls: invalid option -- \x27" ++ String.singleton c ++ "\x27\n") sh
  | none => { sh with log := sh.log ++ [Event.builtin_body "ls" args] }

/-- The dispatch of `handle_builtin` (lines 656-696) on the command name. -/
def run_builtin (cmd : String) (args : List (Option String)) (sh : Shell) : Bool × Shell :=
  if cmd = "cd" then (decide ((builtin_cd args sh).1 = 0), (builtin_cd args sh).2)
  else if cmd = "pwd" then (decide ((builtin_pwd sh).1 = 0), (builtin_pwd sh).2)
  else if cmd = "echo" then (decide ((builtin_echo args sh).1 = 0), (builtin_echo args sh).2)
  else if cmd = "ls" then (true, builtin_ls args sh)
  else if cmd = "pinfo" then
    (decide ((builtin_other "pinfo" args sh).1 = 0), (builtin_other "pinfo" args sh).2)
  else if cmd = "search" then
    (decide ((builtin_other "search" args sh).1 = 0), (builtin_other "search" args sh).2)
  else if cmd = "history" then
    (decide ((builtin_other "history" args sh).1 = 0), (builtin_other "history" args sh).2)
  else if cmd = "exit" then
    (true, { sh with exited := some 0, log := sh.log ++ [Event.exit 0] })
  else (false, sh)

/-- The function `handle_builtin`, run by the shell process itself: the call
is logged, the command goes to the history (lines 646-654), then the builtin
runs.  After `exit(0)` the field `exited` is set and the callers below stop. -/
def handle_builtin (args : List (Option String)) (sh : Shell) : Bool × Shell :=
  match args with
  | [] => (true, { sh with log := sh.log ++ [Event.handle_builtin args] })
  | none :: _ => (true, { sh with log := sh.log ++ [Event.handle_builtin args] })
  | some cmd :: _ =>
    run_builtin cmd args
      (if cmd ≠ "history" then
        add_to_history (join_tokens args)
          { sh with log := sh.log ++ [Event.handle_builtin args] }
       else { sh with log := sh.log ++ [Event.handle_builtin args] })

/-! ## `execute_command` (shell.cpp, lines 146-208) -/

/-- The function `execute_command`.  The child (lines 162-187) calls
`setup_redirection(redir)` and then `execvp(redir.clean_args[0], ...)`. -/
def execute_command (args : List (Option String)) (background : Bool) (sh : Shell) : Shell :=
  let r := parse_redirection args
  let sh1 := write_cerr r.2 sh
  match r.1.clean_args with
  | some file :: _ =>
    let f := sys_fork
      { fds := sh1.fds, redirection := some r.1,
        action := ChildAction.execvp file r.1.clean_args } sh1
    if f.1 < 0 then sys_write 2 "fork" f.2
    else if f.1 = 0 then f.2
    else if background then
      sys_write 1 ("Background process started with PID: " ++ toString f.1 ++ "\n") f.2
    else
      { sys_waitpid f.1 { f.2 with foreground_pid := f.1 } with foreground_pid := -1 }
  | _ => sh1

/-! ## `execute_command_in_pipeline` (pipeline.cpp, lines 92-191) -/

/-- The descriptor table of a pipeline child after lines 114-123 (and 154-163):
`dup2(input_fd, 0); close(input_fd)` unless `input_fd` is 0, and the same for
`output_fd` and 1.  The child starts with a copy of the parent's table. -/
def child_wire (input_fd output_fd : Nat) (fds : FdTable) : FdTable :=
  let t := if input_fd ≠ 0 then fd_close (fd_dup2 fds input_fd 0) input_fd else fds
  if output_fd ≠ 1 then fd_close (fd_dup2 t output_fd 1) output_fd else t

/-- The function `execute_command_in_pipeline` as the parent runs it; the
result is the `pid` it returns.  What the child does (lines 106-135 and
146-184) is recorded in the `ChildRun` of the fork. -/
def execute_command_in_pipeline (cmd : Command) (input_fd output_fd : Nat) (sh : Shell) :
    Int × Shell :=
  match cmd.args with
  | some command_name :: _ =>
    if is_builtin_command command_name then
      let f := sys_fork
        { fds := child_wire input_fd output_fd sh.fds,
          redirection := if cmd.has_redirection then some cmd.redirection else none,
          action := ChildAction.handle_builtin cmd.args } sh
      if f.1 < 0 then (f.1, sys_write 2 "fork" f.2) else f
    else
      let f := sys_fork
        { fds := child_wire input_fd output_fd sh.fds,
          redirection := if cmd.has_redirection then some cmd.redirection else none,
          action := ChildAction.execvp command_name cmd.args } sh
      if f.1 < 0 then (f.1, sys_write 2 "fork" f.2) else f
  | _ => (-1, sh)

/-! ## `execute_pipeline` (pipeline.cpp, lines 194-367) -/

/-- A builtin run by the shell process itself (pipeline.cpp lines 216-236,
shell.cpp lines 330-350): with redirection the standard descriptors are saved
with `dup`, remapped, and restored after the builtin or after a failed setup. -/
def builtin_inline (with_redirection : Bool) (redir : RedirectionInfo)
    (args : List (Option String)) (sh : Shell) : Shell :=
  if with_redirection then
    let d0 := sys_dup 0 sh
    let d1 := sys_dup 1 d0.2
    let s := setup_redirection redir d1.2
    if s.1 then
      let h := handle_builtin args s.2
      if h.2.exited.isSome then h.2 else restore_stdio d0.1 d1.1 h.2
    else restore_stdio d0.1 d1.1 s.2
  else (handle_builtin args sh).2

/-- The vector `full_args` of lines 245-271: the non-null arguments followed by
the redirection operators and paths put back. -/
def rebuild_full_args (cmd : Command) : List (Option String) :=
  cmd.args.filter Option.isSome ++
    (if cmd.redirection.has_input_redirect then
      [some "<", some cmd.redirection.input_file] else []) ++
    (if cmd.redirection.has_output_redirect then
      [some (if cmd.redirection.output_append then ">>" else ">"),
        some cmd.redirection.output_file] else [])

/-- The loop of lines 288-298, `n` iterations left: `none` when a `pipe()`
failed (the function then returns), otherwise the vector `pipes`. -/
def create_pipes : Nat → List Nat → Shell → Option (List Nat) × Shell
  | 0, pipes, sh => (some pipes, sh)
  | n + 1, pipes, sh =>
    match sys_pipe sh with
    | (none, sh1) => (none, sys_write 2 "pipe" sh1)
    | (some rw, sh1) => create_pipes n (pipes ++ [rw.1, rw.2]) sh1

/-- A stage launch: the command and the two descriptors passed to
`execute_command_in_pipeline`, and the pid it returned. -/
structure StageRecord where
  stage : Nat
  cmd : Command
  input_fd : Nat
  output_fd : Nat
  pid : Int
deriving DecidableEq, Repr

/-- The loop of lines 301-333 from stage `i` on, for a pipeline of `n`
commands.  `pipes[k]` with `k` out of range is undefined behaviour: the
result is then `none`.  Returns the vector `pids`, the launches made, and the
shell. -/
def run_stages (n : Nat) (pipes : List Nat) :
    List Command → Nat → List Int → List StageRecord → Shell →
      Option (List Int × List StageRecord × Shell)
  | [], _, pids, recs, sh => some (pids, recs, sh)
  | cmd :: rest, i, pids, recs, sh =>
    match (if i > 0 then pipes[(i - 1) * 2]? else some 0),
      (if i < n - 1 then pipes[i * 2 + 1]? else some 1) with
    | some input_fd, some output_fd =>
      let r := execute_command_in_pipeline cmd input_fd output_fd sh
      let sh1 := if input_fd ≠ 0 then sys_close input_fd r.2 else r.2
      let sh2 := if output_fd ≠ 1 then sys_close output_fd sh1 else sh1
      run_stages n pipes rest (i + 1) (if r.1 > 0 then pids ++ [r.1] else pids)
        (recs ++ [{ stage := i, cmd := cmd, input_fd := input_fd, output_fd := output_fd,
                    pid := r.1 }]) sh2
    | _, _ => none

/-- The result of `execute_pipeline`: the shell afterwards and, for a pipeline
of two or more commands, the channels created and the stage launches made. -/
structure PipelineRun where
  shell : Shell
  pipes : List Nat := []
  stages : List StageRecord := []
deriving DecidableEq, Repr

/-- The function `execute_pipeline`; `none` stands for undefined behaviour
(an index into `pipes` out of range). -/
def execute_pipeline (pipeline : Pipeline) (sh : Shell) : Option PipelineRun :=
  match pipeline.commands with
  | [] => some { shell := sh }
  | [cmd] =>
    match cmd.args with
    | some command_name :: _ =>
      if is_builtin_command command_name then
        some { shell := builtin_inline cmd.has_redirection cmd.redirection cmd.args sh }
      else if cmd.has_redirection then
        some { shell := execute_command (rebuild_full_args cmd) pipeline.background sh }
      else
        some { shell := execute_command cmd.args pipeline.background sh }
    | _ => some { shell := sh }
  | commands =>
    match create_pipes (commands.length - 1) [] sh with
    | (none, sh1) => some { shell := sh1 }
    | (some pipes, sh1) =>
      match run_stages commands.length pipes commands 0 [] [] sh1 with
      | none => none
      | some (pids, recs, sh2) =>
        let sh3 := pipes.foldl (fun s fd => sys_close fd s) sh2
        if !pipeline.background then
          let sh4 : Shell :=
            match pids.getLast? with
            | some last => { sh3 with foreground_pid := last }
            | none => sh3
          some { shell := { pids.foldl (fun s pid => sys_waitpid pid s) sh4 with
                              foreground_pid := -1 },
                 pipes := pipes, stages := recs }
        else
          some { shell := sys_write 1 "Background pipeline started\n" sh3,
                 pipes := pipes, stages := recs }

/-! ## `parse_and_execute` (shell.cpp, lines 210-355) and
`parse_semicolon_commands` (main.cpp, lines 175-202) -/

/-- The test of line 314: the builtins that do not support background. -/
def is_background_refused (cmd : String) : Bool :=
  cmd = "cd" || cmd = "pwd" || cmd = "echo" || cmd = "ls" ||
  cmd = "pinfo" || cmd = "search" || cmd = "history"

/-- The function `parse_and_execute`; `none` stands for undefined behaviour
inside `execute_pipeline`. -/
def parse_and_execute (command_line : List Char) (sh : Shell) : Option Shell :=
  if command_line.dropWhile (fun c => c = ' ' || c = '\t') = [] then some sh
  else
    let tokens := tokenize_simple (strip_background command_line).1
    let background := (strip_background command_line).2
    match tokens with
    | [] => some sh
    | tok0 :: _ =>
      if has_pipe tokens then
        (execute_pipeline { (parse_pipeline tokens).1 with background := background }
          (write_cerr (parse_pipeline tokens).2
            (add_to_history (join_tokens tokens) sh))).map (fun r => r.shell)
      else if background && is_background_refused (tok0.getD "") then
        some (sys_write 2 "Background execution not supported for built-in commands\n" sh)
      else if is_builtin_command (tok0.getD "") then
        let r := parse_redirection tokens
        match r.1.clean_args with
        | some _ :: _ =>
          some (builtin_inline (r.1.has_input_redirect || r.1.has_output_redirect) r.1
            r.1.clean_args (write_cerr r.2 sh))
        | _ => some (write_cerr r.2 sh)
      else some (execute_command tokens background sh)

/-- The loop of lines 176-202 over the prepared statements; nothing runs after
the shell process has exited. -/
def run_statements : List (List Char) → Shell → Option Shell
  | [], sh => some sh
  | stmt :: rest, sh =>
    if sh.exited.isSome then some sh
    else
      match parse_and_execute stmt sh with
      | none => none
      | some sh1 => run_statements rest sh1

/-- The function `parse_semicolon_commands`. -/
def parse_semicolon_commands (input : List Char) (sh : Shell) : Option Shell :=
  run_statements (semicolon_statements input) sh


/-! ## Signal handlers (main.cpp, lines 19-95)

A handler runs on the shell process between two steps of the main program; it
reads and writes the global `foreground_pid` and nothing else of the state. -/

/-- The call `kill(pid, signal)`. -/
def sys_kill (pid : Int) (signal : Signal) (sh : Shell) : Shell :=
  { sh with log := sh.log ++ [Event.kill pid signal] }

/-- A call into readline. -/
def rl_call (call : ReadlineCall) (sh : Shell) : Shell :=
  { sh with log := sh.log ++ [Event.readline call] }

/-- The function `sigint_handler`. -/
def sigint_handler (sh : Shell) : Shell :=
  if sh.foreground_pid > 0 then
    sys_write 1 "\n" (sys_kill sh.foreground_pid Signal.SIGINT sh)
  else
    rl_call ReadlineCall.rl_redisplay
      (rl_call (ReadlineCall.rl_replace_line "")
        (rl_call ReadlineCall.rl_on_new_line (sys_write 1 "\n" sh)))

/-- The function `sigtstp_handler`; the notice is the result of
`snprintf(msg, 100, "\n[Process %d suspended]\n", foreground_pid)`. -/
def sigtstp_handler (sh : Shell) : Shell :=
  if sh.foreground_pid > 0 then
    rl_call ReadlineCall.rl_redisplay
      (rl_call (ReadlineCall.rl_replace_line "")
        (rl_call ReadlineCall.rl_on_new_line
          { sys_write 1 ("\n[Process " ++ toString sh.foreground_pid ++ " suspended]\n")
              (sys_kill sh.foreground_pid Signal.SIGTSTP sh) with foreground_pid := -1 }))
  else
    rl_call ReadlineCall.rl_redisplay
      (rl_call (ReadlineCall.rl_replace_line "")
        (rl_call ReadlineCall.rl_on_new_line (sys_write 1 "\n" sh)))

/-- The macro `WIFSIGNALED(status)`. -/
def WIFSIGNALED : ChildStatus → Bool
  | ChildStatus.signaled _ => true
  | ChildStatus.exited _ => false

/-- The body of the drain loop of `sigchld_handler` (lines 77-93) for one
process `pid` returned by `waitpid(-1, &status, WNOHANG)`. -/
def sigchld_step (sh : Shell) (child : Int × ChildStatus) : Shell :=
  if child.1 = sh.foreground_pid then { sh with foreground_pid := -1 }
  else if sh.foreground_pid = -1 ∧ WIFSIGNALED child.2 = false then
    rl_call ReadlineCall.rl_redisplay
      (rl_call ReadlineCall.rl_on_new_line
        (sys_write 1 ("\n[Background process " ++ toString child.1 ++ " finished]\n") sh))
  else sh

/-- The function `sigchld_handler`: `drained` lists the processes that the
successive `waitpid(-1, &status, WNOHANG)` calls return (each with a positive
pid) before the call that returns 0 or -1 and ends the loop. -/
def sigchld_handler (drained : List (Int × ChildStatus)) (sh : Shell) : Shell :=
  drained.foldl sigchld_step sh
/-! ## Reference definitions used to state the claims -/

/-- One of the three redirection operators. -/
def is_redirect_op (t : String) : Bool := t = "<" || t = ">" || t = ">>"

/-- No operator met by the left-to-right scan is the last token: every
operator the scan meets has a token after it (which the scan then skips). -/
def no_dangling_operator : List String → Bool
  | [] => true
  | t :: rest =>
    if is_redirect_op t then
      match rest with
      | [] => false
      | _ :: rest2 => no_dangling_operator rest2
    else no_dangling_operator rest

/-- The token list with every operator met by the scan, and the one token
after it, removed. -/
def strip_redirections : List String → List String
  | [] => []
  | t :: rest =>
    if is_redirect_op t then
      match rest with
      | [] => []
      | _ :: rest2 => strip_redirections rest2
    else t :: strip_redirections rest

/-- The operator and path pairs the left-to-right scan meets, in order. -/
def redirect_ops : List String → List (String × String)
  | [] => []
  | t :: rest =>
    if is_redirect_op t then
      match rest with
      | [] => []
      | f :: rest2 => (t, f) :: redirect_ops rest2
    else redirect_ops rest

/-- What `parse_redirection` records for one operator `p.1` followed by the
token `p.2` (lines 27-28, 43-45, 60-62). -/
def record_redirection (redir : RedirectionInfo) (p : String × String) : RedirectionInfo :=
  if p.1 = "<" then { redir with has_input_redirect := true, input_file := p.2 }
  else { redir with has_output_redirect := true, output_append := decide (p.1 = ">>"),
                    output_file := p.2 }

/-- The tokens between consecutive pipe tokens (or the ends of the stream),
without the segments that are empty. -/
def pipe_segments (toks : List String) : List (List String) :=
  (toks.splitOn "|").filter (fun seg => !seg.isEmpty)

/-- The pairs of `redirect_ops` whose operator is `<`. -/
def input_ops (toks : List String) : List (String × String) :=
  (redirect_ops toks).filter (fun p => p.1 = "<")

/-- The pairs of `redirect_ops` whose operator is `>` or `>>`. -/
def output_ops (toks : List String) : List (String × String) :=
  (redirect_ops toks).filter (fun p => p.1 = ">" || p.1 = ">>")

/-- The events that create a channel or a process, or run a builtin in the
shell process itself. -/
def is_process_event : Event → Bool
  | Event.pipe _ => true
  | Event.fork _ _ => true
  | Event.handle_builtin _ => true
  | _ => false

/-- The process events of a log, in order. -/
def process_events (log : List Event) : List Event := log.filter is_process_event

/-- The children created by the `fork()` calls of a log, in order. -/
def spawned (log : List Event) : List ChildRun :=
  log.filterMap (fun e => match e with
    | Event.fork _ (some child) => some child
    | _ => none)

/-- The argument vectors of the `handle_builtin` calls the shell process made
itself, in order. -/
def inline_builtins (log : List Event) : List (List (Option String)) :=
  log.filterMap (fun e => match e with
    | Event.handle_builtin args => some args
    | _ => none)

/-- The vector `pipes` for the channels `chans`, each given as the pair
(read end, write end) that its `pipe()` call returned: read end of channel `k`
at index `2k`, write end at index `2k + 1`. -/
def channel_descriptors : List (Nat × Nat) → List Nat
  | [] => []
  | c :: cs => c.1 :: c.2 :: channel_descriptors cs

/-- The `kill` calls of a log, in order. -/
def kills (log : List Event) : List (Int × Signal) :=
  log.filterMap (fun e => match e with
    | Event.kill pid signal => some (pid, signal)
    | _ => none)

/-- The texts written by the `write` calls of a log, with their descriptor,
in order. -/
def written (log : List Event) : List (Nat × String) :=
  log.filterMap (fun e => match e with
    | Event.write fd _ text => some (fd, text)
    | _ => none)

/-- The shell `b` has the working directory, the previous-directory record
and the foreground record of `a`, and the shell process ran no builtin between
the two. -/
def same_globals (a b : Shell) : Prop :=
  b.cwd = a.cwd ∧ b.previous_dir = a.previous_dir ∧ b.foreground_pid = a.foreground_pid ∧
    inline_builtins b.log = inline_builtins a.log

/-- A single or double quote character. -/
def is_quote (c : Char) : Bool := c = '\x22' || c = '\x27'

/-- The positions (counted from `i`) of the `&` characters lying outside
quotes; `open_quote` is the quote character of the quoted stretch the scan is
in, if any: a quote character opens a stretch, the same character closes it. -/
def unquoted_amps : List Char → Nat → Option Char → List Nat
  | [], _, _ => []
  | c :: rest, i, none =>
    if is_quote c then unquoted_amps rest (i + 1) (some c)
    else if c = '&' then i :: unquoted_amps rest (i + 1) none
    else unquoted_amps rest (i + 1) none
  | c :: rest, i, some q =>
    if c = q then unquoted_amps rest (i + 1) none
    else unquoted_amps rest (i + 1) (some q)

/-- The position of the last `&` lying outside quotes, if there is one. -/
def last_unquoted_amp (s : List Char) : Option Nat :=
  (unquoted_amps s 0 none).getLast?

/-- A space or a tab, the characters skipped at the start of a statement and
removed before a trailing `&`. -/
def is_blank (c : Char) : Bool := c = ' ' || c = '\t'

/-- The word collected so far as a token, nothing when it is empty. -/
def flush_word (cur : List Char) : List String :=
  if cur = [] then [] else [String.mk cur]

/-- The quote-blind reference tokenizer, one character at a time: `cur` is
the word being collected.  A space, tab or newline ends the word; `<`, `|` and
`>` end the word and are tokens themselves, `>` immediately followed by `>`
giving the one token `>>`; every other character, quotes included, extends
the word. -/
def reference_scan : List Char → List Char → List String
  | [], cur => flush_word cur
  | c :: rest, cur =>
    if is_space c then flush_word cur ++ reference_scan rest []
    else if c = '<' then flush_word cur ++ "<" :: reference_scan rest []
    else if c = '|' then flush_word cur ++ "|" :: reference_scan rest []
    else if c = '>' then
      match rest with
      | d :: rest2 =>
        if d = '>' then flush_word cur ++ ">>" :: reference_scan rest2 []
        else flush_word cur ++ ">" :: reference_scan (d :: rest2) []
      | [] => flush_word cur ++ [">"]
    else reference_scan rest (cur ++ [c])

/-- The tokens of a statement according to the reference tokenizer. -/
def reference_tokens (s : List Char) : List String := reference_scan s []


/-- What the operating system guarantees about its answers to the `dup` and
`open` calls of a statement that starts with descriptors 0 and 1 open: a
descriptor it hands out is not one in use (not 0, not 1, not the copy an
earlier `dup` returned), and once a `dup` has failed, the descriptor table
being full, no `open` succeeds.  A missing answer in `Os.dup_results` counts
as a failed `dup`. -/
def fresh_descriptors (os : Os) : Bool :=
  let d0 := os.dup_results.head?.join
  let d1 := os.dup_results.tail.head?.join
  d0 != some 0 && d0 != some 1 && d1 != some 0 && d1 != some 1 &&
  (d1 == none || d1 != d0) &&
  os.open_results.all (fun k => k == none ||
    (d0.isSome && d1.isSome && k != some 0 && k != some 1 && k != d0 && k != d1))

/-- A piece of a line with its leading and trailing spaces, tabs and newlines
removed. -/
def trim_spaces (p : List Char) : List Char :=
  ((p.reverse.dropWhile is_space).reverse).dropWhile is_space

/-- The `chdir` calls of a log, in order: the directory asked for and the
outcome. -/
def chdirs (log : List Event) : List (String × Option String) :=
  log.filterMap (fun e => match e with
    | Event.chdir dir result => some (dir, result)
    | _ => none)

/-- The values returned by the `fork()` calls of a log, in order. -/
def fork_results_of (log : List Event) : List Int :=
  log.filterMap (fun e => match e with
    | Event.fork result _ => some result
    | _ => none)

/-- The process identifiers passed to the `waitpid` calls of a log, in order. -/
def waited (log : List Event) : List Int :=
  log.filterMap (fun e => match e with
    | Event.waitpid pid _ => some pid
    | _ => none)

/-- A stage has a non-empty argument list: a first argument that is not the
null terminator. -/
def has_program (cmd : Command) : Bool :=
  match cmd.args with
  | some _ :: _ => true
  | _ => false

/-- The bytes of the file `path` after one event, when it held `content`
before: an `open` for writing without `O_APPEND` truncates the file, and a
`write` through a descriptor opened on the file for writing adds its text at
the end (the position of an appending descriptor, and of a truncating one that
is the only descriptor written through since the truncation). -/
def file_step (path : String) (content : String) : Event → String
  | Event.open_file p true false (some _) => if p = path then "" else content
  | Event.write _ (some (FileRef.file p true _)) text =>
    if p = path then content ++ text else content
  | _ => content

/-- The bytes of the file `path` after the events of `log`, when it held
`content` before. -/
def file_after (path : String) (log : List Event) (content : String) : String :=
  log.foldl (file_step path) content

/-- The statement made of the tokens `toks` separated by single spaces. -/
def space_separated : List String → List Char
  | [] => []
  | [t] => t.data
  | t :: rest => t.data ++ ' ' :: space_separated rest

/-- What `parse_redirection` leaves unset in a `RedirectionInfo` stays at its
default: no input path without input redirection, no output path and no
append flag without output redirection. -/
def redirection_defaults (r : RedirectionInfo) : Prop :=
  (r.has_input_redirect = false → r.input_file = "") ∧
  (r.has_output_redirect = false → r.output_file = "" ∧ r.output_append = false)

/-- A word of a statement: not empty, and free of spaces, tabs, newlines, of
the operator characters `<`, `>`, `|` and of `&`. -/
def is_plain_word (w : String) : Bool :=
  w.data ≠ [] && w.data.all (fun c => is_word_char c && c ≠ '&')

/-- The `fork()` calls of a log, in order: the value returned to the parent
and the child created, if one was. -/
def fork_events (log : List Event) : List (Int × Option ChildRun) :=
  log.filterMap (fun e => match e with
    | Event.fork result child => some (result, child)
    | _ => none)

/-- What the child of a pipeline stage is to do: run the builtin named by the
first argument through `handle_builtin` and exit, or replace its image by the
program of that name; nothing for a stage without a first argument. -/
def stage_action (cmd : Command) : Option ChildAction :=
  match cmd.args with
  | some name :: _ =>
    some (if is_builtin_command name then ChildAction.handle_builtin cmd.args
      else ChildAction.execvp name cmd.args)
  | _ => none

/-- The `fork()` call `e` is the launch recorded in `rec`: it returned the
recorded pid, and it created a child exactly when that pid is a process
identifier; the child is to do what the stage asks for, under the file
redirection of the stage. -/
def launched (rec : StageRecord) (e : Int × Option ChildRun) : Prop :=
  e.1 = rec.pid ∧
  (0 < rec.pid →
    ∃ child, e.2 = some child ∧ some child.action = stage_action rec.cmd ∧
      child.redirection =
        (if rec.cmd.has_redirection then some rec.cmd.redirection else none)) ∧
  (¬ 0 < rec.pid → e.2 = none)

/-- The child created by the `fork()` call `e` for the stage recorded in `rec`
has the read end of the channel before the stage as descriptor 0 (what
`stdin` is for stage 0) and the write end of the channel after it as
descriptor 1 (what `stdout` is for the stage numbered `last`); channel `k` of
the pipeline is the channel numbered `first + k` of the shell. -/
def wired (stdin stdout : Option FileRef) (first last : Nat) (rec : StageRecord)
    (e : Int × Option ChildRun) : Prop :=
  ∀ child, e.2 = some child →
    fd_lookup child.fds 0 =
      (if rec.stage = 0 then stdin else some (FileRef.pipe_read (first + (rec.stage - 1)))) ∧
    fd_lookup child.fds 1 =
      (if rec.stage = last then stdout else some (FileRef.pipe_write (first + rec.stage)))

/-- The descriptors that the shell holds right before it launches stage `i` of
a pipeline whose channels are `chans`: descriptors 0 and 1 are what they were
(`stdin`, `stdout`), the read ends of the channels `j >= i - 1` and the write
ends of the channels `j >= i` are open (the others were closed after the
earlier stages), channel `j` being the `first + j`-th channel made. -/
def channels_held (stdin stdout : Option FileRef) (first : Nat) (chans : List (Nat × Nat))
    (i : Nat) (T : FdTable) : Prop :=
  fd_lookup T 0 = stdin ∧ fd_lookup T 1 = stdout ∧
  ∀ j, j < chans.length →
    (i ≤ j + 1 → fd_lookup T (chans.getD j (0, 0)).1 = some (FileRef.pipe_read (first + j))) ∧
    (i ≤ j → fd_lookup T (chans.getD j (0, 0)).2 = some (FileRef.pipe_write (first + j)))

/-- The `fork()` and `waitpid` calls of a log, in order: `Sum.inl` with the
value a `fork()` returned, `Sum.inr` with the process a `waitpid` waited
for. -/
def forks_and_waits (log : List Event) : List (Int ⊕ Int) :=
  log.filterMap (fun e => match e with
    | Event.fork result _ => some (Sum.inl result)
    | Event.waitpid pid _ => some (Sum.inr pid)
    | _ => none)
/-! # Theorems

## `parse_redirection` and `parse_pipeline`: auxiliary facts -/

theorem parse_redirection_loop_word (arg : String) (rest : List (Option String))
    (redir : RedirectionInfo) (clean : List (Option String))
    (h : is_redirect_op arg = false) :
    parse_redirection_loop (some arg :: rest) redir clean =
      parse_redirection_loop rest redir (clean ++ [some arg]) := by
  simp only [is_redirect_op, Bool.or_eq_false_iff, decide_eq_false_iff_not] at h
  obtain ⟨⟨h1, h2⟩, h3⟩ := h
  rcases rest with _ | ⟨_ | f, rest2⟩ <;> simp [parse_redirection_loop, h1, h2, h3]

theorem parse_redirection_loop_op (op f : String) (rest : List (Option String))
    (redir : RedirectionInfo) (clean : List (Option String))
    (h : is_redirect_op op = true) :
    parse_redirection_loop (some op :: some f :: rest) redir clean =
      parse_redirection_loop rest (record_redirection redir (op, f)) clean := by
  simp only [is_redirect_op, Bool.or_eq_true, decide_eq_true_eq] at h
  rcases h with (h | h) | h <;> subst h <;>
    simp [parse_redirection_loop, record_redirection]

theorem parse_redirection_loop_dangling (op : String) (rest : List (Option String))
    (redir : RedirectionInfo) (clean : List (Option String))
    (h : is_redirect_op op = true) (hrest : rest = [] ∨ rest.head? = some none) :
    parse_redirection_loop (some op :: rest) redir clean =
      ({}, ["shell: syntax error near unexpected token \x27" ++ op ++ "\x27\n"]) := by
  simp only [is_redirect_op, Bool.or_eq_true, decide_eq_true_eq] at h
  rcases rest with _ | ⟨_ | f, rest2⟩
  · rcases h with (h | h) | h <;> subst h <;> simp [parse_redirection_loop]
  · rcases h with (h | h) | h <;> subst h <;> simp [parse_redirection_loop]
  · simp at hrest

theorem no_dangling_operator_word (t : String) (rest : List String)
    (h : is_redirect_op t = false) :
    no_dangling_operator (t :: rest) = no_dangling_operator rest := by
  cases rest <;> simp [no_dangling_operator, h]

theorem strip_redirections_word (t : String) (rest : List String)
    (h : is_redirect_op t = false) :
    strip_redirections (t :: rest) = t :: strip_redirections rest := by
  cases rest <;> simp [strip_redirections, h]

theorem redirect_ops_word (t : String) (rest : List String)
    (h : is_redirect_op t = false) :
    redirect_ops (t :: rest) = redirect_ops rest := by
  cases rest <;> simp [redirect_ops, h]

/-- Without a dangling operator the loop of `parse_redirection` ends with the
state obtained by recording the operators met, and the words kept. -/
theorem parse_redirection_loop_spec (toks : List String) :
    ∀ (redir : RedirectionInfo) (clean : List (Option String)),
      no_dangling_operator toks = true →
      parse_redirection_loop (toks.map some) redir clean =
        ({ (redirect_ops toks).foldl record_redirection redir with
            clean_args := clean ++ (strip_redirections toks).map some ++ [none] }, []) := by
  induction toks using no_dangling_operator.induct with
  | case1 =>
    intro redir clean _
    simp [parse_redirection_loop, strip_redirections, redirect_ops]
  | case2 t h =>
    intro redir clean hd
    simp [no_dangling_operator, h] at hd
  | case3 t h f rest2 ih =>
    intro redir clean hd
    simp only [no_dangling_operator, h, if_true] at hd
    simp only [List.map_cons, parse_redirection_loop_op _ _ _ _ _ h, strip_redirections,
      redirect_ops, h, if_true, List.foldl_cons]
    exact ih _ _ hd
  | case4 t rest h ih =>
    intro redir clean hd
    have h2 : is_redirect_op t = false := by simpa using h
    rw [no_dangling_operator_word _ _ h2] at hd
    rw [List.map_cons, parse_redirection_loop_word _ _ _ _ h2, strip_redirections_word _ _ h2,
      redirect_ops_word _ _ h2, ih _ _ hd]
    simp

/-- With a dangling operator the loop reports the syntax error and returns the
empty `RedirectionInfo`. -/
theorem parse_redirection_loop_error (toks : List String) :
    ∀ (redir : RedirectionInfo) (clean : List (Option String)),
      no_dangling_operator toks = false →
      ∃ op, is_redirect_op op = true ∧
        parse_redirection_loop (toks.map some) redir clean =
          ({}, ["shell: syntax error near unexpected token \x27" ++ op ++ "\x27\n"]) := by
  induction toks using no_dangling_operator.induct with
  | case1 => intro redir clean hd; simp [no_dangling_operator] at hd
  | case2 t h =>
    intro redir clean _
    exact ⟨t, h, parse_redirection_loop_dangling _ _ _ _ h (Or.inl rfl)⟩
  | case3 t h f rest2 ih =>
    intro redir clean hd
    simp only [no_dangling_operator, h, if_true] at hd
    simp only [List.map_cons, parse_redirection_loop_op _ _ _ _ _ h]
    exact ih _ _ hd
  | case4 t rest h ih =>
    intro redir clean hd
    have h2 : is_redirect_op t = false := by simpa using h
    rw [no_dangling_operator_word _ _ h2] at hd
    rw [List.map_cons, parse_redirection_loop_word _ _ _ _ h2]
    exact ih _ _ hd

theorem foldl_record_input (ops : List (String × String)) (redir : RedirectionInfo) :
    ((ops.foldl record_redirection redir).has_input_redirect =
        (redir.has_input_redirect || !(ops.filter (fun p => p.1 = "<")).isEmpty)) ∧
    (ops.foldl record_redirection redir).input_file =
        (((ops.filter (fun p => p.1 = "<")).getLast?).map (fun p => p.2)).getD
          redir.input_file := by
  induction ops using List.reverseRecOn with
  | nil => simp
  | append_singleton ops p ih =>
    rw [List.foldl_append, List.filter_append]
    by_cases hp : p.1 = "<"
    · simp [record_redirection, hp]
    · simp [record_redirection, hp, ih.1, ih.2]

theorem foldl_record_output (ops : List (String × String)) (redir : RedirectionInfo) :
    ((ops.foldl record_redirection redir).has_output_redirect =
        (redir.has_output_redirect || !(ops.filter (fun p => p.1 ≠ "<")).isEmpty)) ∧
    (ops.foldl record_redirection redir).output_file =
        (((ops.filter (fun p => p.1 ≠ "<")).getLast?).map (fun p => p.2)).getD
          redir.output_file ∧
    (ops.foldl record_redirection redir).output_append =
        (((ops.filter (fun p => p.1 ≠ "<")).getLast?).map (fun p => decide (p.1 = ">>"))).getD
          redir.output_append := by
  induction ops using List.reverseRecOn with
  | nil => simp
  | append_singleton ops p ih =>
    rw [List.foldl_append, List.filter_append]
    by_cases hp : p.1 = "<"
    · simp [record_redirection, hp, ih.1, ih.2.1, ih.2.2]
    · simp [record_redirection, hp]

theorem splitOn_pipe_cons (rest : List String) :
    ("|" :: rest).splitOn "|" = [] :: rest.splitOn "|" := by
  simp [List.splitOn]

theorem splitOn_word_cons (t : String) (rest : List String) (ht : t ≠ "|") :
    (t :: rest).splitOn "|" = (rest.splitOn "|").modifyHead (fun seg => t :: seg) := by
  simp [List.splitOn, ht]

theorem modifyHead_self (l : List (List String)) : l.modifyHead (fun seg => seg) = l := by
  cases l <;> rfl

theorem parse_pipeline_loop_spec (toks : List String) :
    ∀ (cmds : List Command) (cur : List String) (errs : List String),
      (parse_pipeline_loop (toks.map some) cmds (cur.map some) errs).1.commands =
        cmds ++ ((((toks.splitOn "|").modifyHead (fun seg => cur ++ seg)).filter
          (fun seg => !seg.isEmpty)).map (fun seg => (finish_command (seg.map some)).1)) := by
  induction toks with
  | nil =>
    intro cmds cur errs
    cases cur <;> simp [parse_pipeline_loop, List.splitOn]
  | cons t rest ih =>
    intro cmds cur errs
    by_cases ht : t = "|"
    · subst ht
      have h0 := ih cmds [] errs
      have h1 := ih (cmds ++ [(finish_command (cur.map some)).1]) []
        (errs ++ (finish_command (cur.map some)).2)
      simp only [List.map_nil, List.nil_append, modifyHead_self] at h0 h1
      rw [splitOn_pipe_cons]
      cases cur with
      | nil =>
        simp only [List.map_cons, List.map_nil, parse_pipeline_loop, if_true, ne_eq,
          not_true_eq_false, if_false, h0]
        simp
      | cons c cs =>
        simp only [List.map_cons, parse_pipeline_loop, if_true, ne_eq, reduceCtorEq,
          not_false_eq_true]
        simp only [List.map_cons] at h1
        rw [h1]
        simp
    · have h1 := ih cmds (cur ++ [t]) errs
      simp only [List.map_append, List.map_cons, List.map_nil] at h1
      simp only [List.map_cons, parse_pipeline_loop, ht, if_false, h1]
      rw [splitOn_word_cons _ _ ht]
      simp [List.modifyHead_modifyHead, Function.comp_def]

/-- Segments of a stream hold tokens of that stream only. -/
theorem mem_of_mem_splitOn (toks : List String) :
    ∀ seg, seg ∈ toks.splitOn "|" → ∀ x ∈ seg, x ∈ toks := by
  induction toks with
  | nil => intro seg hseg x hx; simp [List.splitOn] at hseg; subst hseg; simp at hx
  | cons t rest ih =>
    intro seg hseg x hx
    by_cases ht : t = "|"
    · subst ht
      rw [splitOn_pipe_cons] at hseg
      rcases List.mem_cons.1 hseg with h | h
      · subst h; simp at hx
      · exact List.mem_cons_of_mem _ (ih seg h x hx)
    · rw [splitOn_word_cons _ _ ht] at hseg
      cases hsp : rest.splitOn "|" with
      | nil => rw [hsp] at hseg; simp at hseg
      | cons h tl =>
        rw [hsp] at hseg ih
        simp only [List.modifyHead_cons, List.mem_cons] at hseg
        rcases hseg with h1 | h1
        · subst h1
          rcases List.mem_cons.1 hx with h2 | h2
          · subst h2; simp
          · exact List.mem_cons_of_mem _ (ih h (by simp) x h2)
        · exact List.mem_cons_of_mem _ (ih seg (by simp [h1]) x hx)

/-- A segment without redirection operators becomes a command whose
arguments are its tokens followed by the null terminator. -/
theorem finish_command_plain (seg : List String) (h : ∀ t ∈ seg, is_redirect_op t = false) :
    (finish_command (seg.map some)).1.args = seg.map some ++ [none] := by
  have hnd : no_dangling_operator seg = true ∧ redirect_ops seg = [] := by
    induction seg with
    | nil => simp [no_dangling_operator, redirect_ops]
    | cons t rest ih =>
      have ht := h t (by simp)
      rw [no_dangling_operator_word _ _ ht, redirect_ops_word _ _ ht]
      exact ih (fun x hx => h x (List.mem_cons_of_mem _ hx))
  simp [finish_command, parse_redirection, parse_redirection_loop_spec seg _ _ hnd.1, hnd.2]

/-! ## Claims on `parse_redirection` -/

theorem redirect_ops_are_operators (toks : List String) :
    ∀ p ∈ redirect_ops toks, is_redirect_op p.1 = true := by
  induction toks using redirect_ops.induct with
  | case1 => simp [redirect_ops]
  | case2 t h => simp [redirect_ops, h]
  | case3 t h f rest2 ih =>
    intro p hp
    simp only [redirect_ops, h, if_true, List.mem_cons] at hp
    rcases hp with hp | hp
    · subst hp; exact h
    · exact ih p hp
  | case4 t rest h ih =>
    intro p hp
    rw [redirect_ops_word _ _ (by simpa using h)] at hp
    exact ih p hp

theorem output_ops_eq (toks : List String) :
    output_ops toks = (redirect_ops toks).filter (fun p => p.1 ≠ "<") := by
  unfold output_ops
  apply List.filter_congr
  intro p hp
  have h := redirect_ops_are_operators toks p hp
  simp only [is_redirect_op, Bool.or_eq_true, decide_eq_true_eq] at h
  rcases h with (h | h) | h <;> simp [h]

/-- C6: for every token list in which no redirection operator is left without
a following token, the `clean_args` that `parse_redirection` returns is the
input list with every operator met by the left-to-right scan and the one token
after it removed, the remaining words in their original order, followed by one
end-of-list marker. -/
theorem parse_redirection_clean_args (toks : List String)
    (h : no_dangling_operator toks = true) :
    (parse_redirection (toks.map some)).1.clean_args =
      (strip_redirections toks).map some ++ [none] := by
  simp [parse_redirection, parse_redirection_loop_spec toks _ _ h]

/-- C6, witness: a token list whose second `>` is taken as a path. -/
theorem parse_redirection_clean_args_witness :
    no_dangling_operator ["sort", "<", "in", "-r", ">", ">", ">>", "out"] = true ∧
    (parse_redirection (["sort", "<", "in", "-r", ">", ">", ">>", "out"].map some)).1.clean_args =
      (strip_redirections ["sort", "<", "in", "-r", ">", ">", ">>", "out"]).map some ++ [none] :=
  ⟨by decide, parse_redirection_clean_args _ (by decide)⟩

/-- C7: for every token list without a dangling operator, `parse_redirection`
records an input redirection exactly when the scan met a `<`, with the token
after the last `<` as input path; it records an output redirection exactly
when the scan met a `>` or `>>`, with the token after the last of them as
output path, and the append flag is true exactly when that last output
operator is `>>` (so `>> a > b` leaves the flag cleared). -/
theorem parse_redirection_last_wins (toks : List String)
    (h : no_dangling_operator toks = true) :
    ((parse_redirection (toks.map some)).1.has_input_redirect = !(input_ops toks).isEmpty) ∧
    (∀ p, (input_ops toks).getLast? = some p →
      (parse_redirection (toks.map some)).1.input_file = p.2) ∧
    ((parse_redirection (toks.map some)).1.has_output_redirect = !(output_ops toks).isEmpty) ∧
    (∀ p, (output_ops toks).getLast? = some p →
      (parse_redirection (toks.map some)).1.output_file = p.2 ∧
      ((parse_redirection (toks.map some)).1.output_append = true ↔ p.1 = ">>")) ∧
    (output_ops toks = [] → (parse_redirection (toks.map some)).1.output_append = false) := by
  have hi := foldl_record_input (redirect_ops toks) {}
  have ho := foldl_record_output (redirect_ops toks) {}
  rw [← output_ops_eq] at ho
  simp only [parse_redirection, parse_redirection_loop_spec toks _ _ h]
  refine ⟨?_, ?_, ?_, ?_, ?_⟩
  · simpa [input_ops] using hi.1
  · intro p hp
    have := hi.2
    simp only [input_ops] at hp
    simp [this, hp]
  · simpa using ho.1
  · intro p hp
    simp [ho.2.1, ho.2.2, hp]
  · intro hp
    simp [ho.2.2, hp]

/-- C7, witness: `w >> a < i > b < j` records input `j`, output `b`, and no
append. -/
theorem parse_redirection_last_wins_witness :
    (parse_redirection (["w", ">>", "a", "<", "i", ">", "b", "<", "j"].map some)).1.input_file
        = "j" ∧
    (parse_redirection (["w", ">>", "a", "<", "i", ">", "b", "<", "j"].map some)).1.output_file
        = "b" ∧
    (parse_redirection (["w", ">>", "a", "<", "i", ">", "b", "<", "j"].map some)).1.output_append
        = false := by
  have h := parse_redirection_last_wins ["w", ">>", "a", "<", "i", ">", "b", "<", "j"]
    (by decide)
  refine ⟨h.2.1 ("<", "j") (by decide), (h.2.2.2.1 (">", "b") (by decide)).1, ?_⟩
  have h2 := (h.2.2.2.1 (">", "b") (by decide)).2
  cases hb : (parse_redirection
    (["w", ">>", "a", "<", "i", ">", "b", "<", "j"].map some)).1.output_append
  · rfl
  · exact absurd (h2.1 hb) (by decide)

/-! ## Claims on `parse_pipeline` -/

theorem parse_pipeline_commands (toks : List String) :
    (parse_pipeline (toks.map some)).1.commands =
      (pipe_segments toks).map (fun seg => (finish_command (seg.map some)).1) := by
  have h := parse_pipeline_loop_spec toks [] [] []
  simp only [List.map_nil, List.nil_append, modifyHead_self] at h
  simpa [parse_pipeline, pipe_segments] using h

theorem mem_pipe_segments (toks seg : List String) (h : seg ∈ pipe_segments toks) :
    seg ≠ [] ∧ ∀ x ∈ seg, x ∈ toks := by
  simp only [pipe_segments, List.mem_filter] at h
  refine ⟨?_, mem_of_mem_splitOn toks seg h.1⟩
  intro hs
  simp [hs] at h

/-- C8: for every token stream, `parse_pipeline` returns exactly one command
per non-empty pipe-delimited segment, in source order (the k-th command is
what the k-th non-empty segment resolves to; segments made empty by leading,
trailing or adjacent pipe tokens give no command); for a stream without
redirection operators the arguments of the k-th command are exactly the
tokens of the k-th non-empty segment, followed by the end-of-list marker. -/
theorem parse_pipeline_segments (toks : List String) :
    (parse_pipeline (toks.map some)).1.commands =
      (pipe_segments toks).map (fun seg => (finish_command (seg.map some)).1) ∧
    (parse_pipeline (toks.map some)).1.commands.length = (pipe_segments toks).length ∧
    ((∀ t ∈ toks, is_redirect_op t = false) →
      (parse_pipeline (toks.map some)).1.commands.map (fun c => c.args) =
        (pipe_segments toks).map (fun seg => seg.map some ++ [none])) := by
  refine ⟨parse_pipeline_commands toks, ?_, ?_⟩
  · rw [parse_pipeline_commands, List.length_map]
  · intro h
    rw [parse_pipeline_commands, List.map_map]
    apply List.map_congr_left
    intro seg hseg
    exact finish_command_plain seg
      (fun t ht => h t ((mem_pipe_segments toks seg hseg).2 t ht))

/-- C8, witness: the stream `| ls -l | | wc |` without redirection operators. -/
theorem parse_pipeline_segments_witness :
    (parse_pipeline (["|", "ls", "-l", "|", "|", "wc", "|"].map some)).1.commands.map
        (fun c => c.args) =
      (pipe_segments ["|", "ls", "-l", "|", "|", "wc", "|"]).map
        (fun seg => seg.map some ++ [none]) :=
  (parse_pipeline_segments ["|", "ls", "-l", "|", "|", "wc", "|"]).2.2 (by decide)

theorem argc_of_words (ws : List String) (rest : List (Option String)) :
    argc_of (ws.map some ++ none :: rest) = ws.length := by
  induction ws with
  | nil => simp [argc_of]
  | cons w ws ih =>
    simp only [argc_of, List.map_cons, List.cons_append, List.takeWhile_cons, Option.isSome_some,
      if_true, List.length_cons] at ih ⊢
    rw [ih]

theorem strip_redirections_eq_self (seg : List String) (h : redirect_ops seg = [])
    (hd : no_dangling_operator seg = true) : strip_redirections seg = seg := by
  induction seg using redirect_ops.induct with
  | case1 => rfl
  | case2 t h1 => simp [no_dangling_operator, h1] at hd
  | case3 t h1 f rest2 _ => simp [redirect_ops, h1] at h
  | case4 t rest h1 ih =>
    have h2 : is_redirect_op t = false := by simpa using h1
    rw [redirect_ops_word _ _ h2] at h
    rw [no_dangling_operator_word _ _ h2] at hd
    rw [strip_redirections_word _ _ h2, ih h hd]

/-- The arguments of the command made from a non-empty segment: just the
marker when the segment holds nothing but operators with their paths,
otherwise at least one word. -/
theorem finish_command_words (seg : List String) (hseg : seg ≠ []) :
    ((finish_command (seg.map some)).1.args.getLast? = some none) ∧
    (argc_of (finish_command (seg.map some)).1.args = 0 ↔
      (no_dangling_operator seg = true ∧ strip_redirections seg = [])) ∧
    (argc_of (finish_command (seg.map some)).1.args = 0 →
      (finish_command (seg.map some)).1.args = [none]) := by
  cases hd : no_dangling_operator seg with
  | false =>
    obtain ⟨op, _, hop⟩ := parse_redirection_loop_error seg {} [] hd
    have hargs : (finish_command (seg.map some)).1.args = seg.map some ++ [none] := by
      simp [finish_command, parse_redirection, hop]
    have hlen : 0 < seg.length := List.length_pos.2 hseg
    rw [hargs, argc_of_words]
    refine ⟨by simp, ?_, ?_⟩
    · constructor
      · intro h0; omega
      · intro h0; simp at h0
    · intro h0; omega
  | true =>
    have hspec := parse_redirection_loop_spec seg {} [] hd
    have hi := foldl_record_input (redirect_ops seg) {}
    have ho := foldl_record_output (redirect_ops seg) {}
    by_cases hops : redirect_ops seg = []
    · have hargs : (finish_command (seg.map some)).1.args = seg.map some ++ [none] := by
        simp [finish_command, parse_redirection, hspec, hops]
      have hlen : 0 < seg.length := List.length_pos.2 hseg
      rw [hargs, argc_of_words, strip_redirections_eq_self seg hops hd]
      refine ⟨by simp, ?_, ?_⟩
      · constructor
        · intro h0; omega
        · intro h0; exact absurd h0.2 hseg
      · intro h0; omega
    · have hhas : ((redirect_ops seg).foldl record_redirection {}).has_input_redirect = true ∨
          ((redirect_ops seg).foldl record_redirection {}).has_output_redirect = true := by
        rw [hi.1, ho.1]
        cases hro : redirect_ops seg with
        | nil => exact absurd hro hops
        | cons p ps =>
          by_cases hp : p.1 = "<"
          · left; simp [List.filter_cons, hp]
          · right; simp [List.filter_cons, hp]
      have hargs : (finish_command (seg.map some)).1.args =
          (strip_redirections seg).map some ++ [none] := by
        simp only [finish_command, parse_redirection, hspec, List.nil_append]
        rcases hhas with h1 | h1 <;> simp [h1]
      rw [hargs, argc_of_words]
      refine ⟨by simp, ?_, ?_⟩
      · simp [List.length_eq_zero]
      · intro h0
        simp [List.length_eq_zero.1 h0]

/-- C9 (as amended): every Command that `parse_pipeline` returns comes from a
non-empty segment, ends with the end-of-list marker, and has at least one
argument word before it unless its segment holds nothing but redirection
operators with their paths (as `> f` in `> f | cat`); such a Command is just
the marker, and both `execute_command_in_pipeline` and the single-command
path of `execute_pipeline` skip it without creating a process. -/
theorem parse_pipeline_command_words (toks : List String) (c : Command)
    (hc : c ∈ (parse_pipeline (toks.map some)).1.commands) :
    c.args.getLast? = some none ∧
    ∃ seg ∈ pipe_segments toks, c = (finish_command (seg.map some)).1 ∧
      (argc_of c.args = 0 ↔ (no_dangling_operator seg = true ∧ strip_redirections seg = [])) ∧
      (argc_of c.args = 0 →
        c.args = [none] ∧
        (∀ i o sh, execute_command_in_pipeline c i o sh = (-1, sh)) ∧
        (∀ bg sh, execute_pipeline { commands := [c], background := bg } sh =
          some { shell := sh })) := by
  rw [parse_pipeline_commands, List.mem_map] at hc
  obtain ⟨seg, hseg, rfl⟩ := hc
  have hw := finish_command_words seg (mem_pipe_segments toks seg hseg).1
  refine ⟨hw.1, seg, hseg, rfl, hw.2.1, ?_⟩
  intro h0
  have ha := hw.2.2 h0
  refine ⟨ha, ?_, ?_⟩
  · intro i o sh
    simp [execute_command_in_pipeline, ha]
  · intro bg sh
    simp [execute_pipeline, ha]

/-- C9, witness: the first Command of `> f | cat` comes from the segment `> f`. -/
theorem parse_pipeline_command_words_witness :
    ∃ seg ∈ pipe_segments [">", "f", "|", "cat"],
      ({ args := [none],
         redirection := { has_output_redirect := true, output_file := "f", clean_args := [none] },
         has_redirection := true } : Command) = (finish_command (seg.map some)).1 :=
  (parse_pipeline_command_words [">", "f", "|", "cat"]
    { args := [none],
      redirection := { has_output_redirect := true, output_file := "f", clean_args := [none] },
      has_redirection := true } (by decide)).2.imp (fun _ h => ⟨h.1, h.2.1⟩)

/-- C9, counterexample: for the statement `> f | cat` the first Command of the
pipeline has no argument word before its end-of-list marker. -/
theorem parse_pipeline_zero_words_counterexample :
    has_pipe (tokenize_simple "> f | cat".toList) = true ∧
    (parse_pipeline (tokenize_simple "> f | cat".toList)).1.commands.map
      (fun c => (c.args, argc_of c.args)) = [([none], 0), ([some "cat", none], 1)] := by
  decide

theorem segments_nonempty_iff (toks : List String) :
    ∀ cur : List String,
      ((((toks.splitOn "|").modifyHead (fun seg => cur ++ seg)).filter
        (fun seg => !seg.isEmpty)) ≠ []) ↔ (cur ≠ [] ∨ ∃ t ∈ toks, t ≠ "|") := by
  induction toks with
  | nil => intro cur; cases cur <;> simp [List.splitOn]
  | cons t rest ih =>
    intro cur
    by_cases ht : t = "|"
    · subst ht
      have h0 := ih []
      simp only [List.nil_append, modifyHead_self, ne_eq, not_true_eq_false, false_or] at h0
      rw [splitOn_pipe_cons]
      cases cur with
      | nil => simpa using h0
      | cons c cs => simp
    · have h1 := ih (cur ++ [t])
      rw [splitOn_word_cons _ _ ht, List.modifyHead_modifyHead]
      simp only [Function.comp_def, List.append_assoc, List.singleton_append] at h1
      simp only [Function.comp_def, h1]
      constructor
      · intro _; exact Or.inr ⟨t, by simp, ht⟩
      · intro _; exact Or.inl (by simp)

/-- C10 (as amended): the Pipeline that `parse_pipeline` returns for a token
stream (in particular for a statement whose tokens contain a pipe token) has
at least one command exactly when some token is not a pipe token; for a
statement made of pipe tokens only (such as `|`) the Pipeline is empty, and
`execute_pipeline` returns at once for it, leaving the shell as it was. -/
theorem parse_pipeline_command_count (toks : List String) :
    (1 ≤ (parse_pipeline (toks.map some)).1.commands.length ↔ ∃ t ∈ toks, t ≠ "|") ∧
    ((∀ t ∈ toks, t = "|") →
      (parse_pipeline (toks.map some)).1.commands = [] ∧
      ∀ bg sh, execute_pipeline { (parse_pipeline (toks.map some)).1 with background := bg } sh =
        some { shell := sh }) := by
  have h := segments_nonempty_iff toks []
  simp only [List.nil_append, modifyHead_self, ne_eq, not_true_eq_false, false_or] at h
  have hiff : (1 ≤ (parse_pipeline (toks.map some)).1.commands.length ↔ ∃ t ∈ toks, t ≠ "|") := by
    rw [parse_pipeline_commands, List.length_map, ← h, pipe_segments, Nat.succ_le_iff,
      List.length_pos]
  refine ⟨hiff, ?_⟩
  intro hall
  have hnil : (parse_pipeline (toks.map some)).1.commands = [] := by
    apply List.eq_nil_of_length_eq_zero
    by_contra hne
    obtain ⟨t, ht, hne2⟩ := hiff.1 (by omega)
    exact hne2 (hall t ht)
  refine ⟨hnil, ?_⟩
  intro bg sh
  simp [execute_pipeline, hnil]

/-- C10, witness: the streams `| |` and `ls | | wc`. -/
theorem parse_pipeline_command_count_witness :
    has_pipe (["|", "|"].map some) = true ∧
    (parse_pipeline (["|", "|"].map some)).1.commands = [] ∧
    (1 ≤ (parse_pipeline (["ls", "|", "|", "wc"].map some)).1.commands.length) :=
  ⟨by decide, ((parse_pipeline_command_count ["|", "|"]).2 (by decide)).1,
    (parse_pipeline_command_count ["ls", "|", "|", "wc"]).1.2 (by decide)⟩

/-- C10, counterexample: the statement `|` has a pipe token, and the Pipeline
`parse_pipeline` returns for it has no command. -/
theorem pipe_only_statement_counterexample :
    has_pipe (tokenize_simple "|".toList) = true ∧
    (parse_pipeline (tokenize_simple "|".toList)).1.commands.length = 0 := by
  decide

/-! ## Which functions create processes: frame facts on the log -/

@[simp] theorem process_events_sys_write (fd : Nat) (text : String) (sh : Shell) :
    process_events (sys_write fd text sh).log = process_events sh.log := by
  simp [sys_write, process_events, is_process_event]

@[simp] theorem process_events_write_cerr (lines : List String) (sh : Shell) :
    process_events (write_cerr lines sh).log = process_events sh.log := by
  induction lines generalizing sh with
  | nil => rfl
  | cons l ls ih => simp only [write_cerr, List.foldl_cons] at ih ⊢; rw [ih]; simp

@[simp] theorem process_events_sys_close (fd : Nat) (sh : Shell) :
    process_events (sys_close fd sh).log = process_events sh.log := by
  simp [sys_close, process_events, is_process_event]

@[simp] theorem process_events_sys_dup2 (a b : Nat) (sh : Shell) :
    process_events (sys_dup2 a b sh).2.log = process_events sh.log := by
  simp [sys_dup2, process_events, is_process_event]

@[simp] theorem process_events_sys_dup (fd : Nat) (sh : Shell) :
    process_events (sys_dup fd sh).2.log = process_events sh.log := by
  unfold sys_dup
  split <;> simp [process_events, is_process_event]

@[simp] theorem process_events_sys_open (path : String) (w a : Bool) (sh : Shell) :
    process_events (sys_open path w a sh).2.log = process_events sh.log := by
  unfold sys_open
  split <;> simp [process_events, is_process_event]

@[simp] theorem process_events_setup_output_redirection (redir : RedirectionInfo) (sh : Shell) :
    process_events (setup_output_redirection redir sh).2.log = process_events sh.log := by
  unfold setup_output_redirection
  split
  · split
    · next h => simp [← congrArg (fun x => process_events x.2.log) h]
    · next h =>
      have := congrArg (fun x => process_events x.2.log) h
      simp only [process_events_sys_open] at this
      split <;> simp [← this]
  · rfl

@[simp] theorem process_events_setup_redirection (redir : RedirectionInfo) (sh : Shell) :
    process_events (setup_redirection redir sh).2.log = process_events sh.log := by
  unfold setup_redirection
  split
  · split
    · next h => simp [← congrArg (fun x => process_events x.2.log) h]
    · next h =>
      have := congrArg (fun x => process_events x.2.log) h
      simp only [process_events_sys_open] at this
      split <;> simp [← this]
  · simp

@[simp] theorem process_events_restore_stdio (a b : Option Nat) (sh : Shell) :
    process_events (restore_stdio a b sh).log = process_events sh.log := by
  cases a <;> cases b <;> simp [restore_stdio, restore_one]

@[simp] theorem add_to_history_log (c : String) (sh : Shell) :
    (add_to_history c sh).log = sh.log := by
  unfold add_to_history
  split
  · split <;> rfl
  · rfl

@[simp] theorem process_events_cd_to (dir : String) (sh : Shell) :
    process_events (cd_to dir sh).2.log = process_events sh.log := by
  unfold cd_to
  split <;> simp [process_events, is_process_event, sys_write]

@[simp] theorem process_events_builtin_cd (args : List (Option String)) (sh : Shell) :
    process_events (builtin_cd args sh).2.log = process_events sh.log := by
  unfold builtin_cd
  repeat' split
  all_goals simp

@[simp] theorem process_events_builtin_ls (args : List (Option String)) (sh : Shell) :
    process_events (builtin_ls args sh).log = process_events sh.log := by
  unfold builtin_ls
  split <;> simp [process_events, is_process_event, sys_write]

@[simp] theorem process_events_run_builtin (cmd : String) (args : List (Option String))
    (sh : Shell) :
    process_events (run_builtin cmd args sh).2.log = process_events sh.log := by
  unfold run_builtin
  repeat' split
  all_goals first
    | exact process_events_builtin_cd args sh
    | exact process_events_builtin_ls args sh
    | simp [builtin_echo, builtin_pwd, builtin_other, process_events, is_process_event,
        sys_write]

/-- The shell process running `handle_builtin` is one process event, the call
itself: no builtin creates a channel or a process. -/
theorem process_events_handle_builtin (args : List (Option String)) (sh : Shell) :
    process_events (handle_builtin args sh).2.log =
      process_events sh.log ++ [Event.handle_builtin args] := by
  rcases args with _ | ⟨_ | cmd, tl⟩
  · simp [handle_builtin, process_events, is_process_event]
  · simp [handle_builtin, process_events, is_process_event]
  · simp only [handle_builtin, process_events_run_builtin]
    split <;> simp [process_events, is_process_event]

/-- A builtin run inline adds at most one process event, its own call. -/
theorem process_events_builtin_inline (with_redirection : Bool) (redir : RedirectionInfo)
    (args : List (Option String)) (sh : Shell) :
    process_events (builtin_inline with_redirection redir args sh).log =
        process_events sh.log ++ [Event.handle_builtin args] ∨
    (with_redirection = true ∧
      process_events (builtin_inline with_redirection redir args sh).log =
        process_events sh.log) := by
  unfold builtin_inline
  cases with_redirection with
  | false => left; simp [process_events_handle_builtin]
  | true =>
    simp only [if_true]
    split
    · left
      split <;> simp [process_events_handle_builtin]
    · right
      simp

/-! ## Claims on the execution paths -/

theorem execute_pipeline_single_builtin (p : Pipeline) (cmd : Command) (name : String)
    (rest : List (Option String)) (sh : Shell) (hp : p.commands = [cmd])
    (hargs : cmd.args = some name :: rest) (hb : is_builtin_command name = true) :
    execute_pipeline p sh =
      some { shell := builtin_inline cmd.has_redirection cmd.redirection cmd.args sh } := by
  unfold execute_pipeline
  rw [hp]
  simp only [hargs, hb, if_true]

theorem blank_statement_has_no_pipe (command_line : List Char)
    (h : command_line.dropWhile (fun c => c = ' ' || c = '\t') = []) :
    has_pipe (tokenize_simple (strip_background command_line).1) = false := by
  have hs : strip_background command_line = ([], false) := by
    simp [strip_background, h, amp_scan]
  rw [hs]
  decide

/-- C3, counterexample: the statement `cd /tmp |` uses a pipe operator and
yields one stage whose program is the builtin `cd`; the shell process runs it
itself, no child is created, and the working directory and the
previous-directory record of the shell have changed afterwards. -/
theorem single_builtin_pipe_counterexample :
    (parse_and_execute "cd /tmp |".toList
        { os := { chdir_results := [some "/tmp"], fork_results := [100] }, cwd := "/home" }).map
      (fun s => (s.cwd, s.previous_dir, spawned s.log, inline_builtins s.log)) =
    some ("/tmp", "/home", [], [[some "cd", some "/tmp", none]]) := by
  decide

/-- C1, failing input: for the statement `echo hi > | cat` the syntax error of
the first segment is reported, and yet both stages are spawned; the child of
the first stage runs the builtin `echo` with the operator as an argument. -/
theorem dangling_operator_in_pipeline_is_executed :
    (parse_and_execute "echo hi > | cat".toList
        { os := { pipe_results := [some (3, 4)], fork_results := [100, 101] } }).map
      (fun s => (s.log.head?, (spawned s.log).map (fun c => c.action))) =
    some (some (Event.write 2 (some (FileRef.std 2))
                  "shell: syntax error near unexpected token \x27>\x27\n"),
          [ChildAction.handle_builtin [some "echo", some "hi", some ">", none],
           ChildAction.execvp "cat" [some "cat", none]]) := by
  decide

/-- C2, failing input: in the line `a; echo "x;y"` the quoted `;` of the second
statement is restored at its index in the whole line instead of its index in
the statement: the statement handed on is `echo "x\1y;`, with the placeholder
byte where the `;` was and a `;` over the closing quote. -/
theorem quoted_semicolon_restored_at_wrong_index :
    semicolon_statements "a; echo \x22x;y\x22".toList =
      ["a".toList, "echo \x22x\x01y;".toList] := by
  decide

/-- C4, failing input: in the pipeline `ls | cat`, with channel 0 on the
descriptors 3 (read end) and 4 (write end), the child of stage 0 still holds
descriptor 3, the read end of channel 0, when it runs its builtin; the child of
stage 1 holds no channel descriptor besides its standard input. -/
theorem pipeline_child_keeps_read_end :
    (parse_and_execute "ls | cat".toList
        { os := { pipe_results := [some (3, 4)], fork_results := [100, 101] } }).map
      (fun s => (spawned s.log).map (fun c => (c.action, fd_lookup c.fds 3, fd_lookup c.fds 4))) =
    some [(ChildAction.handle_builtin [some "ls", none], some (FileRef.pipe_read 0), none),
          (ChildAction.execvp "cat" [some "cat", none], none, none)] := by
  decide

/-! ## The wiring of a pipeline of two or more stages -/

theorem channel_descriptors_append (a b : List (Nat × Nat)) :
    channel_descriptors (a ++ b) = channel_descriptors a ++ channel_descriptors b := by
  induction a with
  | nil => rfl
  | cons c cs ih => simp [channel_descriptors, ih]

theorem channel_descriptors_length (chans : List (Nat × Nat)) :
    (channel_descriptors chans).length = 2 * chans.length := by
  induction chans with
  | nil => rfl
  | cons c cs ih => simp [channel_descriptors, ih]; omega

theorem channel_descriptors_read (chans : List (Nat × Nat)) :
    ∀ k, k < chans.length →
      (channel_descriptors chans)[k * 2]? = some (chans.getD k (0, 0)).1 := by
  induction chans with
  | nil => intro k hk; simp at hk
  | cons c cs ih =>
    intro k hk
    cases k with
    | zero => simp [channel_descriptors]
    | succ k =>
      have := ih k (by simpa using hk)
      simpa [channel_descriptors, Nat.succ_mul] using this

theorem channel_descriptors_write (chans : List (Nat × Nat)) :
    ∀ k, k < chans.length →
      (channel_descriptors chans)[k * 2 + 1]? = some (chans.getD k (0, 0)).2 := by
  induction chans with
  | nil => intro k hk; simp at hk
  | cons c cs ih =>
    intro k hk
    cases k with
    | zero => simp [channel_descriptors]
    | succ k =>
      have := ih k (by simpa using hk)
      have he : (k + 1) * 2 + 1 = (k * 2 + 1) + 1 + 1 := by omega
      rw [he]
      simpa [channel_descriptors] using this

/-- When the system grants every channel, the creation loop returns their
descriptors in order and counts one channel per iteration. -/
theorem create_pipes_ok (chans : List (Nat × Nat)) :
    ∀ (pipes : List Nat) (sh : Shell) (rest : List (Option (Nat × Nat))),
      sh.os.pipe_results = chans.map some ++ rest →
      ∃ sh2, create_pipes chans.length pipes sh =
          (some (pipes ++ channel_descriptors chans), sh2) ∧
        sh2.pipe_count = sh.pipe_count + chans.length := by
  induction chans with
  | nil => intro pipes sh rest _; exact ⟨sh, by simp [create_pipes, channel_descriptors], rfl⟩
  | cons c cs ih =>
    intro pipes sh rest hos
    have hp : sys_pipe sh = (some c,
        { sh with os := { sh.os with pipe_results := sh.os.pipe_results.tail },
                  fds := (c.1, FileRef.pipe_read sh.pipe_count) ::
                         (c.2, FileRef.pipe_write sh.pipe_count) ::
                         fd_close (fd_close sh.fds c.1) c.2,
                  pipe_count := sh.pipe_count + 1,
                  log := sh.log ++ [Event.pipe (some c)] }) := by
      simp [sys_pipe, hos]
    obtain ⟨sh2, h2, h3⟩ := ih (pipes ++ [c.1, c.2])
      { sh with os := { sh.os with pipe_results := sh.os.pipe_results.tail },
                fds := (c.1, FileRef.pipe_read sh.pipe_count) ::
                       (c.2, FileRef.pipe_write sh.pipe_count) ::
                       fd_close (fd_close sh.fds c.1) c.2,
                pipe_count := sh.pipe_count + 1,
                log := sh.log ++ [Event.pipe (some c)] } rest (by simp [hos])
    refine ⟨sh2, ?_, ?_⟩
    · simp only [List.length_cons, create_pipes, hp, h2]
      simp [channel_descriptors]
    · simp only [h3, List.length_cons]; omega

@[simp] theorem sys_write_pipe_count (fd : Nat) (text : String) (sh : Shell) :
    (sys_write fd text sh).pipe_count = sh.pipe_count := rfl

@[simp] theorem sys_close_pipe_count (fd : Nat) (sh : Shell) :
    (sys_close fd sh).pipe_count = sh.pipe_count := rfl

@[simp] theorem sys_fork_pipe_count (child : ChildRun) (sh : Shell) :
    (sys_fork child sh).2.pipe_count = sh.pipe_count := rfl

@[simp] theorem sys_waitpid_pipe_count (pid : Int) (sh : Shell) :
    (sys_waitpid pid sh).pipe_count = sh.pipe_count := by
  unfold sys_waitpid
  simp only []
  split <;> rfl

@[simp] theorem execute_command_in_pipeline_pipe_count (cmd : Command) (i o : Nat)
    (sh : Shell) : (execute_command_in_pipeline cmd i o sh).2.pipe_count = sh.pipe_count := by
  have hf : ∀ child : ChildRun,
      (if (sys_fork child sh).1 < 0 then
          ((sys_fork child sh).1, sys_write 2 "fork" (sys_fork child sh).2)
        else sys_fork child sh).2.pipe_count = sh.pipe_count := by
    intro child
    split <;> simp
  unfold execute_command_in_pipeline
  split
  · split
    · exact hf _
    · exact hf _
  · rfl

theorem foldl_sys_close_pipe_count (fds : List Nat) (sh : Shell) :
    (fds.foldl (fun s fd => sys_close fd s) sh).pipe_count = sh.pipe_count := by
  induction fds generalizing sh with
  | nil => rfl
  | cons fd fds ih => simp [List.foldl_cons, ih]

theorem foldl_sys_waitpid_pipe_count (pids : List Int) (sh : Shell) :
    (pids.foldl (fun s pid => sys_waitpid pid s) sh).pipe_count = sh.pipe_count := by
  induction pids generalizing sh with
  | nil => rfl
  | cons pid pids ih => simp [List.foldl_cons, ih]

theorem run_stages_wiring (chans : List (Nat × Nat)) (allcmds : List Command)
    (hlen : chans.length + 1 = allcmds.length) :
    ∀ (cmds : List Command) (i : Nat) (pids : List Int) (recs : List StageRecord) (sh : Shell),
      allcmds.drop i = cmds → i ≤ allcmds.length → recs.length = i →
      (∀ j, j < i → ∃ rec, recs[j]? = some rec ∧ rec.stage = j ∧
        allcmds[j]? = some rec.cmd ∧
        rec.input_fd = (if j = 0 then 0 else (chans.getD (j - 1) (0, 0)).1) ∧
        rec.output_fd = (if j = allcmds.length - 1 then 1 else (chans.getD j (0, 0)).2)) →
      ∃ pids2 recs2 sh2,
        run_stages allcmds.length (channel_descriptors chans) cmds i pids recs sh =
          some (pids2, recs2, sh2) ∧
        sh2.pipe_count = sh.pipe_count ∧ recs2.length = allcmds.length ∧
        ∀ j, j < allcmds.length → ∃ rec, recs2[j]? = some rec ∧ rec.stage = j ∧
          allcmds[j]? = some rec.cmd ∧
          rec.input_fd = (if j = 0 then 0 else (chans.getD (j - 1) (0, 0)).1) ∧
          rec.output_fd = (if j = allcmds.length - 1 then 1 else (chans.getD j (0, 0)).2) := by
  intro cmds
  induction cmds with
  | nil =>
    intro i pids recs sh hdrop hi hrecs hP
    have hge : allcmds.length ≤ i := List.drop_eq_nil_iff.1 hdrop
    have hie : i = allcmds.length := le_antisymm hi hge
    subst hie
    exact ⟨pids, recs, sh, by simp [run_stages], rfl, hrecs, hP⟩
  | cons cmd rest ih =>
    intro i pids recs sh hdrop hi hrecs hP
    have hlt : i < allcmds.length := by
      by_contra hge
      have : allcmds.drop i = [] := List.drop_eq_nil_iff.2 (by omega)
      rw [this] at hdrop
      exact List.noConfusion hdrop
    have hcmd : allcmds[i]? = some cmd := by
      have h1 : (allcmds.drop i)[0]? = some cmd := by rw [hdrop]; simp
      simpa [List.getElem?_drop] using h1
    have hrest : allcmds.drop (i + 1) = rest := by
      have h1 : (allcmds.drop i).drop 1 = rest := by rw [hdrop]; rfl
      simpa [List.drop_drop, Nat.add_comm] using h1
    have hin : (if i > 0 then (channel_descriptors chans)[(i - 1) * 2]? else some 0) =
        some (if i = 0 then 0 else (chans.getD (i - 1) (0, 0)).1) := by
      by_cases h0 : i = 0
      · simp [h0]
      · have hpos : i > 0 := Nat.pos_of_ne_zero h0
        simp only [hpos, if_true, h0, if_false]
        exact channel_descriptors_read chans (i - 1) (by omega)
    have hout : (if i < allcmds.length - 1 then (channel_descriptors chans)[i * 2 + 1]?
        else some 1) =
        some (if i = allcmds.length - 1 then 1 else (chans.getD i (0, 0)).2) := by
      by_cases h0 : i = allcmds.length - 1
      · simp [← h0]
      · have hl : i < allcmds.length - 1 := by omega
        simp only [hl, if_true, h0, if_false]
        exact channel_descriptors_write chans i (by omega)
    rw [run_stages, hin, hout]
    simp only []
    obtain ⟨pids2, recs2, sh2, h1, h2, h3, h4⟩ := ih (i + 1) _
      (recs ++ [{ stage := i, cmd := cmd,
                  input_fd := if i = 0 then 0 else (chans.getD (i - 1) (0, 0)).1,
                  output_fd := if i = allcmds.length - 1 then 1 else (chans.getD i (0, 0)).2,
                  pid := (execute_command_in_pipeline cmd
                    (if i = 0 then 0 else (chans.getD (i - 1) (0, 0)).1)
                    (if i = allcmds.length - 1 then 1 else (chans.getD i (0, 0)).2) sh).1 }])
      _ hrest (by omega) (by simp [hrecs])
      (by
        intro j hj
        by_cases hji : j < i
        · obtain ⟨rec, hr, hrp⟩ := hP j hji
          refine ⟨rec, ?_, hrp⟩
          rw [List.getElem?_append_left (by omega)]
          exact hr
        · have hje : j = i := by omega
          subst hje
          refine ⟨{ stage := j, cmd := cmd,
                    input_fd := if j = 0 then 0 else (chans.getD (j - 1) (0, 0)).1,
                    output_fd :=
                      if j = allcmds.length - 1 then 1 else (chans.getD j (0, 0)).2,
                    pid := (execute_command_in_pipeline cmd
                      (if j = 0 then 0 else (chans.getD (j - 1) (0, 0)).1)
                      (if j = allcmds.length - 1 then 1 else (chans.getD j (0, 0)).2) sh).1 },
            ?_, rfl, hcmd, rfl, rfl⟩
          rw [List.getElem?_append_right (by omega)]
          simp [hrecs])
    refine ⟨pids2, recs2, sh2, h1, ?_, h3, h4⟩
    have hc : ∀ (b : Prop) [Decidable b] (fd : Nat) (s : Shell),
        (if b then sys_close fd s else s).pipe_count = s.pipe_count := by
      intro b _ fd s
      split <;> rfl
    rw [h2, hc, hc, execute_command_in_pipeline_pipe_count]

/-- When the system grants the N-1 channels of a pipeline of N >= 2 commands,
`execute_pipeline` returns, and every stage was launched with the ends of its
neighbouring channels. -/
theorem execute_pipeline_channels (p : Pipeline) (sh : Shell) (chans : List (Nat × Nat))
    (rest : List (Option (Nat × Nat)))
    (hN : 2 ≤ p.commands.length)
    (hlen : chans.length = p.commands.length - 1)
    (hos : sh.os.pipe_results = chans.map some ++ rest) :
    ∃ r, execute_pipeline p sh = some r ∧
      r.shell.pipe_count = sh.pipe_count + (p.commands.length - 1) ∧
      r.pipes = channel_descriptors chans ∧
      r.pipes.length = 2 * (p.commands.length - 1) ∧
      r.stages.length = p.commands.length ∧
      ∀ i, i < p.commands.length →
        ∃ rec, r.stages[i]? = some rec ∧ rec.stage = i ∧ p.commands[i]? = some rec.cmd ∧
          rec.input_fd = (if i = 0 then 0 else (chans.getD (i - 1) (0, 0)).1) ∧
          rec.output_fd =
            (if i = p.commands.length - 1 then 1 else (chans.getD i (0, 0)).2) := by
  obtain ⟨sh1, hcp, hpc⟩ := create_pipes_ok chans [] sh rest hos
  obtain ⟨pids, recs, sh2, hrs, hpc2, hrl, hw⟩ :=
    run_stages_wiring chans p.commands (by omega) p.commands 0 [] [] sh1 rfl (by omega) rfl
      (by intro j hj; omega)
  rw [hlen] at hcp
  simp only [List.nil_append] at hcp
  have hdl : (channel_descriptors chans).length = 2 * (p.commands.length - 1) := by
    rw [channel_descriptors_length, hlen]
  rcases hcmds : p.commands with _ | ⟨c1, _ | ⟨c2, cs⟩⟩
  · rw [hcmds] at hN; simp at hN
  · rw [hcmds] at hN; simp at hN
  · rw [hcmds] at hlen hcp hrs hrl hw hdl
    have hex : ∃ shf, execute_pipeline p sh =
        some { shell := shf, pipes := channel_descriptors chans, stages := recs } ∧
        shf.pipe_count = sh2.pipe_count := by
      unfold execute_pipeline
      rw [hcmds]
      simp only [hcp, hrs]
      split
      · refine ⟨_, rfl, ?_⟩
        have hfp : ∀ s : Shell,
            ({ s with foreground_pid := -1 } : Shell).pipe_count = s.pipe_count := fun _ => rfl
        rw [hfp, foldl_sys_waitpid_pipe_count]
        split
        · exact foldl_sys_close_pipe_count _ _
        · exact foldl_sys_close_pipe_count _ _
      · refine ⟨_, rfl, ?_⟩
        rw [sys_write_pipe_count, foldl_sys_close_pipe_count]
    obtain ⟨shf, hex1, hex2⟩ := hex
    refine ⟨_, hex1, ?_, rfl, hdl, hrl, hw⟩
    simp only [hex2, hpc2, hpc, hlen]

/-- A successful run of the creation loop consumed one granted channel per
iteration. -/
theorem create_pipes_some (n : Nat) :
    ∀ (pipes : List Nat) (sh : Shell) (ps : List Nat) (sh1 : Shell),
      create_pipes n pipes sh = (some ps, sh1) →
      ∃ (chans : List (Nat × Nat)) (rest : List (Option (Nat × Nat))),
        chans.length = n ∧ sh.os.pipe_results = chans.map some ++ rest := by
  induction n with
  | zero => intro pipes sh ps sh1 _; exact ⟨[], sh.os.pipe_results, rfl, rfl⟩
  | succ n ih =>
    intro pipes sh ps sh1 h
    cases hres : sh.os.pipe_results with
    | nil => simp [create_pipes, sys_pipe, hres] at h
    | cons o tl =>
      cases o with
      | none => simp [create_pipes, sys_pipe, hres] at h
      | some rw =>
        have hj : (some (some rw) : Option (Option (Nat × Nat))).join = some rw := rfl
        simp only [create_pipes, sys_pipe, hres, List.head?_cons, hj, List.tail_cons] at h
        obtain ⟨chans, rest, h1, h2⟩ := ih _ _ ps sh1 h
        simp only at h2
        exact ⟨rw :: chans, rest, by simp [h1], by simp [h2]⟩

/-- `execute_pipeline` never indexes `pipes` out of range, whatever the system
calls return. -/
theorem execute_pipeline_defined (p : Pipeline) (sh : Shell) :
    ∃ r, execute_pipeline p sh = some r := by
  rcases hcmds : p.commands with _ | ⟨c1, _ | ⟨c2, cs⟩⟩
  · exact ⟨{ shell := sh }, by simp [execute_pipeline, hcmds]⟩
  · unfold execute_pipeline
    rw [hcmds]
    simp only []
    split
    · split
      · exact ⟨_, rfl⟩
      · split <;> exact ⟨_, rfl⟩
    · exact ⟨_, rfl⟩
  · cases hcp : create_pipes (p.commands.length - 1) [] sh with
    | mk o sh1 =>
      cases o with
      | none =>
        rw [hcmds] at hcp
        exact ⟨{ shell := sh1 }, by unfold execute_pipeline; rw [hcmds]; simp only [hcp]⟩
      | some ps =>
        obtain ⟨chans, rest, h1, h2⟩ := create_pipes_some _ _ _ _ _ hcp
        obtain ⟨r, hr, _⟩ := execute_pipeline_channels p sh chans rest
          (by rw [hcmds]; simp) h1 h2
        exact ⟨r, hr⟩

/-! ## Further facts on the paths without a pipe -/

/-- `parse_and_execute` never runs into an index out of range. -/
theorem parse_and_execute_defined (command_line : List Char) (sh : Shell) :
    ∃ sh2, parse_and_execute command_line sh = some sh2 := by
  unfold parse_and_execute
  split
  · exact ⟨sh, rfl⟩
  · simp only []
    split
    · exact ⟨sh, rfl⟩
    · split
      · obtain ⟨r, hr⟩ := execute_pipeline_defined _ _
        exact ⟨r.shell, by rw [hr]; rfl⟩
      · split
        · exact ⟨_, rfl⟩
        · split
          · split <;> exact ⟨_, rfl⟩
          · exact ⟨_, rfl⟩

/-- The non-piped paths do abort on a dangling operator: `execute_command`
creates no process for such an argument list. -/
theorem execute_command_dangling (toks : List String) (background : Bool) (sh : Shell)
    (h : no_dangling_operator toks = false) :
    process_events (execute_command (toks.map some) background sh).log =
      process_events sh.log := by
  obtain ⟨op, _, hop⟩ := parse_redirection_loop_error toks {} [] h
  simp [execute_command, parse_redirection, hop]

/-- The non-piped paths do abort on a dangling operator: for a statement
without pipe token, `parse_and_execute` neither runs a builtin nor creates a
process. -/
theorem parse_and_execute_dangling (command_line : List Char) (sh : Shell)
    (toks : List String)
    (htok : tokenize_simple (strip_background command_line).1 = toks.map some)
    (hp : has_pipe (toks.map some) = false)
    (h : no_dangling_operator toks = false) :
    ∃ sh2, parse_and_execute command_line sh = some sh2 ∧
      process_events sh2.log = process_events sh.log := by
  obtain ⟨op, _, hop⟩ := parse_redirection_loop_error toks {} [] h
  unfold parse_and_execute
  split
  · exact ⟨sh, rfl, rfl⟩
  · simp only [htok, hp]
    cases toks with
    | nil => exact ⟨sh, rfl, rfl⟩
    | cons t ts =>
      simp only [List.map_cons, Bool.false_eq_true, if_false]
      split
      · exact ⟨_, rfl, by simp⟩
      · split
        · have hpr : parse_redirection (some t :: List.map some ts) =
              ({}, ["shell: syntax error near unexpected token \x27" ++ op ++ "\x27\n"]) := by
            rw [parse_redirection, ← List.map_cons, hop]
          refine ⟨write_cerr ["shell: syntax error near unexpected token \x27" ++ op ++ "\x27\n"]
            sh, ?_, by simp⟩
          rw [hpr]
        · exact ⟨_, rfl, execute_command_dangling (t :: ts) _ sh h⟩

/-! ## Claims on the signal handlers -/

/-- C17: `sigint_handler` sends the interrupt to the recorded foreground
process exactly when one is recorded (identifier > 0) and sends no signal
otherwise; in both cases the foreground record is the same afterwards and the
shell process has not been terminated (the handler returns, `exited` is
untouched). -/
theorem sigint_handler_forwards (sh : Shell) :
    (0 < sh.foreground_pid →
      kills (sigint_handler sh).log = kills sh.log ++ [(sh.foreground_pid, Signal.SIGINT)]) ∧
    (¬ 0 < sh.foreground_pid → kills (sigint_handler sh).log = kills sh.log) ∧
    (sigint_handler sh).foreground_pid = sh.foreground_pid ∧
    (sigint_handler sh).exited = sh.exited := by
  unfold sigint_handler
  refine ⟨?_, ?_, ?_, ?_⟩
  · intro h
    simp [h, kills, sys_write, sys_kill]
  · intro h
    simp [h, kills, sys_write, rl_call]
  · split <;> rfl
  · split <;> rfl

/-- C17, witness: with process 77 in the foreground the only signal sent is
the interrupt to 77; with none recorded no signal is sent. -/
theorem sigint_handler_forwards_witness :
    kills (sigint_handler { foreground_pid := 77 }).log = [] ++ [(77, Signal.SIGINT)] ∧
    kills (sigint_handler { foreground_pid := -1 }).log = [] :=
  ⟨(sigint_handler_forwards { foreground_pid := 77 }).1 (by decide),
   (sigint_handler_forwards { foreground_pid := -1 }).2.1 (by decide)⟩

/-- C18: when a foreground process `p` is recorded (identifier > 0),
`sigtstp_handler` sends it the suspend signal, writes exactly the notice
`\n[Process p suspended]\n`, and sets the foreground record to none; when none
is recorded (-1) it sends no signal and the record is still none. -/
theorem sigtstp_handler_suspends (sh : Shell) :
    (0 < sh.foreground_pid →
      kills (sigtstp_handler sh).log = kills sh.log ++ [(sh.foreground_pid, Signal.SIGTSTP)] ∧
      written (sigtstp_handler sh).log = written sh.log ++
        [(1, "\n[Process " ++ toString sh.foreground_pid ++ " suspended]\n")] ∧
      (sigtstp_handler sh).foreground_pid = -1) ∧
    (sh.foreground_pid = -1 →
      kills (sigtstp_handler sh).log = kills sh.log ∧
      (sigtstp_handler sh).foreground_pid = -1) := by
  unfold sigtstp_handler
  refine ⟨?_, ?_⟩
  · intro h
    simp [h, kills, written, sys_write, sys_kill, rl_call]
  · intro h
    simp [h, kills, sys_write, rl_call]

/-- C18, witness: process 77 in the foreground. -/
theorem sigtstp_handler_suspends_witness :
    kills (sigtstp_handler { foreground_pid := 77 }).log = [(77, Signal.SIGTSTP)] ∧
    written (sigtstp_handler { foreground_pid := 77 }).log =
      [(1, "\n[Process 77 suspended]\n")] ∧
    (sigtstp_handler { foreground_pid := 77 }).foreground_pid = -1 ∧
    (sigtstp_handler { foreground_pid := -1 }).foreground_pid = -1 := by
  have h := (sigtstp_handler_suspends { foreground_pid := 77 }).1 (by decide)
  have h2 := (sigtstp_handler_suspends { foreground_pid := -1 }).2 rfl
  exact ⟨h.1, by decide, h.2.2, h2.2⟩

/-- C16 (as amended): for every drained process, `sigchld_handler` does the
following, where the record is the one left by the processes drained before:
if its identifier equals the foreground record, the record is cleared and
nothing is written; otherwise, if the record is none and the process was not
terminated by a signal, the completion notice is written and the prompt is
redrawn, the record staying none; in every other case (a foreground process
is recorded, or the process was killed by a signal) nothing changes. -/
theorem sigchld_handler_each (drained : List (Int × ChildStatus)) (child : Int × ChildStatus)
    (sh : Shell) :
    sigchld_handler (drained ++ [child]) sh =
      sigchld_step (sigchld_handler drained sh) child ∧
    (child.1 = (sigchld_handler drained sh).foreground_pid →
      (sigchld_handler (drained ++ [child]) sh).foreground_pid = -1 ∧
      (sigchld_handler (drained ++ [child]) sh).log = (sigchld_handler drained sh).log) ∧
    (child.1 ≠ (sigchld_handler drained sh).foreground_pid →
      (sigchld_handler drained sh).foreground_pid = -1 →
      WIFSIGNALED child.2 = false →
      (sigchld_handler (drained ++ [child]) sh).foreground_pid = -1 ∧
      (sigchld_handler (drained ++ [child]) sh).log = (sigchld_handler drained sh).log ++
        [Event.write 1 (fd_lookup (sigchld_handler drained sh).fds 1)
            ("\n[Background process " ++ toString child.1 ++ " finished]\n"),
          Event.readline ReadlineCall.rl_on_new_line,
          Event.readline ReadlineCall.rl_redisplay]) ∧
    (child.1 ≠ (sigchld_handler drained sh).foreground_pid →
      ((sigchld_handler drained sh).foreground_pid ≠ -1 ∨ WIFSIGNALED child.2 = true) →
      sigchld_handler (drained ++ [child]) sh = sigchld_handler drained sh) := by
  have h0 : sigchld_handler (drained ++ [child]) sh =
      sigchld_step (sigchld_handler drained sh) child := by
    simp [sigchld_handler, List.foldl_append]
  rw [h0]
  refine ⟨rfl, ?_, ?_, ?_⟩
  · intro h
    simp [sigchld_step, h]
  · intro h1 h2 h3
    have h4 : ¬ child.1 = -1 := by rw [h2] at h1; exact h1
    simp [sigchld_step, h2, h3, h4, sys_write, rl_call]
  · intro h1 h2
    rcases h2 with h2 | h2
    · simp [sigchld_step, h1, h2]
    · simp [sigchld_step, h1, h2]

/-- C16, witness: a background process that exits with status 0 while no
foreground process is recorded. -/
theorem sigchld_handler_each_witness :
    (sigchld_handler ([] ++ [(42, ChildStatus.exited 0)]) {}).foreground_pid = -1 ∧
    (sigchld_handler ([] ++ [(42, ChildStatus.exited 0)]) {}).log =
      (sigchld_handler [] {}).log ++
        [Event.write 1 (fd_lookup (sigchld_handler [] {}).fds 1)
            ("\n[Background process " ++ toString (42 : Int) ++ " finished]\n"),
          Event.readline ReadlineCall.rl_on_new_line,
          Event.readline ReadlineCall.rl_redisplay] :=
  (sigchld_handler_each [] (42, ChildStatus.exited 0) {}).2.2.1 (by decide) rfl rfl

/-- C16, counterexample: no foreground process is recorded and process 42,
which was killed by signal 9, is drained: the handler writes no notice and
requests no redraw. -/
theorem sigchld_handler_signaled_counterexample :
    (sigchld_handler [(42, ChildStatus.signaled 9)] { foreground_pid := -1 }).log = [] ∧
    (sigchld_handler [(42, ChildStatus.exited 0)] { foreground_pid := -1 }).log ≠ [] := by
  decide

/-! ## What the system calls leave untouched -/

theorem same_globals_refl (a : Shell) : same_globals a a := ⟨rfl, rfl, rfl, rfl⟩

theorem same_globals_trans {a b c : Shell} (h1 : same_globals a b) (h2 : same_globals b c) :
    same_globals a c :=
  ⟨h2.1.trans h1.1, h2.2.1.trans h1.2.1, h2.2.2.1.trans h1.2.2.1, h2.2.2.2.trans h1.2.2.2⟩

theorem same_globals_sys_write (fd : Nat) (text : String) (sh : Shell) :
    same_globals sh (sys_write fd text sh) := by
  simp [same_globals, sys_write, inline_builtins]

theorem same_globals_sys_close (fd : Nat) (sh : Shell) :
    same_globals sh (sys_close fd sh) := by
  simp [same_globals, sys_close, inline_builtins]

theorem same_globals_sys_fork (child : ChildRun) (sh : Shell) :
    same_globals sh (sys_fork child sh).2 := by
  simp [same_globals, sys_fork, inline_builtins]

theorem same_globals_sys_pipe (sh : Shell) : same_globals sh (sys_pipe sh).2 := by
  unfold sys_pipe
  split <;> simp [same_globals, inline_builtins]

theorem same_globals_sys_waitpid (pid : Int) (sh : Shell) :
    same_globals sh (sys_waitpid pid sh) := by
  unfold sys_waitpid
  simp only []
  split <;> simp [same_globals, sys_write, inline_builtins]

theorem same_globals_write_cerr (lines : List String) (sh : Shell) :
    same_globals sh (write_cerr lines sh) := by
  induction lines generalizing sh with
  | nil => exact same_globals_refl sh
  | cons l ls ih =>
    simp only [write_cerr, List.foldl_cons] at ih ⊢
    exact same_globals_trans (same_globals_sys_write 2 l sh) (ih _)

theorem same_globals_foldl_close (fds : List Nat) (sh : Shell) :
    same_globals sh (fds.foldl (fun s fd => sys_close fd s) sh) := by
  induction fds generalizing sh with
  | nil => exact same_globals_refl sh
  | cons fd fds ih =>
    exact same_globals_trans (same_globals_sys_close fd sh) (ih _)

theorem same_globals_foldl_waitpid (pids : List Int) (sh : Shell) :
    same_globals sh (pids.foldl (fun s pid => sys_waitpid pid s) sh) := by
  induction pids generalizing sh with
  | nil => exact same_globals_refl sh
  | cons pid pids ih =>
    exact same_globals_trans (same_globals_sys_waitpid pid sh) (ih _)

theorem same_globals_execute_command_in_pipeline (cmd : Command) (i o : Nat) (sh : Shell) :
    same_globals sh (execute_command_in_pipeline cmd i o sh).2 := by
  have hf : ∀ child : ChildRun,
      same_globals sh (if (sys_fork child sh).1 < 0 then
          ((sys_fork child sh).1, sys_write 2 "fork" (sys_fork child sh).2)
        else sys_fork child sh).2 := by
    intro child
    split
    · exact same_globals_trans (same_globals_sys_fork child sh) (same_globals_sys_write _ _ _)
    · exact same_globals_sys_fork child sh
  unfold execute_command_in_pipeline
  split
  · split
    · exact hf _
    · exact hf _
  · exact same_globals_refl sh

theorem same_globals_create_pipes (n : Nat) :
    ∀ (pipes : List Nat) (sh : Shell), same_globals sh (create_pipes n pipes sh).2 := by
  induction n with
  | zero => intro pipes sh; exact same_globals_refl sh
  | succ n ih =>
    intro pipes sh
    have hp := same_globals_sys_pipe sh
    rw [create_pipes]
    split
    · next sh1 h =>
      rw [h] at hp
      exact same_globals_trans hp (same_globals_sys_write _ _ _)
    · next rw1 sh1 h =>
      rw [h] at hp
      exact same_globals_trans hp (ih _ _)

theorem same_globals_run_stages (n : Nat) (pipes : List Nat) (cmds : List Command) :
    ∀ (i : Nat) (pids : List Int) (recs : List StageRecord) (sh : Shell)
      (pids2 : List Int) (recs2 : List StageRecord) (sh2 : Shell),
      run_stages n pipes cmds i pids recs sh = some (pids2, recs2, sh2) →
      same_globals sh sh2 := by
  induction cmds with
  | nil =>
    intro i pids recs sh pids2 recs2 sh2 h
    simp only [run_stages, Option.some.injEq, Prod.mk.injEq] at h
    rw [← h.2.2]
    exact same_globals_refl sh
  | cons cmd rest ih =>
    intro i pids recs sh pids2 recs2 sh2 h
    rw [run_stages] at h
    split at h
    · next input_fd output_fd _ _ =>
      have hc : ∀ (b : Prop) [Decidable b] (fd : Nat) (s : Shell),
          same_globals s (if b then sys_close fd s else s) := by
        intro b _ fd s
        split
        · exact same_globals_sys_close fd s
        · exact same_globals_refl s
      exact same_globals_trans
        (same_globals_trans
          (same_globals_trans (same_globals_execute_command_in_pipeline cmd input_fd output_fd sh)
            (hc _ _ _)) (hc _ _ _))
        (ih _ _ _ _ _ _ _ h)
    · exact absurd h (by simp)

/-! ## Claims on the shell state after a pipeline or a statement -/

/-- What `execute_pipeline` leaves of the shell for two or more commands:
the directories and the list of builtins run by the shell process itself are
untouched; the foreground record is untouched in background mode and on a
failed `pipe()`, and is none after a foreground run. -/
theorem execute_pipeline_multi_globals (p : Pipeline) (sh : Shell) (r : PipelineRun)
    (hN : 2 ≤ p.commands.length) (hr : execute_pipeline p sh = some r) :
    r.shell.cwd = sh.cwd ∧ r.shell.previous_dir = sh.previous_dir ∧
    inline_builtins r.shell.log = inline_builtins sh.log ∧
    (r.shell.foreground_pid = sh.foreground_pid ∨ r.shell.foreground_pid = -1) := by
  rcases hcmds : p.commands with _ | ⟨c1, _ | ⟨c2, cs⟩⟩
  · rw [hcmds] at hN; simp at hN
  · rw [hcmds] at hN; simp at hN
  · unfold execute_pipeline at hr
    rw [hcmds] at hr
    simp only [] at hr
    have hcp := same_globals_create_pipes ((c1 :: c2 :: cs).length - 1) [] sh
    split at hr
    · next sh1 hc =>
      rw [hc] at hcp
      simp only [Option.some.injEq] at hr
      rw [← hr]
      exact ⟨hcp.1, hcp.2.1, hcp.2.2.2, Or.inl hcp.2.2.1⟩
    · next pipes sh1 hc =>
      rw [hc] at hcp
      split at hr
      · exact absurd hr (by simp)
      · next pids recs sh2 hrs =>
        have h2 := same_globals_trans hcp
          (same_globals_run_stages _ _ _ _ _ _ _ _ _ _ hrs)
        have h3 := same_globals_trans h2 (same_globals_foldl_close pipes sh2)
        split at hr
        · simp only [Option.some.injEq] at hr
          rw [← hr]
          have h4 : same_globals
              (match pids.getLast? with
                | some last =>
                  ({ List.foldl (fun s fd => sys_close fd s) sh2 pipes with
                      foreground_pid := last } : Shell)
                | none => List.foldl (fun s fd => sys_close fd s) sh2 pipes)
              (List.foldl (fun s pid => sys_waitpid pid s)
                (match pids.getLast? with
                  | some last =>
                    ({ List.foldl (fun s fd => sys_close fd s) sh2 pipes with
                        foreground_pid := last } : Shell)
                  | none => List.foldl (fun s fd => sys_close fd s) sh2 pipes) pids) :=
            same_globals_foldl_waitpid _ _
          refine ⟨?_, ?_, ?_, Or.inr rfl⟩
          · show (List.foldl (fun s pid => sys_waitpid pid s) _ pids).cwd = _
            rw [h4.1]
            split <;> exact h3.1
          · show (List.foldl (fun s pid => sys_waitpid pid s) _ pids).previous_dir = _
            rw [h4.2.1]
            split <;> exact h3.2.1
          · show inline_builtins (List.foldl (fun s pid => sys_waitpid pid s) _ pids).log = _
            rw [h4.2.2.2]
            split <;> exact h3.2.2.2
        · simp only [Option.some.injEq] at hr
          rw [← hr]
          have h4 := same_globals_trans h3 (same_globals_sys_write 1
            "Background pipeline started\n" _)
          exact ⟨h4.1, h4.2.1, h4.2.2.2, Or.inl h4.2.2.1⟩

@[simp] theorem sys_write_foreground_pid (fd : Nat) (text : String) (sh : Shell) :
    (sys_write fd text sh).foreground_pid = sh.foreground_pid := rfl

@[simp] theorem write_cerr_foreground_pid (lines : List String) (sh : Shell) :
    (write_cerr lines sh).foreground_pid = sh.foreground_pid :=
  (same_globals_write_cerr lines sh).2.2.1

@[simp] theorem sys_close_foreground_pid (fd : Nat) (sh : Shell) :
    (sys_close fd sh).foreground_pid = sh.foreground_pid := rfl

@[simp] theorem sys_dup2_foreground_pid (a b : Nat) (sh : Shell) :
    (sys_dup2 a b sh).2.foreground_pid = sh.foreground_pid := rfl

@[simp] theorem sys_dup_foreground_pid (fd : Nat) (sh : Shell) :
    (sys_dup fd sh).2.foreground_pid = sh.foreground_pid := by
  unfold sys_dup
  split <;> rfl

@[simp] theorem sys_open_foreground_pid (path : String) (w a : Bool) (sh : Shell) :
    (sys_open path w a sh).2.foreground_pid = sh.foreground_pid := by
  unfold sys_open
  split <;> rfl

@[simp] theorem setup_output_redirection_foreground_pid (redir : RedirectionInfo)
    (sh : Shell) :
    (setup_output_redirection redir sh).2.foreground_pid = sh.foreground_pid := by
  unfold setup_output_redirection
  split
  · split
    · next h =>
      have := congrArg (fun x => x.2.foreground_pid) h
      simp only [sys_open_foreground_pid] at this
      simp [← this]
    · next h =>
      have := congrArg (fun x => x.2.foreground_pid) h
      simp only [sys_open_foreground_pid] at this
      split <;> simp [← this]
  · rfl

@[simp] theorem setup_redirection_foreground_pid (redir : RedirectionInfo) (sh : Shell) :
    (setup_redirection redir sh).2.foreground_pid = sh.foreground_pid := by
  unfold setup_redirection
  split
  · split
    · next h =>
      have := congrArg (fun x => x.2.foreground_pid) h
      simp only [sys_open_foreground_pid] at this
      simp [← this]
    · next h =>
      have := congrArg (fun x => x.2.foreground_pid) h
      simp only [sys_open_foreground_pid] at this
      split <;> simp [← this]
  · simp

@[simp] theorem restore_stdio_foreground_pid (a b : Option Nat) (sh : Shell) :
    (restore_stdio a b sh).foreground_pid = sh.foreground_pid := by
  cases a <;> cases b <;> simp [restore_stdio, restore_one]

@[simp] theorem add_to_history_foreground_pid (c : String) (sh : Shell) :
    (add_to_history c sh).foreground_pid = sh.foreground_pid := by
  unfold add_to_history
  split
  · split <;> rfl
  · rfl

@[simp] theorem cd_to_foreground_pid (dir : String) (sh : Shell) :
    (cd_to dir sh).2.foreground_pid = sh.foreground_pid := by
  unfold cd_to
  split <;> simp

@[simp] theorem builtin_cd_foreground_pid (args : List (Option String)) (sh : Shell) :
    (builtin_cd args sh).2.foreground_pid = sh.foreground_pid := by
  unfold builtin_cd
  repeat' split
  all_goals simp

@[simp] theorem builtin_ls_foreground_pid (args : List (Option String)) (sh : Shell) :
    (builtin_ls args sh).foreground_pid = sh.foreground_pid := by
  unfold builtin_ls
  split <;> rfl

@[simp] theorem run_builtin_foreground_pid (cmd : String) (args : List (Option String))
    (sh : Shell) :
    (run_builtin cmd args sh).2.foreground_pid = sh.foreground_pid := by
  unfold run_builtin
  repeat' split
  all_goals simp [builtin_echo, builtin_pwd, builtin_other]

@[simp] theorem handle_builtin_foreground_pid (args : List (Option String)) (sh : Shell) :
    (handle_builtin args sh).2.foreground_pid = sh.foreground_pid := by
  rcases args with _ | ⟨_ | cmd, tl⟩
  · rfl
  · rfl
  · simp only [handle_builtin, run_builtin_foreground_pid]
    split <;> simp

@[simp] theorem builtin_inline_foreground_pid (with_redirection : Bool)
    (redir : RedirectionInfo) (args : List (Option String)) (sh : Shell) :
    (builtin_inline with_redirection redir args sh).foreground_pid = sh.foreground_pid := by
  unfold builtin_inline
  cases with_redirection with
  | false => simp
  | true =>
    simp only [if_true]
    split
    · split <;> simp
    · simp

/-- After `execute_command` the foreground record is none, or what it was
before (fork failed, background mode, nothing to run). -/
theorem execute_command_foreground_pid (args : List (Option String)) (background : Bool)
    (sh : Shell) :
    (execute_command args background sh).foreground_pid = sh.foreground_pid ∨
    (execute_command args background sh).foreground_pid = -1 := by
  unfold execute_command
  simp only []
  split
  · split
    · left; simp [sys_fork]
    · split
      · left; simp [sys_fork]
      · split
        · left; simp [sys_fork]
        · right; rfl
  · left; simp

/-- After `execute_pipeline` the foreground record is none, or what it was
before. -/
theorem execute_pipeline_foreground_pid (p : Pipeline) (sh : Shell) (r : PipelineRun)
    (hr : execute_pipeline p sh = some r) :
    r.shell.foreground_pid = sh.foreground_pid ∨ r.shell.foreground_pid = -1 := by
  by_cases hN : 2 ≤ p.commands.length
  · exact (execute_pipeline_multi_globals p sh r hN hr).2.2.2
  · rcases hcmds : p.commands with _ | ⟨c1, _ | ⟨c2, cs⟩⟩
    · simp only [execute_pipeline, hcmds, Option.some.injEq] at hr
      rw [← hr]; left; rfl
    · unfold execute_pipeline at hr
      rw [hcmds] at hr
      simp only [] at hr
      split at hr
      · split at hr
        · simp only [Option.some.injEq] at hr
          rw [← hr]; left; simp
        · split at hr
          · simp only [Option.some.injEq] at hr
            rw [← hr]; exact execute_command_foreground_pid _ _ _
          · simp only [Option.some.injEq] at hr
            rw [← hr]; exact execute_command_foreground_pid _ _ _
      · simp only [Option.some.injEq] at hr
        rw [← hr]; left; rfl
    · rw [hcmds] at hN
      simp at hN

/-- C15: if the foreground record is none (-1) when `parse_and_execute` is
called, then `parse_and_execute` returns with the record none again, for
every statement and every outcome of the `pipe`, `fork`, `dup`, `open`,
`chdir` and `waitpid` calls. -/
theorem parse_and_execute_foreground_none (command_line : List Char) (sh : Shell)
    (h : sh.foreground_pid = -1) :
    ∃ sh2, parse_and_execute command_line sh = some sh2 ∧ sh2.foreground_pid = -1 := by
  obtain ⟨sh2, h2⟩ := parse_and_execute_defined command_line sh
  refine ⟨sh2, h2, ?_⟩
  unfold parse_and_execute at h2
  split at h2
  · simp only [Option.some.injEq] at h2
    rw [← h2]; exact h
  · simp only [] at h2
    split at h2
    · simp only [Option.some.injEq] at h2
      rw [← h2]; exact h
    · split at h2
      · cases hex : execute_pipeline
            { (parse_pipeline (tokenize_simple (strip_background command_line).1)).1 with
              background := (strip_background command_line).2 }
            (write_cerr (parse_pipeline (tokenize_simple (strip_background command_line).1)).2
              (add_to_history
                (join_tokens (tokenize_simple (strip_background command_line).1)) sh)) with
        | none => simp_all
        | some r =>
          have hfg := execute_pipeline_foreground_pid _ _ r hex
          simp only [write_cerr_foreground_pid, add_to_history_foreground_pid, h] at hfg
          simp_all
      · split at h2
        · simp only [Option.some.injEq] at h2
          rw [← h2]; simpa using h
        · split at h2
          · split at h2
            · simp only [Option.some.injEq] at h2
              rw [← h2]; simpa using h
            · simp only [Option.some.injEq] at h2
              rw [← h2]; simpa using h
          · simp only [Option.some.injEq] at h2
            rw [← h2]
            rcases execute_command_foreground_pid
              (tokenize_simple (strip_background command_line).1)
              (strip_background command_line).2 sh with h3 | h3
            · rw [h3]; exact h
            · exact h3

/-- C15, witness: the foreground statement `ls | cat` whose second `waitpid`
fails. -/
theorem parse_and_execute_foreground_none_witness :
    ∃ sh2, parse_and_execute "ls | cat".toList
        { os := { pipe_results := [some (3, 4)], fork_results := [100, 101],
                  wait_results := [WaitResult.ok, WaitResult.error] } } = some sh2 ∧
      sh2.foreground_pid = -1 :=
  parse_and_execute_foreground_none "ls | cat".toList
    { os := { pipe_results := [some (3, 4)], fork_results := [100, 101],
              wait_results := [WaitResult.ok, WaitResult.error] } } rfl

/-! ## Claims on the text part of `parse_and_execute` -/

theorem amp_scan_spec (s : List Char) :
    ∀ (i : Nat) (in_quotes : Bool) (quote_char : Char) (amp_pos : Option Nat),
      amp_scan s i in_quotes quote_char amp_pos =
        ((unquoted_amps s i (if in_quotes then some quote_char else none)).getLast?).or
          amp_pos := by
  induction s with
  | nil => intro i iq qc acc; simp [amp_scan, unquoted_amps]
  | cons c rest ih =>
    intro i iq qc acc
    cases iq with
    | false =>
      by_cases hq : is_quote c = true
      · have hq2 : (c = '\x22' ∨ c = '\x27') := by simpa [is_quote] using hq
        simp [amp_scan, unquoted_amps, hq, hq2, ih]
      · have hq2 : ¬ (c = '\x22' ∨ c = '\x27') := by simpa [is_quote] using hq
        by_cases ha : c = '&'
        · subst ha
          have hnq : is_quote '&' = false := by decide
          have hl : ∀ l : List Nat, (i :: l).getLast?.or acc = l.getLast?.or (some i) := by
            intro l
            rw [List.getLast?_cons]
            cases l.getLast? <;> simp
          simp [amp_scan, unquoted_amps, hnq, ih, hl]
        · simp [amp_scan, unquoted_amps, hq, hq2, ha, ih]
    | true =>
      by_cases hc : c = qc
      · simp [amp_scan, unquoted_amps, hc, ih]
      · simp [amp_scan, unquoted_amps, hc, ih]

theorem strip_trailing_blanks_spec (x : List Char) :
    ∃ blanks : List Char, (∀ c ∈ blanks, is_blank c = true) ∧
      x = strip_trailing_blanks x ++ blanks ∧
      (∀ c, (strip_trailing_blanks x).getLast? = some c → is_blank c = false) := by
  refine ⟨(x.reverse.takeWhile (fun c => c = ' ' || c = '\t')).reverse, ?_, ?_, ?_⟩
  · intro c hc
    have := List.mem_takeWhile_imp (List.mem_reverse.1 hc)
    simpa [is_blank] using this
  · have h := List.takeWhile_append_dropWhile (fun c => decide (c = ' ') || decide (c = '\t'))
      x.reverse
    have h2 := congrArg List.reverse h
    simp only [List.reverse_append, List.reverse_reverse] at h2
    exact h2.symm
  · intro c hc
    simp only [strip_trailing_blanks, List.getLast?_reverse] at hc
    have := List.head?_dropWhile_not (fun c => decide (c = ' ') || decide (c = '\t')) x.reverse
    rw [hc] at this
    simpa [is_blank] using this

theorem strip_background_eq (command_line : List Char) :
    strip_background command_line =
      match last_unquoted_amp (command_line.dropWhile is_blank) with
      | none => (command_line.dropWhile is_blank, false)
      | some amp_pos =>
        if ((command_line.dropWhile is_blank).drop (amp_pos + 1)).all is_space then
          (strip_trailing_blanks ((command_line.dropWhile is_blank).take amp_pos), true)
        else (command_line.dropWhile is_blank, false) := by
  have hb : (fun c => decide (c = ' ') || decide (c = '\t')) = is_blank := rfl
  simp only [strip_background, hb, amp_scan_spec, last_unquoted_amp, Option.or_none,
    Bool.false_eq_true, if_false]

/-- C13: with `s` the statement after its leading spaces and tabs,
`parse_and_execute` (lines 212-267, `strip_background`) marks the statement as
background exactly when the last `&` lying outside quotes is followed only by
spaces, tabs or newlines up to the end of `s`; in that case the text handed to
the tokenizer is `s` cut just before that `&` with its trailing spaces and
tabs removed (what was removed is blank, what is left does not end in a
blank), and in every other case the text is `s` unchanged. -/
theorem strip_background_spec (command_line : List Char) :
    ((strip_background command_line).2 = true ↔
      ∃ i, last_unquoted_amp (command_line.dropWhile is_blank) = some i ∧
        ∀ c ∈ (command_line.dropWhile is_blank).drop (i + 1), is_space c = true) ∧
    (∀ i, last_unquoted_amp (command_line.dropWhile is_blank) = some i →
      (∀ c ∈ (command_line.dropWhile is_blank).drop (i + 1), is_space c = true) →
      ∃ blanks : List Char, (∀ c ∈ blanks, is_blank c = true) ∧
        (command_line.dropWhile is_blank).take i =
          (strip_background command_line).1 ++ blanks ∧
        (∀ c, (strip_background command_line).1.getLast? = some c → is_blank c = false)) ∧
    ((strip_background command_line).2 = false →
      (strip_background command_line).1 = command_line.dropWhile is_blank) := by
  rw [strip_background_eq]
  cases h : last_unquoted_amp (command_line.dropWhile is_blank) with
  | none => simp
  | some amp_pos =>
    by_cases hall : ((command_line.dropWhile is_blank).drop (amp_pos + 1)).all is_space = true
    · simp only [hall, if_true, true_iff, Option.some.injEq, exists_eq_left']
      refine ⟨?_, ?_, ?_⟩
      · simpa [List.all_eq_true] using hall
      · intro i hi _
        subst hi
        exact strip_trailing_blanks_spec _
      · intro hf; simp at hf
    · simp only [hall, if_false, Bool.false_eq_true, false_iff, Option.some.injEq,
        exists_eq_left', not_forall]
      refine ⟨?_, ?_, ?_⟩
      · simpa [List.all_eq_true] using hall
      · intro i hi hsp
        subst hi
        exact absurd (by simpa [List.all_eq_true] using hsp) hall
      · intro _; trivial

/-- C13, witness: `sleep 5 & ` is background and `echo 'a & b' & c` is not. -/
theorem strip_background_spec_witness :
    (strip_background "sleep 5 & ".toList).2 = true ∧
    (strip_background "echo \x27a & b\x27 & c".toList).1 = "echo \x27a & b\x27 & c".toList :=
  ⟨(strip_background_spec "sleep 5 & ".toList).1.2 ⟨8, by decide, by decide⟩,
   (strip_background_spec "echo \x27a & b\x27 & c".toList).2.2 (by decide)⟩

/-! ## Claims on the tokenizer -/

theorem is_word_char_iff (c : Char) :
    is_word_char c = true ↔ (is_space c = false ∧ c ≠ '<' ∧ c ≠ '>' ∧ c ≠ '|') := by
  simp [is_word_char, is_space, not_or, and_assoc]

theorem reference_scan_space (c : Char) (rest cur : List Char) (h : is_space c = true) :
    reference_scan (c :: rest) cur = flush_word cur ++ reference_scan rest [] := by
  cases rest <;> simp [reference_scan, h]

theorem reference_scan_lt (rest cur : List Char) :
    reference_scan ('<' :: rest) cur = flush_word cur ++ "<" :: reference_scan rest [] := by
  have h : is_space '<' = false := by decide
  cases rest <;> simp [reference_scan, h]

theorem reference_scan_pipe (rest cur : List Char) :
    reference_scan ('|' :: rest) cur = flush_word cur ++ "|" :: reference_scan rest [] := by
  have h : is_space '|' = false := by decide
  cases rest <;> simp [reference_scan, h]

theorem reference_scan_gt_gt (rest cur : List Char) :
    reference_scan ('>' :: '>' :: rest) cur =
      flush_word cur ++ ">>" :: reference_scan rest [] := by
  have h : is_space '>' = false := by decide
  simp [reference_scan, h]

theorem reference_scan_gt (rest cur : List Char) (h : rest.head? ≠ some '>') :
    reference_scan ('>' :: rest) cur = flush_word cur ++ ">" :: reference_scan rest [] := by
  have hs : is_space '>' = false := by decide
  cases rest with
  | nil => simp [reference_scan, hs, flush_word]
  | cons d rest2 =>
    have hd : d ≠ '>' := by simpa using h
    simp [reference_scan, hs, hd]

theorem reference_scan_word (c : Char) (rest cur : List Char) (h : is_word_char c = true) :
    reference_scan (c :: rest) cur = reference_scan rest (cur ++ [c]) := by
  obtain ⟨h1, h2, h3, h4⟩ := (is_word_char_iff c).1 h
  cases rest <;> simp [reference_scan, h1, h2, h3, h4]

theorem reference_scan_word_run (w : List Char) (hw : ∀ c ∈ w, is_word_char c = true) :
    ∀ (r cur : List Char), reference_scan (w ++ r) cur = reference_scan r (cur ++ w) := by
  induction w with
  | nil => intro r cur; simp
  | cons c w ih =>
    intro r cur
    rw [List.cons_append, reference_scan_word c _ _ (hw c (by simp)),
      ih (fun d hd => hw d (List.mem_cons_of_mem _ hd))]
    simp

/-- A character that is not a word character ends the word collected so far. -/
theorem reference_scan_flush (c : Char) (rest cur : List Char) (h : is_word_char c = false) :
    reference_scan (c :: rest) cur = flush_word cur ++ reference_scan (c :: rest) [] := by
  by_cases hs : is_space c = true
  · rw [reference_scan_space c rest cur hs, reference_scan_space c rest [] hs]
    simp [flush_word]
  · by_cases h1 : c = '<'
    · subst h1
      rw [reference_scan_lt, reference_scan_lt]
      simp [flush_word]
    · by_cases h2 : c = '|'
      · subst h2
        rw [reference_scan_pipe, reference_scan_pipe]
        simp [flush_word]
      · by_cases h3 : c = '>'
        · subst h3
          cases rest with
          | nil =>
            rw [reference_scan_gt [] cur (by simp), reference_scan_gt [] [] (by simp)]
            simp [flush_word]
          | cons d rest2 =>
            by_cases hd : d = '>'
            · subst hd
              rw [reference_scan_gt_gt, reference_scan_gt_gt]
              simp [flush_word]
            · rw [reference_scan_gt (d :: rest2) cur (by simpa using hd),
                reference_scan_gt (d :: rest2) [] (by simpa using hd)]
              simp [flush_word]
        · have hw : is_word_char c = true :=
            (is_word_char_iff c).2 ⟨by simpa using hs, h1, h3, h2⟩
          rw [hw] at h
          exact absurd h (by simp)

theorem reference_scan_skip_spaces (s : List Char) :
    reference_scan (s.dropWhile is_space) [] = reference_scan s [] := by
  induction s with
  | nil => rfl
  | cons c rest ih =>
    by_cases hs : is_space c = true
    · rw [List.dropWhile_cons_of_pos hs, ih, reference_scan_space c rest [] hs]
      simp [flush_word]
    · rw [List.dropWhile_cons_of_neg hs]

/-- A maximal run of word characters at the start of the text is the first
token. -/
theorem reference_scan_first_word (c : Char) (rest : List Char)
    (hc : is_word_char c = true) :
    reference_scan (c :: rest) [] =
      String.mk ((c :: rest).takeWhile is_word_char) ::
        reference_scan ((c :: rest).dropWhile is_word_char) [] := by
  have hsplit := List.takeWhile_append_dropWhile is_word_char (c :: rest)
  have hw : ∀ d ∈ (c :: rest).takeWhile is_word_char, is_word_char d = true :=
    fun d hd => List.mem_takeWhile_imp hd
  have hne : (c :: rest).takeWhile is_word_char ≠ [] := by
    simp [List.takeWhile_cons, hc]
  conv_lhs => rw [← hsplit]
  rw [reference_scan_word_run _ hw, List.nil_append]
  cases hr : (c :: rest).dropWhile is_word_char with
  | nil => simp [reference_scan, flush_word, hne]
  | cons d r2 =>
    have hd : is_word_char d = false := by
      have := List.head?_dropWhile_not is_word_char (c :: rest)
      rw [hr] at this
      simpa using this
    rw [reference_scan_flush d r2 _ hd]
    simp [flush_word, hne]

theorem length_dropWhile_le (p : Char → Bool) (s : List Char) :
    (s.dropWhile p).length ≤ s.length := by
  induction s with
  | nil => simp
  | cons c rest ih =>
    by_cases hp : p c = true
    · rw [List.dropWhile_cons_of_pos hp]; simp; omega
    · rw [List.dropWhile_cons_of_neg hp]

/-- With enough fuel the loop of `tokenize_with_redirection` appends the
reference tokens of the remaining text. -/
theorem tokenize_with_redirection_loop_spec :
    ∀ (fuel : Nat) (s : List Char) (toks : List String), s.length < fuel →
      tokenize_with_redirection_loop fuel s toks = toks ++ reference_scan s [] := by
  intro fuel
  induction fuel with
  | zero => intro s toks h; omega
  | succ fuel ih =>
    intro s toks h
    have hlen := length_dropWhile_le is_space s
    have hsg : String.singleton '>' = ">" := rfl
    have hsl : String.singleton '<' = "<" := rfl
    rw [← reference_scan_skip_spaces s, tokenize_with_redirection_loop]
    cases hs : s.dropWhile is_space with
    | nil => simp [reference_scan, flush_word]
    | cons c rest =>
      rw [hs] at hlen
      simp only [List.length_cons] at hlen
      have hnsp : is_space c = false := by
        have := List.head?_dropWhile_not is_space s
        rw [hs] at this
        simpa using this
      by_cases hgt : c = '>'
      · subst hgt
        cases rest with
        | nil =>
          simp only [↓reduceIte, or_true]
          rw [ih [] _ (by simp; omega), reference_scan_gt [] [] (by simp), hsg]
          simp [flush_word]
        | cons d rest2 =>
          simp only [List.length_cons] at hlen
          by_cases hd : d = '>'
          · subst hd
            simp only []
            rw [ih rest2 _ (by omega), reference_scan_gt_gt]
            simp [flush_word]
          · have hhead : (d :: rest2).head? ≠ some '>' := by simpa using hd
            rw [reference_scan_gt _ _ hhead]
            split
            · next heq => simp at heq
            · next heq =>
              simp only [List.cons.injEq] at heq
              exact absurd heq.2.1 hd
            · next c2 rest3 hne heq =>
              simp only [List.cons.injEq] at heq
              obtain ⟨h1, h2⟩ := heq
              subst h1; subst h2
              simp only [↓reduceIte, or_true]
              rw [ih _ _ (by simp; omega), hsg]
              simp [flush_word]
      · split
        · next heq => simp at heq
        · next heq =>
          simp only [List.cons.injEq] at heq
          exact absurd heq.1 hgt
        · next c2 rest3 hne heq =>
          simp only [List.cons.injEq] at heq
          obtain ⟨h1, h2⟩ := heq
          subst h1; subst h2
          by_cases hlt : c = '<'
          · subst hlt
            simp only [↓reduceIte, true_or]
            rw [ih _ _ (by omega), reference_scan_lt, hsl]
            simp [flush_word]
          · by_cases hp : c = '|'
            · subst hp
              simp only [hlt, hgt, or_self, if_false, if_true]
              rw [ih _ _ (by omega), reference_scan_pipe]
              simp [flush_word]
            · have hw : is_word_char c = true :=
                (is_word_char_iff c).2 ⟨hnsp, hlt, hgt, hp⟩
              have hl2 := length_dropWhile_le is_word_char rest
              simp only [hlt, hgt, or_self, if_false, hp]
              rw [ih _ _ (by
                rw [List.dropWhile_cons_of_pos hw]; omega),
                reference_scan_first_word c rest hw]
              simp

/-- The text holds none of the operator characters `<`, `>`, `|`. -/
theorem not_space_eq_word_char (c : Char) (h : c ≠ '<' ∧ c ≠ '>' ∧ c ≠ '|') :
    (!is_space c) = is_word_char c := by
  obtain ⟨h1, h2, h3⟩ := h
  simp [is_word_char, is_space, h1, h2, h3]

theorem takeWhile_not_space (l : List Char) (h : ∀ c ∈ l, c ≠ '<' ∧ c ≠ '>' ∧ c ≠ '|') :
    l.takeWhile (fun x => !is_space x) = l.takeWhile is_word_char ∧
    l.dropWhile (fun x => !is_space x) = l.dropWhile is_word_char := by
  induction l with
  | nil => simp
  | cons c rest ih =>
    have hc := not_space_eq_word_char c (h c (by simp))
    have ihr := ih (fun d hd => h d (List.mem_cons_of_mem _ hd))
    simp only [List.takeWhile_cons, List.dropWhile_cons, hc, ihr.1, ihr.2, and_self]

theorem mem_dropWhile (p : Char → Bool) (l : List Char) (x : Char)
    (h : x ∈ l.dropWhile p) : x ∈ l := by
  have := List.takeWhile_append_dropWhile p l
  rw [← this]
  exact List.mem_append_right _ h

/-- On a text without operator characters the `strtok` loop, with enough fuel,
appends the reference tokens of the remaining text. -/
theorem strtok_loop_spec :
    ∀ (fuel : Nat) (s : List Char) (toks : List String), s.length < fuel →
      (∀ c ∈ s, c ≠ '<' ∧ c ≠ '>' ∧ c ≠ '|') →
      strtok_loop fuel s toks = toks ++ reference_scan s [] := by
  intro fuel
  induction fuel with
  | zero => intro s toks h; omega
  | succ fuel ih =>
    intro s toks h hops
    have hlen := length_dropWhile_le is_space s
    rw [← reference_scan_skip_spaces s, strtok_loop]
    cases hs : s.dropWhile is_space with
    | nil => simp [reference_scan, flush_word]
    | cons c rest =>
      rw [hs] at hlen
      simp only [List.length_cons] at hlen
      have hmem : ∀ d ∈ c :: rest, d ≠ '<' ∧ d ≠ '>' ∧ d ≠ '|' := by
        intro d hd
        rw [← hs] at hd
        exact hops d (mem_dropWhile _ _ _ hd)
      have hnsp : is_space c = false := by
        have := List.head?_dropWhile_not is_space s
        rw [hs] at this
        simpa using this
      have hco := hmem c (by simp)
      have hw : is_word_char c = true :=
        (is_word_char_iff c).2 ⟨hnsp, hco.1, hco.2.1, hco.2.2⟩
      have htd := takeWhile_not_space (c :: rest) hmem
      have hl2 := length_dropWhile_le is_word_char rest
      simp only []
      rw [htd.1, htd.2, ih _ _ (by rw [List.dropWhile_cons_of_pos hw]; omega)
        (fun d hd => hmem d (mem_dropWhile _ _ _ hd)),
        reference_scan_first_word c rest hw]
      simp

/-- Both branches of `tokenize_simple` give the reference tokens. -/
theorem tokenize_simple_eq_reference (s : List Char) :
    tokenize_simple s = (reference_tokens s).map some := by
  unfold tokenize_simple reference_tokens
  split
  · rw [tokenize_with_redirection, tokenize_with_redirection_loop_spec _ _ _ (by omega)]
    simp
  · next h =>
    rw [strtok_loop_spec _ _ _ (by omega)]
    · simp
    · intro c hc
      refine ⟨?_, ?_, ?_⟩ <;> (intro hcc; subst hcc; exact h (by simp [hc]))

theorem flush_word_flatten (cur : List Char) :
    ((flush_word cur).map String.data).flatten = cur := by
  unfold flush_word
  split
  · next h => simp [h]
  · simp

/-- Concatenating the reference tokens gives the word collected so far
followed by the text without its spaces, tabs and newlines. -/
theorem reference_scan_flatten (s : List Char) :
    ∀ cur : List Char, ((reference_scan s cur).map String.data).flatten =
      cur ++ s.filter (fun c => !is_space c) := by
  suffices key : ∀ (n : Nat) (s : List Char), s.length = n → ∀ cur : List Char,
      ((reference_scan s cur).map String.data).flatten =
        cur ++ s.filter (fun c => !is_space c) from key s.length s rfl
  intro n
  induction n using Nat.strong_induction_on with
  | _ n ih =>
    intro s hn cur
    cases s with
    | nil => simp [reference_scan, flush_word_flatten]
    | cons c rest =>
      simp only [List.length_cons] at hn
      by_cases hw : is_word_char c = true
      · have hs : is_space c = false := ((is_word_char_iff c).1 hw).1
        rw [reference_scan_word c rest cur hw]
        simp [List.filter_cons, hs, ih rest.length (by omega) rest rfl]
      · have hw2 : is_word_char c = false := by simpa using hw
        rw [reference_scan_flush c rest cur hw2, List.map_append, List.flatten_append,
          flush_word_flatten]
        congr 1
        by_cases hs : is_space c = true
        · rw [reference_scan_space c rest [] hs]
          simp [List.filter_cons, hs, flush_word, ih rest.length (by omega) rest rfl]
        · have hs2 : is_space c = false := by simpa using hs
          by_cases h1 : c = '<'
          · subst h1
            rw [reference_scan_lt]
            simp [List.filter_cons, hs2, flush_word, ih rest.length (by omega) rest rfl]
          · by_cases h2 : c = '|'
            · subst h2
              rw [reference_scan_pipe]
              simp [List.filter_cons, hs2, flush_word, ih rest.length (by omega) rest rfl]
            · by_cases h3 : c = '>'
              · subst h3
                cases rest with
                | nil =>
                  rw [reference_scan_gt [] [] (by simp)]
                  simp [reference_scan, flush_word, List.filter_cons, hs2]
                | cons d rest2 =>
                  simp only [List.length_cons] at hn
                  by_cases hd : d = '>'
                  · subst hd
                    rw [reference_scan_gt_gt]
                    simp [List.filter_cons, hs2, flush_word, ih rest2.length (by omega) rest2 rfl]
                  · rw [reference_scan_gt (d :: rest2) [] (by simpa using hd)]
                    have ih2 := ih (d :: rest2).length (by simp; omega) (d :: rest2) rfl []
                    simp only [List.nil_append] at ih2
                    simp [List.filter_cons, hs2, flush_word, ih2]
              · exact absurd ((is_word_char_iff c).2 ⟨hs2, h1, h3, h2⟩) hw

/-- Every reference token is an operator or a non-empty run of word
characters. -/
theorem reference_scan_tokens (s : List Char) :
    ∀ cur : List Char, (∀ c ∈ cur, is_word_char c = true) →
      ∀ t ∈ reference_scan s cur,
        t ≠ "" ∧ (t = "<" ∨ t = ">" ∨ t = ">>" ∨ t = "|" ∨
          ∀ c ∈ t.data, is_word_char c = true) := by
  have hflush : ∀ cur : List Char, (∀ c ∈ cur, is_word_char c = true) →
      ∀ t ∈ flush_word cur,
        t ≠ "" ∧ (t = "<" ∨ t = ">" ∨ t = ">>" ∨ t = "|" ∨
          ∀ c ∈ t.data, is_word_char c = true) := by
    intro cur hcur t ht
    unfold flush_word at ht
    split at ht
    · simp at ht
    · next hne =>
      simp only [List.mem_singleton] at ht
      subst ht
      refine ⟨?_, Or.inr (Or.inr (Or.inr (Or.inr hcur)))⟩
      intro h
      apply hne
      have := congrArg String.data h
      simpa using this
  have hop : ∀ t : String, (t = "<" ∨ t = ">" ∨ t = ">>" ∨ t = "|") →
      t ≠ "" ∧ (t = "<" ∨ t = ">" ∨ t = ">>" ∨ t = "|" ∨
          ∀ c ∈ t.data, is_word_char c = true) := by
    intro t ht
    rcases ht with h | h | h | h <;> subst h <;> simp
  suffices key : ∀ (n : Nat) (s : List Char), s.length = n → ∀ cur : List Char,
      (∀ c ∈ cur, is_word_char c = true) →
      ∀ t ∈ reference_scan s cur,
        t ≠ "" ∧ (t = "<" ∨ t = ">" ∨ t = ">>" ∨ t = "|" ∨
          ∀ c ∈ t.data, is_word_char c = true) from key s.length s rfl
  intro n
  induction n using Nat.strong_induction_on with
  | _ n ih =>
    intro s hn cur hcur t ht
    cases s with
    | nil => exact hflush cur hcur t (by simpa [reference_scan] using ht)
    | cons c rest =>
      simp only [List.length_cons] at hn
      by_cases hw : is_word_char c = true
      · rw [reference_scan_word c rest cur hw] at ht
        refine ih rest.length (by omega) rest rfl (cur ++ [c]) ?_ t ht
        intro d hd
        rcases List.mem_append.1 hd with hd | hd
        · exact hcur d hd
        · simp only [List.mem_singleton] at hd
          subst hd; exact hw
      · have hw2 : is_word_char c = false := by simpa using hw
        rw [reference_scan_flush c rest cur hw2] at ht
        rcases List.mem_append.1 ht with ht | ht
        · exact hflush cur hcur t ht
        · have hnil : ∀ c ∈ ([] : List Char), is_word_char c = true := by simp
          by_cases hs : is_space c = true
          · rw [reference_scan_space c rest [] hs] at ht
            simp only [flush_word, if_true, List.nil_append] at ht
            exact ih rest.length (by omega) rest rfl [] hnil t ht
          · have hs2 : is_space c = false := by simpa using hs
            by_cases h1 : c = '<'
            · subst h1
              rw [reference_scan_lt] at ht
              simp only [flush_word, if_true, List.nil_append, List.mem_cons] at ht
              rcases ht with ht | ht
              · exact hop t (Or.inl ht)
              · exact ih rest.length (by omega) rest rfl [] hnil t ht
            · by_cases h2 : c = '|'
              · subst h2
                rw [reference_scan_pipe] at ht
                simp only [flush_word, if_true, List.nil_append, List.mem_cons] at ht
                rcases ht with ht | ht
                · exact hop t (Or.inr (Or.inr (Or.inr ht)))
                · exact ih rest.length (by omega) rest rfl [] hnil t ht
              · by_cases h3 : c = '>'
                · subst h3
                  cases rest with
                  | nil =>
                    rw [reference_scan_gt [] [] (by simp)] at ht
                    simp only [flush_word, if_true, List.nil_append, reference_scan,
                      List.mem_cons, List.mem_nil_iff, or_false] at ht
                    exact hop t (Or.inr (Or.inl ht))
                  | cons d rest2 =>
                    simp only [List.length_cons] at hn
                    by_cases hd : d = '>'
                    · subst hd
                      rw [reference_scan_gt_gt] at ht
                      simp only [flush_word, if_true, List.nil_append, List.mem_cons] at ht
                      rcases ht with ht | ht
                      · exact hop t (Or.inr (Or.inr (Or.inl ht)))
                      · exact ih rest2.length (by omega) rest2 rfl [] hnil t ht
                    · rw [reference_scan_gt (d :: rest2) [] (by simpa using hd)] at ht
                      simp only [flush_word, if_true, List.nil_append, List.mem_cons] at ht
                      rcases ht with ht | ht
                      · exact hop t (Or.inr (Or.inl ht))
                      · exact ih (d :: rest2).length (by simp; omega) (d :: rest2) rfl []
                          hnil t ht
                · exact absurd ((is_word_char_iff c).2 ⟨hs2, h1, h3, h2⟩) hw

/-- A text made of word characters only is one token. -/
theorem reference_scan_single_word (v : List Char) (hv : v ≠ [])
    (hwv : ∀ c ∈ v, is_word_char c = true) :
    reference_scan v [] = [String.mk v] := by
  have h := reference_scan_word_run v hwv [] []
  simp only [List.append_nil, List.nil_append] at h
  rw [h]
  simp [reference_scan, flush_word, hv]

/-- C12: on every statement `tokenize_simple` returns the tokens of the
quote-blind reference tokenizer: in order, the operators `>>` (taken
greedily), `<`, `>`, `|` and the maximal runs of characters that are neither
space, tab, newline nor `<`, `>`, `|`, quote characters being ordinary word
characters.  No token is empty, every token is an operator or a run of word
characters, and concatenating the tokens gives the statement with its spaces,
tabs and newlines deleted; `echo "a b"` gives the tokens `echo`, `"a`, `b"`. -/
theorem tokenize_simple_reference (s : List Char) :
    tokenize_simple s = (reference_tokens s).map some ∧
    (∀ t ∈ reference_tokens s,
      t ≠ "" ∧ (t = "<" ∨ t = ">" ∨ t = ">>" ∨ t = "|" ∨
        ∀ c ∈ t.data, is_word_char c = true)) ∧
    ((reference_tokens s).map String.data).flatten = s.filter (fun c => !is_space c) ∧
    tokenize_simple "echo \x22a b\x22".toList = [some "echo", some "\x22a", some "b\x22"] := by
  refine ⟨tokenize_simple_eq_reference s, ?_, ?_, by decide⟩
  · exact reference_scan_tokens s [] (by simp)
  · have := reference_scan_flatten s []
    simpa [reference_tokens] using this

/-- C11: for non-empty words `u` and `v` made of word characters (no space,
tab, newline, `<`, `>`, `|`) and each operator `op` among `<`, `>`, `>>`, `|`,
`tokenize_simple` applied to `u`, `op`, `v` written without separating
whitespace returns exactly the three tokens `u`, `op`, `v`, and so it does
when they are separated by spaces. -/
theorem tokenize_simple_adjacent_operator (u v : List Char) (op : String)
    (hu : u ≠ []) (hv : v ≠ [])
    (hwu : ∀ c ∈ u, is_word_char c = true) (hwv : ∀ c ∈ v, is_word_char c = true)
    (hop : op = "<" ∨ op = ">" ∨ op = ">>" ∨ op = "|") :
    tokenize_simple (u ++ op.data ++ v) = [some (String.mk u), some op, some (String.mk v)] ∧
    tokenize_simple (u ++ ' ' :: op.data ++ ' ' :: v) =
      [some (String.mk u), some op, some (String.mk v)] := by
  have hsp : is_space ' ' = true := by decide
  have hvh : v.head? ≠ some '>' := by
    cases v with
    | nil => simp
    | cons d v2 =>
      have := ((is_word_char_iff d).1 (hwv d (by simp))).2.2.1
      simpa using this
  have hsh : (' ' :: v).head? ≠ some '>' := by simp
  have hfu : flush_word u = [String.mk u] := by simp [flush_word, hu]
  have hv1 := reference_scan_single_word v hv hwv
  have hsv : reference_scan (' ' :: v) [] = [String.mk v] := by
    rw [reference_scan_space ' ' v [] hsp, hv1]
    simp [flush_word]
  rw [tokenize_simple_eq_reference, tokenize_simple_eq_reference]
  unfold reference_tokens
  simp only [List.append_assoc, List.cons_append]
  rw [reference_scan_word_run u hwu, reference_scan_word_run u hwu, List.nil_append,
    reference_scan_space ' ' _ u hsp, hfu]
  rcases hop with h | h | h | h <;> subst h
  · have hd : ("<" : String).data = ['<'] := rfl
    simp only [hd, List.cons_append, List.nil_append, List.singleton_append]
    rw [reference_scan_lt, reference_scan_lt, hfu, hv1, hsv]
    simp [flush_word]
  · have hd : (">" : String).data = ['>'] := rfl
    simp only [hd, List.cons_append, List.nil_append, List.singleton_append]
    rw [reference_scan_gt v u hvh, reference_scan_gt (' ' :: v) [] hsh, hfu, hv1, hsv]
    simp [flush_word]
  · have hd : (">>" : String).data = ['>', '>'] := rfl
    simp only [hd, List.cons_append, List.nil_append, List.singleton_append]
    rw [reference_scan_gt_gt, reference_scan_gt_gt, hfu, hv1, hsv]
    simp [flush_word]
  · have hd : ("|" : String).data = ['|'] := rfl
    simp only [hd, List.cons_append, List.nil_append, List.singleton_append]
    rw [reference_scan_pipe, reference_scan_pipe, hfu, hv1, hsv]
    simp [flush_word]

/-- C11, witness: `sort>>out.txt` and `sort >> out.txt`. -/
theorem tokenize_simple_adjacent_operator_witness :
    tokenize_simple ("sort".toList ++ (">>" : String).data ++ "out.txt".toList) =
      [some (String.mk "sort".toList), some ">>", some (String.mk "out.txt".toList)] ∧
    tokenize_simple ("sort".toList ++ ' ' :: (">>" : String).data ++ ' ' :: "out.txt".toList) =
      [some (String.mk "sort".toList), some ">>", some (String.mk "out.txt".toList)] :=
  tokenize_simple_adjacent_operator "sort".toList "out.txt".toList ">>"
    (by decide) (by decide) (by decide) (by decide) (by decide)


/-! ## Claims on the statements of a line and on the standard descriptors -/

/-- C20, failing input: in the line `echo ";";` followed by eight spaces the
last piece holds spaces only, and the restoring loop writes the `;` recorded at
index 6 of the line into index 6 of that piece as well: the piece is not
skipped, it is handed to `parse_and_execute` as the statement `;`, which is
run as an external program. -/
theorem blank_piece_is_executed :
    semicolon_statements "echo \x22;\x22;        ".toList =
      ["echo \x22;\x22".toList, ";".toList] ∧
    (parse_semicolon_commands "echo \x22;\x22;        ".toList
        { os := { fork_results := [100], wait_results := [WaitResult.ok] } }).map
      (fun s => (inline_builtins s.log, (spawned s.log).map (fun c => c.action))) =
    some ([[some "echo", some "\x22;\x22", none]],
          [ChildAction.execvp ";" [some ";", none]]) := by
  decide

/-- The line `false; echo after`: both statements are handed on, in that order,
and both are executed, the first in a child process and the second by the
shell process itself. -/
theorem false_then_echo_both_executed :
    semicolon_statements "false; echo after".toList =
      ["false".toList, "echo after".toList] ∧
    (parse_semicolon_commands "false; echo after".toList
        { os := { fork_results := [100], wait_results := [WaitResult.ok] } }).map
      (fun s => s.log.filterMap (fun e => match e with
        | Event.fork _ (some child) => some child.action
        | Event.handle_builtin args => some (ChildAction.handle_builtin args)
        | _ => none)) =
    some [ChildAction.execvp "false" [some "false", none],
          ChildAction.handle_builtin [some "echo", some "after", none]] := by
  decide

theorem fd_lookup_cons (a : Nat) (r : FileRef) (t : FdTable) (b : Nat) :
    fd_lookup ((a, r) :: t) b = if a = b then some r else fd_lookup t b := by
  by_cases h : a = b <;> simp [fd_lookup, List.find?_cons, h]

theorem fd_lookup_close (t : FdTable) (a b : Nat) :
    fd_lookup (fd_close t a) b = if a = b then none else fd_lookup t b := by
  induction t with
  | nil => simp [fd_lookup, fd_close]
  | cons e t ih =>
    obtain ⟨x, r⟩ := e
    by_cases hx : x = a
    · have hf : fd_close ((x, r) :: t) a = fd_close t a := by simp [fd_close, hx]
      rw [hf, ih, fd_lookup_cons]
      by_cases hab : a = b
      · simp [hab]
      · have hxb : ¬ x = b := by rw [hx]; exact hab
        simp [hab, hxb]
    · have hf : fd_close ((x, r) :: t) a = (x, r) :: fd_close t a := by simp [fd_close, hx]
      rw [hf, fd_lookup_cons, ih, fd_lookup_cons]
      by_cases hab : a = b
      · have hxb : ¬ x = b := by rw [← hab]; exact hx
        simp [hab, hxb]
      · simp [hab]

/-- A `dup2(a, b)` leaves every descriptor other than `b` as it was. -/
theorem fd_lookup_dup2_other (t : FdTable) (a b c : Nat) (h : b ≠ c) :
    fd_lookup (fd_dup2 t a b) c = fd_lookup t c := by
  unfold fd_dup2
  split
  · rfl
  · split
    · rfl
    · rw [fd_lookup_cons, fd_lookup_close]
      simp [h]

/-- A `dup2(a, b)` with `a` open makes `b` refer to what `a` refers to. -/
theorem fd_lookup_dup2_target (t : FdTable) (a b : Nat) (r : FileRef)
    (h : fd_lookup t a = some r) :
    fd_lookup (fd_dup2 t a b) b = some r := by
  unfold fd_dup2
  rw [h]
  simp only []
  split
  · next hab => rw [← hab]; exact h
  · rw [fd_lookup_cons]; simp

/-- An `open` that returns a descriptor other than `m` leaves `m` as it was;
what is left of the results of later `open` calls is the tail. -/
theorem sys_open_lookup (path : String) (w a : Bool) (sh : Shell) (m : Nat)
    (hopen : ∀ k, some k ∈ sh.os.open_results → k ≠ m) :
    fd_lookup (sys_open path w a sh).2.fds m = fd_lookup sh.fds m ∧
    (∀ k, some k ∈ (sys_open path w a sh).2.os.open_results → k ≠ m) ∧
    (∀ n, (sys_open path w a sh).1 = some n → n ≠ m) := by
  have htail : ∀ k, some k ∈ sh.os.open_results.tail → k ≠ m :=
    fun k hk => hopen k (List.mem_of_mem_tail hk)
  unfold sys_open
  split
  · next n hn =>
    have hmem : some n ∈ sh.os.open_results := by
      cases hl : sh.os.open_results with
      | nil => rw [hl] at hn; simp at hn
      | cons x xs =>
        rw [hl] at hn
        have hx : x = some n := by simpa using hn
        simp [hx]
    have hnm : n ≠ m := hopen n hmem
    refine ⟨?_, htail, ?_⟩
    · simp only [fd_lookup_cons, fd_lookup_close, hnm, if_false]
    · intro n2 h2
      simp only [Option.some.injEq] at h2
      rw [← h2]; exact hnm
  · exact ⟨rfl, htail, by simp⟩

theorem setup_output_redirection_lookup (redir : RedirectionInfo) (sh : Shell) (m : Nat)
    (hm1 : m ≠ 1) (hopen : ∀ k, some k ∈ sh.os.open_results → k ≠ m) :
    fd_lookup (setup_output_redirection redir sh).2.fds m = fd_lookup sh.fds m := by
  have ho := sys_open_lookup redir.output_file true redir.output_append sh m hopen
  unfold setup_output_redirection
  split
  · split
    · next sh1 h =>
      rw [h] at ho
      exact ho.1
    · next fd sh1 h =>
      rw [h] at ho
      have hfd : fd ≠ m := ho.2.2 fd rfl
      have h1 : (1 : Nat) ≠ m := fun e => hm1 e.symm
      split
      · simp only [sys_close, sys_dup2, fd_lookup_close, hfd, if_false,
          fd_lookup_dup2_other _ _ _ _ h1]
        exact ho.1
      · simp only [sys_close, sys_dup2, sys_write, fd_lookup_close, hfd, if_false,
          fd_lookup_dup2_other _ _ _ _ h1]
        exact ho.1
  · rfl

theorem setup_redirection_lookup (redir : RedirectionInfo) (sh : Shell) (m : Nat)
    (hm0 : m ≠ 0) (hm1 : m ≠ 1) (hopen : ∀ k, some k ∈ sh.os.open_results → k ≠ m) :
    fd_lookup (setup_redirection redir sh).2.fds m = fd_lookup sh.fds m := by
  have ho := sys_open_lookup redir.input_file false false sh m hopen
  unfold setup_redirection
  split
  · split
    · next sh1 h =>
      rw [h] at ho
      exact ho.1
    · next fd sh1 h =>
      rw [h] at ho
      have hfd : fd ≠ m := ho.2.2 fd rfl
      have h0 : (0 : Nat) ≠ m := fun e => hm0 e.symm
      split
      · have hos : ∀ k, some k ∈ (sys_close fd (sys_dup2 fd 0 sh1).2).os.open_results → k ≠ m :=
          ho.2.1
        rw [setup_output_redirection_lookup redir _ m hm1 hos]
        simp only [sys_close, sys_dup2, fd_lookup_close, hfd, if_false,
          fd_lookup_dup2_other _ _ _ _ h0]
        exact ho.1
      · simp only [sys_close, sys_dup2, sys_write, fd_lookup_close, hfd, if_false,
          fd_lookup_dup2_other _ _ _ _ h0]
        exact ho.1
  · exact setup_output_redirection_lookup redir sh m hm1 hopen

theorem write_cerr_frame (lines : List String) (sh : Shell) :
    (write_cerr lines sh).fds = sh.fds ∧ (write_cerr lines sh).os = sh.os ∧
    (write_cerr lines sh).exited = sh.exited := by
  unfold write_cerr
  induction lines generalizing sh with
  | nil => exact ⟨rfl, rfl, rfl⟩
  | cons l ls ih =>
    simp only [List.foldl_cons]
    exact ih (sys_write 2 l sh)

theorem add_to_history_frame (c : String) (sh : Shell) :
    (add_to_history c sh).fds = sh.fds ∧ (add_to_history c sh).exited = sh.exited := by
  unfold add_to_history
  split
  · split <;> exact ⟨rfl, rfl⟩
  · exact ⟨rfl, rfl⟩

theorem cd_to_frame (dir : String) (sh : Shell) :
    (cd_to dir sh).2.fds = sh.fds ∧ (cd_to dir sh).2.exited = sh.exited := by
  unfold cd_to
  split <;> exact ⟨rfl, rfl⟩

theorem builtin_cd_frame (args : List (Option String)) (sh : Shell) :
    (builtin_cd args sh).2.fds = sh.fds ∧ (builtin_cd args sh).2.exited = sh.exited := by
  unfold builtin_cd
  repeat' split
  all_goals first
    | exact ⟨rfl, rfl⟩
    | exact cd_to_frame _ _

theorem builtin_ls_frame (args : List (Option String)) (sh : Shell) :
    (builtin_ls args sh).fds = sh.fds ∧ (builtin_ls args sh).exited = sh.exited := by
  unfold builtin_ls
  split <;> exact ⟨rfl, rfl⟩

/-- A builtin leaves the descriptor table as it was, and no builtin other than
`exit` ends the shell process. -/
theorem run_builtin_frame (cmd : String) (args : List (Option String)) (sh : Shell) :
    (run_builtin cmd args sh).2.fds = sh.fds ∧
    (cmd ≠ "exit" → (run_builtin cmd args sh).2.exited = sh.exited) := by
  unfold run_builtin
  repeat' split
  all_goals first
    | exact ⟨rfl, fun _ => rfl⟩
    | exact ⟨(builtin_cd_frame _ _).1, fun _ => (builtin_cd_frame _ _).2⟩
    | exact ⟨(builtin_ls_frame _ _).1, fun _ => (builtin_ls_frame _ _).2⟩
    | exact ⟨rfl, fun h => absurd (by assumption) h⟩

theorem handle_builtin_frame (cmd : String) (rest : List (Option String)) (sh : Shell) :
    (handle_builtin (some cmd :: rest) sh).2.fds = sh.fds ∧
    (cmd ≠ "exit" → (handle_builtin (some cmd :: rest) sh).2.exited = sh.exited) := by
  simp only [handle_builtin]
  split
  · refine ⟨?_, fun h => ?_⟩
    · rw [(run_builtin_frame _ _ _).1, (add_to_history_frame _ _).1]
    · rw [(run_builtin_frame _ _ _).2 h, (add_to_history_frame _ _).2]
  · refine ⟨?_, fun h => ?_⟩
    · rw [(run_builtin_frame _ _ _).1]
    · rw [(run_builtin_frame _ _ _).2 h]

theorem sys_open_exited (path : String) (w a : Bool) (sh : Shell) :
    (sys_open path w a sh).2.exited = sh.exited := by
  unfold sys_open
  split <;> rfl

theorem setup_output_redirection_exited (redir : RedirectionInfo) (sh : Shell) :
    (setup_output_redirection redir sh).2.exited = sh.exited := by
  have ho := sys_open_exited redir.output_file true redir.output_append sh
  unfold setup_output_redirection
  split
  · split
    · next sh1 h => rw [h] at ho; exact ho
    · next fd sh1 h =>
      rw [h] at ho
      split <;> exact ho
  · rfl

theorem setup_redirection_exited (redir : RedirectionInfo) (sh : Shell) :
    (setup_redirection redir sh).2.exited = sh.exited := by
  have ho := sys_open_exited redir.input_file false false sh
  unfold setup_redirection
  split
  · split
    · next sh1 h => rw [h] at ho; exact ho
    · next fd sh1 h =>
      rw [h] at ho
      split
      · rw [setup_output_redirection_exited]; exact ho
      · exact ho
  · exact setup_output_redirection_exited redir sh

/-- A `dup(fd)` of an open descriptor that the system answers with `n`. -/
theorem sys_dup_ok (fd : Nat) (sh : Shell) (r : FileRef) (n : Nat)
    (hfd : fd_lookup sh.fds fd = some r) (hdup : sh.os.dup_results.head?.join = some n) :
    (sys_dup fd sh).1 = some n ∧
    (sys_dup fd sh).2.fds = (n, r) :: fd_close sh.fds n ∧
    (sys_dup fd sh).2.os.dup_results = sh.os.dup_results.tail ∧
    (sys_dup fd sh).2.os.open_results = sh.os.open_results ∧
    (sys_dup fd sh).2.exited = sh.exited := by
  unfold sys_dup
  rw [hfd, hdup]
  simp

/-- The function `restore_stdio` on two saved descriptors that are open and
differ from 0, from 1 and from each other: descriptors 0 and 1 refer again to
what the saved ones refer to. -/
theorem restore_stdio_lookup (n0 n1 : Nat) (r0 r1 : FileRef) (sh : Shell)
    (h0 : fd_lookup sh.fds n0 = some r0) (h1 : fd_lookup sh.fds n1 = some r1)
    (h00 : n0 ≠ 0) (h10 : n1 ≠ 0) (h11 : n1 ≠ 1) (h01 : n0 ≠ n1) :
    fd_lookup (restore_stdio (some n0) (some n1) sh).fds 0 = some r0 ∧
    fd_lookup (restore_stdio (some n0) (some n1) sh).fds 1 = some r1 := by
  have hz : (0 : Nat) ≠ n1 := fun e => h10 e.symm
  have ha : fd_lookup (fd_close (fd_dup2 sh.fds n0 0) n0) 0 = some r0 := by
    rw [fd_lookup_close, if_neg h00, fd_lookup_dup2_target _ _ _ _ h0]
  have hb : fd_lookup (fd_close (fd_dup2 sh.fds n0 0) n0) n1 = some r1 := by
    rw [fd_lookup_close, if_neg h01, fd_lookup_dup2_other _ _ _ _ hz, h1]
  simp only [restore_stdio, restore_one, sys_close, sys_dup2]
  constructor
  · rw [fd_lookup_close, if_neg h10, fd_lookup_dup2_other _ _ _ _ (by decide), ha]
  · rw [fd_lookup_close, if_neg h11, fd_lookup_dup2_target _ _ _ _ hb]

/-- A builtin other than `exit` run by `builtin_inline`, with or without
redirection: when both `dup` calls return fresh descriptors and no `open`
returns a descriptor in use, descriptors 0 and 1 refer afterwards to what they
referred to before, whether the setup of the redirection and the builtin
succeed or fail. -/
theorem builtin_inline_lookup ( with_redirection : Bool) (redir : RedirectionInfo)
    (cmd : String) (args : List (Option String)) (sh : Shell)
    (r0 r1 : FileRef) (n0 n1 : Nat)
    (hcmd : cmd ≠ "exit") (hex : sh.exited = none)
    (h0 : fd_lookup sh.fds 0 = some r0) (h1 : fd_lookup sh.fds 1 = some r1)
    (he0 : sh.os.dup_results.head?.join = some n0)
    (he1 : sh.os.dup_results.tail.head?.join = some n1)
    (h00 : n0 ≠ 0) (h01 : n0 ≠ 1) (h10 : n1 ≠ 0) (h11 : n1 ≠ 1) (hn : n0 ≠ n1)
    (hopen : ∀ k, some k ∈ sh.os.open_results → k ≠ 0 ∧ k ≠ 1 ∧ k ≠ n0 ∧ k ≠ n1) :
    fd_lookup (builtin_inline with_redirection redir (some cmd :: args) sh).fds 0 = some r0 ∧
    fd_lookup (builtin_inline with_redirection redir (some cmd :: args) sh).fds 1 = some r1 := by
  unfold builtin_inline
  cases with_redirection with
  | false =>
    simp only [Bool.false_eq_true, if_false]
    rw [(handle_builtin_frame cmd args sh).1]
    exact ⟨h0, h1⟩
  | true =>
    simp only [if_true]
    obtain ⟨d0r, d0f, d0d, d0o, d0e⟩ := sys_dup_ok 0 sh r0 n0 h0 he0
    rw [← d0d] at he1
    have h1a : fd_lookup (sys_dup 0 sh).2.fds 1 = some r1 := by
      rw [d0f, fd_lookup_cons, if_neg h01, fd_lookup_close, if_neg h01, h1]
    obtain ⟨d1r, d1f, _, d1o, d1e⟩ := sys_dup_ok 1 (sys_dup 0 sh).2 r1 n1 h1a he1
    have hs0 : fd_lookup (sys_dup 1 (sys_dup 0 sh).2).2.fds n0 = some r0 := by
      rw [d1f, fd_lookup_cons, if_neg (fun e => hn e.symm), fd_lookup_close,
        if_neg (fun e => hn e.symm), d0f, fd_lookup_cons]
      simp
    have hs1 : fd_lookup (sys_dup 1 (sys_dup 0 sh).2).2.fds n1 = some r1 := by
      rw [d1f, fd_lookup_cons]
      simp
    have hop0 : ∀ k, some k ∈ (sys_dup 1 (sys_dup 0 sh).2).2.os.open_results → k ≠ n0 := by
      intro k hk
      rw [d1o, d0o] at hk
      exact (hopen k hk).2.2.1
    have hop1 : ∀ k, some k ∈ (sys_dup 1 (sys_dup 0 sh).2).2.os.open_results → k ≠ n1 := by
      intro k hk
      rw [d1o, d0o] at hk
      exact (hopen k hk).2.2.2
    have ht0 := setup_redirection_lookup redir (sys_dup 1 (sys_dup 0 sh).2).2 n0 h00 h01 hop0
    have ht1 := setup_redirection_lookup redir (sys_dup 1 (sys_dup 0 sh).2).2 n1 h10 h11 hop1
    rw [hs0] at ht0
    rw [hs1] at ht1
    rw [d0r, d1r]
    split
    · have hfr := handle_builtin_frame cmd args (setup_redirection redir
        (sys_dup 1 (sys_dup 0 sh).2).2).2
      have hexit : (handle_builtin (some cmd :: args) (setup_redirection redir
          (sys_dup 1 (sys_dup 0 sh).2).2).2).2.exited = none := by
        rw [hfr.2 hcmd, setup_redirection_exited, d1e, d0e, hex]
      rw [hexit]
      simp only [Option.isSome_none, Bool.false_eq_true, if_false]
      exact restore_stdio_lookup n0 n1 r0 r1 _ (by rw [hfr.1]; exact ht0)
        (by rw [hfr.1]; exact ht1) h00 h10 h11 hn
    · exact restore_stdio_lookup n0 n1 r0 r1 _ ht0 ht1 h00 h10 h11 hn

/-- A `dup(fd)` that the system answers with `-1`. -/
theorem sys_dup_fail (fd : Nat) (sh : Shell)
    (hdup : sh.os.dup_results.head?.join = none) :
    (sys_dup fd sh).1 = none ∧
    (sys_dup fd sh).2.fds = sh.fds ∧
    (sys_dup fd sh).2.os.dup_results = sh.os.dup_results.tail ∧
    (sys_dup fd sh).2.os.open_results = sh.os.open_results ∧
    (sys_dup fd sh).2.exited = sh.exited := by
  unfold sys_dup
  rw [hdup]
  cases fd_lookup sh.fds fd <;> simp

/-- An `open` fails when the system has no descriptor to hand out. -/
theorem sys_open_fail (path : String) (w a : Bool) (sh : Shell)
    (hno : ∀ k, some k ∉ sh.os.open_results) :
    (sys_open path w a sh).1 = none ∧ (sys_open path w a sh).2.fds = sh.fds := by
  unfold sys_open
  split
  · next n hn =>
    exfalso
    cases hl : sh.os.open_results with
    | nil => rw [hl] at hn; simp at hn
    | cons x xs =>
      rw [hl] at hn
      have hx : x = some n := by simpa using hn
      exact hno n (by rw [hl, hx]; simp)
  · exact ⟨rfl, rfl⟩

theorem setup_output_redirection_no_open (redir : RedirectionInfo) (sh : Shell)
    (hno : ∀ k, some k ∉ sh.os.open_results) :
    (setup_output_redirection redir sh).2.fds = sh.fds := by
  have ho := sys_open_fail redir.output_file true redir.output_append sh hno
  unfold setup_output_redirection
  split
  · split
    · next sh1 h => rw [h] at ho; exact ho.2
    · next fd sh1 h => rw [h] at ho; exact absurd ho.1 (by simp)
  · rfl

/-- When no `open` succeeds, `setup_redirection` leaves the descriptor table
as it was. -/
theorem setup_redirection_no_open (redir : RedirectionInfo) (sh : Shell)
    (hno : ∀ k, some k ∉ sh.os.open_results) :
    (setup_redirection redir sh).2.fds = sh.fds := by
  have ho := sys_open_fail redir.input_file false false sh hno
  unfold setup_redirection
  split
  · split
    · next sh1 h => rw [h] at ho; exact ho.2
    · next fd sh1 h => rw [h] at ho; exact absurd ho.1 (by simp)
  · exact setup_output_redirection_no_open redir sh hno

/-- The function `restore_stdio` when at most one descriptor was saved. -/
theorem restore_stdio_lookup_partial (d0 d1 : Option Nat) (r0 r1 : FileRef) (sh : Shell)
    (hnot : d0 = none ∨ d1 = none)
    (h0 : fd_lookup sh.fds 0 = some r0) (h1 : fd_lookup sh.fds 1 = some r1)
    (hd0 : ∀ n, d0 = some n → n ≠ 0 ∧ n ≠ 1 ∧ fd_lookup sh.fds n = some r0)
    (hd1 : ∀ n, d1 = some n → n ≠ 0 ∧ n ≠ 1 ∧ fd_lookup sh.fds n = some r1) :
    fd_lookup (restore_stdio d0 d1 sh).fds 0 = some r0 ∧
    fd_lookup (restore_stdio d0 d1 sh).fds 1 = some r1 := by
  rcases d0 with _ | n0 <;> rcases d1 with _ | n1
  · exact ⟨h0, h1⟩
  · obtain ⟨a, b, c⟩ := hd1 n1 rfl
    simp only [restore_stdio, restore_one, sys_close, sys_dup2]
    constructor
    · rw [fd_lookup_close, if_neg a, fd_lookup_dup2_other _ _ _ _ (by decide), h0]
    · rw [fd_lookup_close, if_neg b, fd_lookup_dup2_target _ _ _ _ c]
  · obtain ⟨a, b, c⟩ := hd0 n0 rfl
    simp only [restore_stdio, restore_one, sys_close, sys_dup2]
    constructor
    · rw [fd_lookup_close, if_neg a, fd_lookup_dup2_target _ _ _ _ c]
    · rw [fd_lookup_close, if_neg b, fd_lookup_dup2_other _ _ _ _ (by decide), h1]
  · simp at hnot

/-- The two `dup` calls of `builtin_inline` when at least one of them fails. -/
theorem sys_dup_twice_partial (sh : Shell) (r0 r1 : FileRef) (d0 d1 : Option Nat)
    (h0 : fd_lookup sh.fds 0 = some r0) (h1 : fd_lookup sh.fds 1 = some r1)
    (he0 : sh.os.dup_results.head?.join = d0)
    (he1 : sh.os.dup_results.tail.head?.join = d1) (hnot : d0 = none ∨ d1 = none)
    (hd0 : ∀ n, d0 = some n → n ≠ 0 ∧ n ≠ 1) (hd1 : ∀ n, d1 = some n → n ≠ 0 ∧ n ≠ 1) :
    (sys_dup 0 sh).1 = d0 ∧ (sys_dup 1 (sys_dup 0 sh).2).1 = d1 ∧
    fd_lookup (sys_dup 1 (sys_dup 0 sh).2).2.fds 0 = some r0 ∧
    fd_lookup (sys_dup 1 (sys_dup 0 sh).2).2.fds 1 = some r1 ∧
    (∀ n, d0 = some n → fd_lookup (sys_dup 1 (sys_dup 0 sh).2).2.fds n = some r0) ∧
    (∀ n, d1 = some n → fd_lookup (sys_dup 1 (sys_dup 0 sh).2).2.fds n = some r1) ∧
    (sys_dup 1 (sys_dup 0 sh).2).2.os.open_results = sh.os.open_results ∧
    (sys_dup 1 (sys_dup 0 sh).2).2.exited = sh.exited := by
  rcases d0 with _ | n0 <;> rcases d1 with _ | n1
  · obtain ⟨a1, a2, a3, a4, a5⟩ := sys_dup_fail 0 sh he0
    rw [← a3] at he1
    obtain ⟨b1, b2, _, b4, b5⟩ := sys_dup_fail 1 (sys_dup 0 sh).2 he1
    refine ⟨a1, b1, ?_, ?_, by simp, by simp, by rw [b4, a4], by rw [b5, a5]⟩
    · rw [b2, a2]; exact h0
    · rw [b2, a2]; exact h1
  · obtain ⟨a1, a2, a3, a4, a5⟩ := sys_dup_fail 0 sh he0
    rw [← a3] at he1
    have h1a : fd_lookup (sys_dup 0 sh).2.fds 1 = some r1 := by rw [a2]; exact h1
    obtain ⟨b1, b2, _, b4, b5⟩ := sys_dup_ok 1 (sys_dup 0 sh).2 r1 n1 h1a he1
    obtain ⟨c0, c1⟩ := hd1 n1 rfl
    refine ⟨a1, b1, ?_, ?_, by simp, ?_, by rw [b4, a4], by rw [b5, a5]⟩
    · rw [b2, fd_lookup_cons, if_neg c0, fd_lookup_close, if_neg c0, a2]; exact h0
    · rw [b2, fd_lookup_cons, if_neg c1, fd_lookup_close, if_neg c1, a2]; exact h1
    · intro n hn
      simp only [Option.some.injEq] at hn
      rw [b2, fd_lookup_cons, hn]; simp
  · obtain ⟨a1, a2, a3, a4, a5⟩ := sys_dup_ok 0 sh r0 n0 h0 he0
    rw [← a3] at he1
    obtain ⟨b1, b2, _, b4, b5⟩ := sys_dup_fail 1 (sys_dup 0 sh).2 he1
    obtain ⟨c0, c1⟩ := hd0 n0 rfl
    refine ⟨a1, b1, ?_, ?_, ?_, by simp, by rw [b4, a4], by rw [b5, a5]⟩
    · rw [b2, a2, fd_lookup_cons, if_neg c0, fd_lookup_close, if_neg c0]; exact h0
    · rw [b2, a2, fd_lookup_cons, if_neg c1, fd_lookup_close, if_neg c1]; exact h1
    · intro n hn
      simp only [Option.some.injEq] at hn
      rw [b2, a2, fd_lookup_cons, hn]; simp
  · simp at hnot

/-- A builtin other than `exit` run by `builtin_inline` when the descriptor
table is full: a `dup` failed and no `open` succeeds, so nothing is remapped
and descriptors 0 and 1 refer afterwards to what they referred to before. -/
theorem builtin_inline_lookup_full ( with_redirection : Bool) (redir : RedirectionInfo)
    (cmd : String) (args : List (Option String)) (sh : Shell)
    (r0 r1 : FileRef) (d0 d1 : Option Nat)
    (hcmd : cmd ≠ "exit") (hex : sh.exited = none)
    (h0 : fd_lookup sh.fds 0 = some r0) (h1 : fd_lookup sh.fds 1 = some r1)
    (he0 : sh.os.dup_results.head?.join = d0)
    (he1 : sh.os.dup_results.tail.head?.join = d1) (hnot : d0 = none ∨ d1 = none)
    (hd0 : ∀ n, d0 = some n → n ≠ 0 ∧ n ≠ 1) (hd1 : ∀ n, d1 = some n → n ≠ 0 ∧ n ≠ 1)
    (hno : ∀ k, some k ∉ sh.os.open_results) :
    fd_lookup (builtin_inline with_redirection redir (some cmd :: args) sh).fds 0 = some r0 ∧
    fd_lookup (builtin_inline with_redirection redir (some cmd :: args) sh).fds 1 = some r1 := by
  unfold builtin_inline
  cases with_redirection with
  | false =>
    simp only [Bool.false_eq_true, if_false]
    rw [(handle_builtin_frame cmd args sh).1]
    exact ⟨h0, h1⟩
  | true =>
    simp only [if_true]
    obtain ⟨e0, e1, l0, l1, s0, s1, eo, ee⟩ :=
      sys_dup_twice_partial sh r0 r1 d0 d1 h0 h1 he0 he1 hnot hd0 hd1
    have hno2 : ∀ k, some k ∉ (sys_dup 1 (sys_dup 0 sh).2).2.os.open_results := by
      rw [eo]; exact hno
    have hsf := setup_redirection_no_open redir (sys_dup 1 (sys_dup 0 sh).2).2 hno2
    rw [e0, e1]
    split
    · have hfr := handle_builtin_frame cmd args (setup_redirection redir
        (sys_dup 1 (sys_dup 0 sh).2).2).2
      have hexit : (handle_builtin (some cmd :: args) (setup_redirection redir
          (sys_dup 1 (sys_dup 0 sh).2).2).2).2.exited = none := by
        rw [hfr.2 hcmd, setup_redirection_exited, ee, hex]
      rw [hexit]
      simp only [Option.isSome_none, Bool.false_eq_true, if_false]
      refine restore_stdio_lookup_partial d0 d1 r0 r1 _ hnot ?_ ?_ ?_ ?_
      · rw [hfr.1, hsf]; exact l0
      · rw [hfr.1, hsf]; exact l1
      · intro n hn
        exact ⟨(hd0 n hn).1, (hd0 n hn).2, by rw [hfr.1, hsf]; exact s0 n hn⟩
      · intro n hn
        exact ⟨(hd1 n hn).1, (hd1 n hn).2, by rw [hfr.1, hsf]; exact s1 n hn⟩
    · refine restore_stdio_lookup_partial d0 d1 r0 r1 _ hnot ?_ ?_ ?_ ?_
      · rw [hsf]; exact l0
      · rw [hsf]; exact l1
      · intro n hn
        exact ⟨(hd0 n hn).1, (hd0 n hn).2, by rw [hsf]; exact s0 n hn⟩
      · intro n hn
        exact ⟨(hd1 n hn).1, (hd1 n hn).2, by rw [hsf]; exact s1 n hn⟩

theorem is_builtin_not_redirect_op (cmd : String) (h : is_builtin_command cmd = true) :
    is_redirect_op cmd = false := by
  simp only [is_builtin_command, Bool.or_eq_true, decide_eq_true_eq] at h
  rcases h with ((((((h | h) | h) | h) | h) | h) | h) | h <;> subst h <;> decide

/-- The `clean_args` of a token list that starts with a word: empty after a
syntax error, otherwise they start with that word. -/
theorem parse_redirection_head (cmd : String) (toks : List String)
    (h : is_redirect_op cmd = false) :
    (parse_redirection ((cmd :: toks).map some)).1.clean_args = [] ∨
    ∃ tl, (parse_redirection ((cmd :: toks).map some)).1.clean_args = some cmd :: tl := by
  cases hd : no_dangling_operator (cmd :: toks) with
  | true =>
    right
    refine ⟨(strip_redirections toks).map some ++ [none], ?_⟩
    rw [parse_redirection, parse_redirection_loop_spec _ _ _ hd, strip_redirections_word _ _ h]
    simp
  | false =>
    left
    obtain ⟨op, _, hop⟩ := parse_redirection_loop_error (cmd :: toks) {} [] hd
    rw [parse_redirection, hop]

/-- The predicate `fresh_descriptors` spelled out. -/
theorem fresh_descriptors_spec (os : Os) (h : fresh_descriptors os = true) :
    (∀ n, os.dup_results.head?.join = some n → n ≠ 0 ∧ n ≠ 1) ∧
    (∀ n, os.dup_results.tail.head?.join = some n →
      n ≠ 0 ∧ n ≠ 1 ∧ os.dup_results.head?.join ≠ some n) ∧
    (∀ k, some k ∈ os.open_results →
      os.dup_results.head?.join.isSome = true ∧
      os.dup_results.tail.head?.join.isSome = true ∧
      k ≠ 0 ∧ k ≠ 1 ∧ os.dup_results.head?.join ≠ some k ∧
      os.dup_results.tail.head?.join ≠ some k) := by
  simp only [fresh_descriptors, Bool.and_eq_true, bne_iff_ne, ne_eq, Bool.or_eq_true,
    beq_iff_eq, List.all_eq_true] at h
  obtain ⟨⟨⟨⟨⟨a, b⟩, c⟩, d⟩, e⟩, f⟩ := h
  refine ⟨?_, ?_, ?_⟩
  · intro n hn
    rw [hn] at a b
    exact ⟨fun x => a (by rw [x]), fun x => b (by rw [x])⟩
  · intro n hn
    rw [hn] at c d e
    refine ⟨fun x => c (by rw [x]), fun x => d (by rw [x]), ?_⟩
    rcases e with e | e
    · simp at e
    · exact fun x => e x.symm
  · intro k hk
    rcases f (some k) hk with g | g
    · simp at g
    · obtain ⟨⟨⟨⟨⟨g1, g2⟩, g3⟩, g4⟩, g5⟩, g6⟩ := g
      exact ⟨g1, g2, fun x => g3 (by rw [x]), fun x => g4 (by rw [x]),
        fun x => g5 x.symm, fun x => g6 x.symm⟩

/-- A builtin other than `exit` run by `builtin_inline` leaves descriptors 0
and 1 referring to what they referred to before. -/
theorem builtin_inline_keeps_stdio ( with_redirection : Bool) (redir : RedirectionInfo)
    (cmd : String) (args : List (Option String)) (sh : Shell) (r0 r1 : FileRef)
    (hcmd : cmd ≠ "exit") (hex : sh.exited = none)
    (h0 : fd_lookup sh.fds 0 = some r0) (h1 : fd_lookup sh.fds 1 = some r1)
    (hos : fresh_descriptors sh.os = true) :
    fd_lookup (builtin_inline with_redirection redir (some cmd :: args) sh).fds 0 = some r0 ∧
    fd_lookup (builtin_inline with_redirection redir (some cmd :: args) sh).fds 1 = some r1 := by
  obtain ⟨hd0, hd1, hop⟩ := fresh_descriptors_spec sh.os hos
  by_cases hboth : sh.os.dup_results.head?.join.isSome = true ∧
      sh.os.dup_results.tail.head?.join.isSome = true
  · obtain ⟨n0, e0⟩ := Option.isSome_iff_exists.1 hboth.1
    obtain ⟨n1, e1⟩ := Option.isSome_iff_exists.1 hboth.2
    have hn : n0 ≠ n1 := by
      intro e
      exact (hd1 n1 e1).2.2 (by rw [e0, e])
    refine builtin_inline_lookup with_redirection redir cmd args sh r0 r1 n0 n1 hcmd hex h0 h1
      e0 e1 (hd0 n0 e0).1 (hd0 n0 e0).2 (hd1 n1 e1).1 (hd1 n1 e1).2.1 hn ?_
    intro k hk
    obtain ⟨_, _, k0, k1, k2, k3⟩ := hop k hk
    rw [e0] at k2
    rw [e1] at k3
    exact ⟨k0, k1, fun e => k2 (by rw [e]), fun e => k3 (by rw [e])⟩
  · have hnot : sh.os.dup_results.head?.join = none ∨
        sh.os.dup_results.tail.head?.join = none := by
      by_cases ha : sh.os.dup_results.head?.join = none
      · exact Or.inl ha
      · by_cases hb : sh.os.dup_results.tail.head?.join = none
        · exact Or.inr hb
        · exact absurd ⟨Option.ne_none_iff_isSome.1 ha, Option.ne_none_iff_isSome.1 hb⟩ hboth
    refine builtin_inline_lookup_full with_redirection redir cmd args sh r0 r1 _ _ hcmd hex
      h0 h1 rfl rfl hnot (fun n hn => hd0 n hn) (fun n hn => ⟨(hd1 n hn).1, (hd1 n hn).2.1⟩) ?_
    intro k hk
    exact hboth ⟨(hop k hk).1, (hop k hk).2.1⟩

/-- C14: a statement without pipe operator whose first token is a builtin other
than `exit` (so `parse_and_execute` runs it inline, with or without
redirection), started with descriptors 0 and 1 open and with an operating
system that hands out fresh descriptors: `parse_and_execute` returns, and on
every path (builtin succeeded or failed, background refused, syntax error,
`setup_redirection` failed before or after remapping standard input, a failed
`dup`) descriptors 0 and 1 refer to the open files they referred to before the
statement, so a later write to descriptor 1 goes to the original destination. -/
theorem inline_builtin_restores_stdio (command_line : List Char) (sh : Shell)
    (cmd : String) (r0 r1 : FileRef)
    (hpipe : has_pipe (tokenize_simple (strip_background command_line).1) = false)
    (hcmd : (tokenize_simple (strip_background command_line).1).head? = some (some cmd))
    (hb : is_builtin_command cmd = true) (hne : cmd ≠ "exit")
    (hex : sh.exited = none)
    (h0 : fd_lookup sh.fds 0 = some r0) (h1 : fd_lookup sh.fds 1 = some r1)
    (hos : fresh_descriptors sh.os = true) :
    ∃ sh2, parse_and_execute command_line sh = some sh2 ∧
      fd_lookup sh2.fds 0 = some r0 ∧ fd_lookup sh2.fds 1 = some r1 ∧
      ∀ text, (sys_write 1 text sh2).log.getLast? = some (Event.write 1 (some r1) text) := by
  have hfin : ∀ sh2 : Shell, fd_lookup sh2.fds 0 = some r0 → fd_lookup sh2.fds 1 = some r1 →
      fd_lookup sh2.fds 0 = some r0 ∧ fd_lookup sh2.fds 1 = some r1 ∧
      ∀ text, (sys_write 1 text sh2).log.getLast? = some (Event.write 1 (some r1) text) := by
    intro sh2 a b
    refine ⟨a, b, fun text => ?_⟩
    simp [sys_write, b]
  rw [tokenize_simple_eq_reference] at hpipe hcmd
  cases hL : reference_tokens (strip_background command_line).1 with
  | nil => rw [hL] at hcmd; simp at hcmd
  | cons c toks =>
    rw [hL] at hcmd hpipe
    simp only [List.map_cons, List.head?_cons, Option.some.injEq] at hcmd
    subst hcmd
    have htok : tokenize_simple (strip_background command_line).1 =
        some c :: toks.map some := by
      rw [tokenize_simple_eq_reference, hL]; rfl
    unfold parse_and_execute
    split
    · exact ⟨sh, rfl, hfin sh h0 h1⟩
    · simp only [htok]
      simp only [List.map_cons] at hpipe
      simp only [hpipe, Bool.false_eq_true, if_false, Option.getD_some, hb, if_true]
      split
      · exact ⟨_, rfl, hfin _ h0 h1⟩
      · obtain ⟨wf, wo, we⟩ := write_cerr_frame
          (parse_redirection (some c :: toks.map some)).2 sh
        rcases parse_redirection_head c toks (is_builtin_not_redirect_op c hb) with hr | ⟨tl, hr⟩
        · simp only [List.map_cons] at hr
          rw [hr]
          exact ⟨_, rfl, hfin _ (by rw [wf]; exact h0) (by rw [wf]; exact h1)⟩
        · simp only [List.map_cons] at hr
          rw [hr]
          obtain ⟨a, b⟩ := builtin_inline_keeps_stdio
            ((parse_redirection (some c :: toks.map some)).1.has_input_redirect ||
              (parse_redirection (some c :: toks.map some)).1.has_output_redirect)
            (parse_redirection (some c :: toks.map some)).1 c tl
            (write_cerr (parse_redirection (some c :: toks.map some)).2 sh) r0 r1 hne
            (by rw [we]; exact hex) (by rw [wf]; exact h0) (by rw [wf]; exact h1)
            (by rw [wo]; exact hos)
          exact ⟨_, rfl, hfin _ a b⟩

/-- C14, witness: the statement `echo hi > out.txt`, with `dup` returning 3 and
4 and `open` returning 5. -/
theorem inline_builtin_restores_stdio_witness :
    ∃ sh2, parse_and_execute "echo hi > out.txt".toList
        { os := { dup_results := [some 3, some 4], open_results := [some 5] } } = some sh2 ∧
      fd_lookup sh2.fds 0 = some (FileRef.std 0) ∧ fd_lookup sh2.fds 1 = some (FileRef.std 1) ∧
      ∀ text, (sys_write 1 text sh2).log.getLast? =
        some (Event.write 1 (some (FileRef.std 1)) text) :=
  inline_builtin_restores_stdio "echo hi > out.txt".toList
    { os := { dup_results := [some 3, some 4], open_results := [some 5] } }
    "echo" (FileRef.std 0) (FileRef.std 1)
    (by decide) (by decide) (by decide) (by decide) rfl (by decide) (by decide) (by decide)

/-- The statement `echo hi > out.txt` writes its line to the file and leaves
descriptor 1 on the original stream; in `echo hi < in.txt > out.txt`, when the
second `open` fails after standard input was remapped, nothing is written but
the report of the failure and descriptors 0 and 1 are back on the original
streams. -/
theorem echo_redirected_then_restored :
    (parse_and_execute "echo hi > out.txt".toList
        { os := { dup_results := [some 3, some 4], open_results := [some 5] } }).map
      (fun s => (s.log.filterMap (fun e => match e with
          | Event.write fd ref text => some (fd, ref, text)
          | _ => none),
        fd_lookup s.fds 0, fd_lookup s.fds 1)) =
      some ([(1, some (FileRef.file "out.txt" true false), "hi\n")],
        some (FileRef.std 0), some (FileRef.std 1)) ∧
    (parse_and_execute "echo hi < in.txt > out.txt".toList
        { os := { dup_results := [some 3, some 4], open_results := [some 5, none] } }).map
      (fun s => (s.log.filterMap (fun e => match e with
          | Event.write fd ref text => some (fd, ref, text)
          | _ => none),
        fd_lookup s.fds 0, fd_lookup s.fds 1)) =
      some ([(2, some (FileRef.std 2), "shell: out.txt")],
        some (FileRef.std 0), some (FileRef.std 1)) := by
  constructor <;> rfl

/-! ## Lines without a quoted `;` -/

theorem protect_semicolons_plain (s : List Char) :
    ∀ (i : Nat) (in_quotes : Bool) (quote_char : Char),
      (protect_semicolons s i in_quotes quote_char).2 = [] →
      (protect_semicolons s i in_quotes quote_char).1 = s := by
  induction s with
  | nil => intro i iq qc _; rfl
  | cons c rest ih =>
    intro i iq qc h
    unfold protect_semicolons at h ⊢
    split
    · next h1 =>
      rw [if_pos h1] at h
      simp only at h ⊢
      rw [ih _ _ _ h]
    · next h1 =>
      rw [if_neg h1] at h
      split
      · next h2 =>
        rw [if_pos h2] at h
        simp only at h ⊢
        rw [ih _ _ _ h]
      · next h2 =>
        rw [if_neg h2] at h
        split
        · next h3 =>
          rw [if_pos h3] at h
          simp at h
        · next h3 =>
          rw [if_neg h3] at h
          simp only at h ⊢
          rw [ih _ _ _ h]

theorem splitOn_semicolon_cons (rest : List Char) :
    (';' :: rest).splitOn ';' = [] :: rest.splitOn ';' := by
  simp [List.splitOn]

theorem splitOn_char_cons (c : Char) (rest : List Char) (hc : c ≠ ';') :
    (c :: rest).splitOn ';' = (rest.splitOn ';').modifyHead (fun p => c :: p) := by
  simp [List.splitOn, hc]

theorem split_semicolons_spec (s : List Char) :
    ∀ (cur : List Char) (commands : List (List Char)),
      split_semicolons s cur commands =
        commands ++ (((s.splitOn ';').modifyHead (fun p => cur ++ p)).filter
          (fun p => p ≠ [])) := by
  induction s with
  | nil =>
    intro cur commands
    by_cases hc : cur = [] <;> simp [split_semicolons, List.splitOn, hc]
  | cons c rest ih =>
    intro cur commands
    by_cases hc : c = ';'
    · subst hc
      rw [splitOn_semicolon_cons]
      simp only [split_semicolons, if_true, ih, List.modifyHead_cons, List.append_nil]
      have hid : (fun p : List Char => [] ++ p) = id := by funext p; simp
      by_cases hcur : cur = []
      · subst hcur
        cases rest.splitOn ';' <;> simp [hid]
      · cases rest.splitOn ';' <;> simp [hcur, hid]
    · rw [splitOn_char_cons c rest hc]
      simp only [split_semicolons, hc, if_false, ih]
      cases rest.splitOn ';' <;> simp

theorem prepare_statement_blank (p : List Char) (h : p.all is_space = true) :
    prepare_statement [] p = none := by
  have hf : p.findIdx (fun c => !is_space c) = p.length := by
    rw [List.findIdx_eq_length]
    intro x hx
    simpa using (List.all_eq_true.1 h) x hx
  simp [prepare_statement, restore_semicolons, find_first_not_of_space, hf]

theorem prepare_statement_nonblank (p : List Char) (h : p.all is_space = false) :
    prepare_statement [] p = some (trim_spaces p) := by
  have hex : ∃ x ∈ p, (fun c => !is_space c) x = true := by
    by_contra hne
    have : p.all is_space = true := by
      rw [List.all_eq_true]
      intro x hx
      by_contra hx2
      exact hne ⟨x, hx, by simpa using hx2⟩
    rw [this] at h
    exact absurd h (by decide)
  have hexr : ∃ x ∈ p.reverse, (fun c => !is_space c) x = true := by
    obtain ⟨x, hx, hx2⟩ := hex
    exact ⟨x, List.mem_reverse.2 hx, hx2⟩
  have h1 : p.findIdx (fun c => !is_space c) < p.length := List.findIdx_lt_length.2 hex
  have h2 : p.reverse.findIdx (fun c => !is_space c) < p.length := by
    have := List.findIdx_lt_length.2 hexr
    simpa using this
  -- the text without its trailing spaces
  have hq : (p.reverse.dropWhile is_space).reverse =
      p.take (p.length - p.reverse.findIdx (fun c => !is_space c)) := by
    rw [List.dropWhile_eq_drop_findIdx_not, List.drop_reverse, List.reverse_reverse]
  have hqne : ∃ x ∈ (p.reverse.dropWhile is_space).reverse, (fun c => !is_space c) x = true := by
    have hne : p.reverse.dropWhile is_space ≠ [] := by
      intro e
      rw [List.dropWhile_eq_nil_iff] at e
      obtain ⟨x, hx, hx2⟩ := hexr
      have := e x hx
      simp [this] at hx2
    refine ⟨(p.reverse.dropWhile is_space).head hne, ?_, ?_⟩
    · exact List.mem_reverse.2 (List.head_mem hne)
    · simp [List.head_dropWhile_not is_space p.reverse hne]
  have hfq : ((p.reverse.dropWhile is_space).reverse).findIdx (fun c => !is_space c) =
      p.findIdx (fun c => !is_space c) := by
    have hp : p = (p.reverse.dropWhile is_space).reverse ++
        p.drop (p.length - p.reverse.findIdx (fun c => !is_space c)) := by
      rw [hq, List.take_append_drop]
    conv_rhs => rw [hp, List.findIdx_append]
    rw [if_pos (List.findIdx_lt_length.2 hqne)]
  have hlt : p.findIdx (fun c => !is_space c) <
      p.length - p.reverse.findIdx (fun c => !is_space c) := by
    have := List.findIdx_lt_length.2 hqne
    rw [hfq, hq, List.length_take] at this
    omega
  have htrim : (p.drop (p.findIdx (fun c => !is_space c))).take
      (p.length - 1 - p.reverse.findIdx (fun c => !is_space c) -
        p.findIdx (fun c => !is_space c) + 1) = trim_spaces p := by
    unfold trim_spaces
    rw [@List.dropWhile_eq_drop_findIdx_not Char ((p.reverse.dropWhile is_space).reverse) is_space,
      hfq, hq, List.take_drop]
    congr 2
    omega
  have hne : trim_spaces p ≠ [] := by
    rw [← htrim, List.take_drop]
    intro e
    have := congrArg List.length e
    simp only [List.length_drop, List.length_take, List.length_nil] at this
    omega
  simp only [prepare_statement, restore_semicolons, List.foldl_nil, find_first_not_of_space,
    find_last_not_of_space, h1, h2, if_true, htrim]
  simp [hne]

theorem filterMap_prepare_statement (pieces : List (List Char)) :
    (pieces.filter (fun p => p ≠ [])).filterMap (prepare_statement []) =
      (pieces.filter (fun p => !p.all is_space)).map trim_spaces := by
  induction pieces with
  | nil => rfl
  | cons p rest ih =>
    cases hp : p.all is_space with
    | true =>
      by_cases hne : p = []
      · simpa [hne] using ih
      · simpa [List.filter_cons, hne, hp, prepare_statement_blank p hp] using ih
    | false =>
      have hne : p ≠ [] := by
        intro e
        rw [e] at hp
        simp at hp
      simpa [List.filter_cons, hne, hp, prepare_statement_nonblank p hp] using ih

/-- On a line in which no `;` lies between quotes, the statements handed to
`parse_and_execute` are, in order and once each, the pieces between the `;`
that hold a character other than space, tab and newline, each trimmed; empty
and blank pieces are skipped. -/
theorem semicolon_statements_plain (input : List Char)
    (h : (protect_semicolons input 0 false '\x00').2 = []) :
    semicolon_statements input =
      ((input.splitOn ';').filter (fun p => !p.all is_space)).map trim_spaces := by
  have hid : (fun p : List Char => [] ++ p) = id := by funext p; simp
  have hm : ∀ l : List (List Char), l.modifyHead id = l := by
    intro l; cases l <;> rfl
  unfold semicolon_statements
  rw [h, protect_semicolons_plain input 0 false '\x00' h, split_semicolons_spec, hid, hm,
    List.nil_append]
  exact filterMap_prepare_statement _

/-- The loop over the statements of a line always returns. -/
theorem run_statements_defined (stmts : List (List Char)) :
    ∀ sh : Shell, ∃ sh2, run_statements stmts sh = some sh2 := by
  induction stmts with
  | nil => intro sh; exact ⟨sh, rfl⟩
  | cons stmt rest ih =>
    intro sh
    unfold run_statements
    split
    · exact ⟨sh, rfl⟩
    · obtain ⟨sh1, h1⟩ := parse_and_execute_defined stmt sh
      rw [h1]
      exact ih sh1

/-- The statements after the first are run on the state the first one left,
whatever its outcome; nothing but `exit` ends the loop. -/
theorem run_statements_cons (stmt : List Char) (rest : List (List Char)) (sh : Shell)
    (h : sh.exited = none) :
    run_statements (stmt :: rest) sh = (parse_and_execute stmt sh).bind (run_statements rest) := by
  simp only [run_statements, h, Option.isSome_none, Bool.false_eq_true, if_false]
  cases parse_and_execute stmt sh <;> rfl


/-! ## Claims on the builtins -/

/-- C23: `builtin_cd` called with the single argument `-` while no previous
directory is recorded returns failure (-1) after reporting `cd: OLDPWD not
set`: it calls no `chdir`, the working directory is what it was and the
previous-directory record is still empty; `handle_builtin` reports the
failure for `cd -`. -/
theorem builtin_cd_dash_without_previous (name : String) (rest : List (Option String))
    (sh : Shell) (hargc : argc_of (some name :: some "-" :: rest) = 2)
    (hprev : sh.previous_dir = "") :
    builtin_cd (some name :: some "-" :: rest) sh =
      (-1, sys_write 2 "cd: OLDPWD not set\n" sh) ∧
    chdirs (builtin_cd (some name :: some "-" :: rest) sh).2.log = chdirs sh.log ∧
    (builtin_cd (some name :: some "-" :: rest) sh).2.cwd = sh.cwd ∧
    (builtin_cd (some name :: some "-" :: rest) sh).2.previous_dir = "" ∧
    (builtin_cd (some name :: some "-" :: rest) sh).2.os = sh.os ∧
    (handle_builtin [some "cd", some "-", none] sh).1 = false := by
  have h : builtin_cd (some name :: some "-" :: rest) sh =
      (-1, sys_write 2 "cd: OLDPWD not set\n" sh) := by
    have hd : ("-" : String).data = ['-'] := rfl
    simp [builtin_cd, hargc, hd, hprev]
  have h2 : (handle_builtin [some "cd", some "-", none] sh).1 = false := by
    have hd : ("-" : String).data = ['-'] := rfl
    have ha : argc_of [some "cd", some "-", none] = 2 := by decide
    have hp : (add_to_history (join_tokens [some "cd", some "-", none])
        { sh with log := sh.log ++ [Event.handle_builtin [some "cd", some "-", none]] }).previous_dir
        = "" := by
      unfold add_to_history
      split
      · split <;> exact hprev
      · exact hprev
    simp [handle_builtin, run_builtin, builtin_cd, ha, hd, hp]
  rw [h]
  refine ⟨rfl, ?_, rfl, hprev, rfl, h2⟩
  simp [chdirs, sys_write]

/-- C23, witness: `cd -` as the first command of a shell. -/
theorem builtin_cd_dash_without_previous_witness :
    builtin_cd [some "cd", some "-", none] {} =
      (-1, sys_write 2 "cd: OLDPWD not set\n" {}) ∧
    chdirs (builtin_cd [some "cd", some "-", none] {}).2.log = chdirs ({} : Shell).log ∧
    (builtin_cd [some "cd", some "-", none] {}).2.cwd = ({} : Shell).cwd ∧
    (builtin_cd [some "cd", some "-", none] {}).2.previous_dir = "" ∧
    (builtin_cd [some "cd", some "-", none] {}).2.os = ({} : Shell).os ∧
    (handle_builtin [some "cd", some "-", none] {}).1 = false :=
  builtin_cd_dash_without_previous "cd" [none] {} (by decide) rfl

/-- C28, failing input: after `cd ~/a` the statement `cd ~/b` asks `chdir` for
the home directory followed by `/a` again: the function-static string
`expanded_path` keeps the expansion made by the first call. -/
theorem cd_tilde_path_reuses_first_expansion :
    (parse_semicolon_commands "cd ~/a; cd ~/b".toList
        { os := { chdir_results := [some "/home/u/a", some "/home/u/a"],
                  user_home := "/home/u" } }).map
      (fun s => (chdirs s.log).map (fun c => c.1)) =
    some ["/home/u/a", "/home/u/a"] := by
  decide

/-- The first call of `builtin_cd` with an argument `~/p` asks `chdir` for the
home directory followed by `/p`. -/
theorem cd_tilde_path_first_call :
    (parse_semicolon_commands "cd ~/b".toList
        { os := { chdir_results := [some "/home/u/b"], user_home := "/home/u" } }).map
      (fun s => (chdirs s.log).map (fun c => c.1)) =
    some ["/home/u/b"] := by
  decide

/-- C25, failing input: the statement `> out.txt cd /tmp` has the builtin `cd`
as the first word of its clean argument list, but `parse_and_execute` looks at
the first token, `>`: `handle_builtin` is not called, a child is forked that
calls `execvp` on `cd`, and the working directory of the shell stays what it
was.  The statement `cd /tmp > out.txt` runs the builtin in the shell. -/
theorem leading_redirection_builtin_is_forked :
    (parse_and_execute "> out.txt cd /tmp".toList
        { os := { fork_results := [100], chdir_results := [some "/tmp"],
                  dup_results := [some 3, some 4], open_results := [some 5] },
          cwd := "/home" }).map
      (fun s => (inline_builtins s.log, (spawned s.log).map (fun c => c.action), s.cwd)) =
      some ([], [ChildAction.execvp "cd" [some "cd", some "/tmp", none]], "/home") ∧
    (parse_and_execute "cd /tmp > out.txt".toList
        { os := { fork_results := [100], chdir_results := [some "/tmp"],
                  dup_results := [some 3, some 4], open_results := [some 5] },
          cwd := "/home" }).map
      (fun s => (inline_builtins s.log, (spawned s.log).map (fun c => c.action), s.cwd)) =
      some ([[some "cd", some "/tmp", none]], [], "/tmp") := by
  decide

/-- C24, failing input: `handle_builtin` on `ls -z` reports the invalid option
on `cerr` and returns true, `builtin_ls` having no return value; on `cd -x` it
returns false.  In both cases the working directory and the
previous-directory record are what they were. -/
theorem ls_invalid_option_returns_success :
    ((handle_builtin [some "ls", some "-z", none] { cwd := "/home", previous_dir := "/" }).1,
      written (handle_builtin [some "ls", some "-z", none]
        { cwd := "/home", previous_dir := "/" }).2.log,
      (handle_builtin [some "ls", some "-z", none] { cwd := "/home", previous_dir := "/" }).2.cwd,
      (handle_builtin [some "ls", some "-z", none]
        { cwd := "/home", previous_dir := "/" }).2.previous_dir) =
      (true, [(2, "ls: invalid option -- \x27z\x27\n")], "/home", "/") ∧
    ((handle_builtin [some "cd", some "-x", none] { cwd := "/home", previous_dir := "/" }).1,
      written (handle_builtin [some "cd", some "-x", none]
        { cwd := "/home", previous_dir := "/" }).2.log,
      (handle_builtin [some "cd", some "-x", none] { cwd := "/home", previous_dir := "/" }).2.cwd,
      (handle_builtin [some "cd", some "-x", none]
        { cwd := "/home", previous_dir := "/" }).2.previous_dir) =
      (false, [(2, "cd: -x: No such file or directory\n")], "/home", "/") := by
  decide


/-! ## Claims on the rebuilt argument list -/

theorem strip_redirections_words (toks : List String) :
    ∀ t ∈ strip_redirections toks, is_redirect_op t = false := by
  induction toks using strip_redirections.induct with
  | case1 => simp [strip_redirections]
  | case2 t h => simp [strip_redirections, h]
  | case3 t h f rest2 ih => simpa [strip_redirections, h] using ih
  | case4 t rest h ih =>
    have h2 : is_redirect_op t = false := by simpa using h
    intro x hx
    rw [strip_redirections_word _ _ h2] at hx
    rcases List.mem_cons.1 hx with hx | hx
    · rw [hx]; exact h2
    · exact ih x hx

theorem parse_redirection_loop_words (words : List String)
    (h : ∀ t ∈ words, is_redirect_op t = false) :
    ∀ (rest : List (Option String)) (redir : RedirectionInfo) (clean : List (Option String)),
      parse_redirection_loop (words.map some ++ rest) redir clean =
        parse_redirection_loop rest redir (clean ++ words.map some) := by
  induction words with
  | nil => intro rest redir clean; simp
  | cons t ws ih =>
    intro rest redir clean
    have ht := h t (by simp)
    simp only [List.map_cons, List.cons_append]
    rw [parse_redirection_loop_word _ _ _ _ ht, ih (fun x hx => h x (List.mem_cons_of_mem _ hx))]
    simp

theorem foldl_record_defaults (ops : List (String × String)) :
    ∀ redir : RedirectionInfo, redirection_defaults redir →
      redirection_defaults (ops.foldl record_redirection redir) := by
  induction ops with
  | nil => intro redir h; exact h
  | cons p ops ih =>
    intro redir h
    simp only [List.foldl_cons]
    apply ih
    unfold record_redirection
    split
    · exact ⟨by simp, h.2⟩
    · exact ⟨h.1, by simp⟩

/-- The words, then `<` and the input path, then `>` or `>>` and the output
path, are parsed back into the record they were built from. -/
theorem parse_redirection_rebuilt (words : List String) (r : RedirectionInfo)
    (hw : ∀ t ∈ words, is_redirect_op t = false) (hr : redirection_defaults r) :
    parse_redirection (words.map some ++
        (if r.has_input_redirect then [some "<", some r.input_file] else []) ++
        (if r.has_output_redirect then
          [some (if r.output_append then ">>" else ">"), some r.output_file] else [])) =
      ({ r with clean_args := words.map some ++ [none] }, []) := by
  obtain ⟨hi, ho, oa, inf, outf, ca⟩ := r
  obtain ⟨h1, h2⟩ := hr
  simp only at h1 h2
  rw [parse_redirection, List.append_assoc, parse_redirection_loop_words words hw]
  cases hi <;> cases ho <;> cases oa <;> simp_all [parse_redirection_loop]

/-- C27: for a command that `parse_pipeline` made from a segment and that
carries redirection, the argument list rebuilt by `execute_pipeline` (the
clean words, then `<` and the input path, then `>` or `>>` and the output
path) is parsed by `parse_redirection` without error into the very
`RedirectionInfo` stored in the command: the same clean arguments, the same
flags, paths and append flag, whatever the paths are.  No clean argument is a
redirection operator, and `execute_command` on the rebuilt list does what it
does on the segment itself. -/
theorem rebuilt_arguments_parse_back (seg : List String) (cmd : Command)
    (background : Bool) (sh : Shell)
    (hcmd : (finish_command (seg.map some)).1 = cmd) (hred : cmd.has_redirection = true) :
    parse_redirection (rebuild_full_args cmd) = (cmd.redirection, []) ∧
    cmd.args = cmd.redirection.clean_args ∧
    (∀ t, some t ∈ cmd.args → is_redirect_op t = false) ∧
    execute_command (rebuild_full_args cmd) background sh =
      execute_command (seg.map some) background sh := by
  cases hd : no_dangling_operator seg with
  | false =>
    obtain ⟨op, _, hop⟩ := parse_redirection_loop_error seg {} [] hd
    rw [← hcmd] at hred
    simp [finish_command, parse_redirection, hop] at hred
  | true =>
    have hp : parse_redirection (seg.map some) =
        ({ (redirect_ops seg).foldl record_redirection {} with
            clean_args := (strip_redirections seg).map some ++ [none] }, []) := by
      rw [parse_redirection, parse_redirection_loop_spec seg _ _ hd]
      simp
    have hdef := foldl_record_defaults (redirect_ops seg) {} ⟨fun _ => rfl, fun _ => ⟨rfl, rfl⟩⟩
    have hredir : cmd.redirection = { (redirect_ops seg).foldl record_redirection {} with
        clean_args := (strip_redirections seg).map some ++ [none] } := by
      rw [← hcmd]; simp [finish_command, hp]
    have hhas : (((redirect_ops seg).foldl record_redirection {}).has_input_redirect ||
        ((redirect_ops seg).foldl record_redirection {}).has_output_redirect) = true := by
      rw [← hcmd] at hred
      simpa [finish_command, hp] using hred
    have hargs : cmd.args = (strip_redirections seg).map some ++ [none] := by
      rw [← hcmd]
      simp only [finish_command, hp, hhas]
      simp
    have hfilter : cmd.args.filter Option.isSome = (strip_redirections seg).map some := by
      rw [hargs, List.filter_append]
      simp [List.filter_map, Function.comp_def]
    have hbuilt := parse_redirection_rebuilt (strip_redirections seg) cmd.redirection
      (strip_redirections_words seg) (by rw [hredir]; exact hdef)
    have h1 : parse_redirection (rebuild_full_args cmd) = (cmd.redirection, []) := by
      unfold rebuild_full_args
      rw [hfilter, hbuilt, hredir]
    refine ⟨h1, ?_, ?_, ?_⟩
    · rw [hargs, hredir]
    · intro t ht
      rw [hargs] at ht
      simp only [List.mem_append, List.mem_map, Option.some.injEq, exists_eq_right,
        List.mem_singleton] at ht
      rcases ht with ht | ht
      · exact strip_redirections_words seg t ht
      · exact absurd ht (by simp)
    · have h2 : parse_redirection (seg.map some) = (cmd.redirection, []) := by
        rw [hp, hredir]
      unfold execute_command
      rw [h1, h2]

/-- C27, witness: the stage `sort -r < in.txt >> out.txt`. -/
theorem rebuilt_arguments_parse_back_witness :
    parse_redirection (rebuild_full_args
        (finish_command (["sort", "<", "in.txt", "-r", ">>", "out.txt"].map some)).1) =
      ((finish_command (["sort", "<", "in.txt", "-r", ">>", "out.txt"].map some)).1.redirection,
        []) ∧
    rebuild_full_args
        (finish_command (["sort", "<", "in.txt", "-r", ">>", "out.txt"].map some)).1 =
      [some "sort", some "-r", some "<", some "in.txt", some ">>", some "out.txt"] :=
  ⟨(rebuilt_arguments_parse_back ["sort", "<", "in.txt", "-r", ">>", "out.txt"] _ false {}
      rfl (by decide)).1, by decide⟩


/-! ## Further facts on the builtins -/

/-- Whatever its arguments, `handle_builtin` on `ls` returns true: `builtin_ls`
has no return value to report an invalid option with. -/
theorem handle_builtin_ls_returns_true (rest : List (Option String)) (sh : Shell) :
    (handle_builtin (some "ls" :: rest) sh).1 = true := by
  simp [handle_builtin, run_builtin]


theorem cd_to_chdirs (dir : String) (sh : Shell) :
    chdirs (cd_to dir sh).2.log = chdirs sh.log ++ [(dir, sh.os.chdir_results.head?.join)] := by
  unfold cd_to
  split
  · next h => rw [h]; simp [chdirs, sys_write]
  · next c h => rw [h]; simp [chdirs]

/-- A call of `builtin_cd` with one argument `~/p`: the directory asked for is
the home directory followed by `/p` when the function-static `expanded_path`
has not been initialised yet, and the value of `expanded_path`, made from the
argument of an earlier call, when it has. -/
theorem builtin_cd_tilde_path (name arg : String) (p : List Char) (sh : Shell)
    (harg : arg.data = '~' :: '/' :: p) :
    chdirs (builtin_cd [some name, some arg, none] sh).2.log = chdirs sh.log ++
      [(sh.expanded_path.getD (sh.os.user_home ++ String.mk ('/' :: p)),
        sh.os.chdir_results.head?.join)] ∧
    (builtin_cd [some name, some arg, none] sh).2.expanded_path =
      some (sh.expanded_path.getD (sh.os.user_home ++ String.mk ('/' :: p))) := by
  have hargc : argc_of [some name, some arg, none] = 2 := by simp [argc_of]
  have hne : arg ≠ "~" := by
    intro e
    rw [e] at harg
    have hd : ("~" : String).data = ['~'] := rfl
    rw [hd] at harg
    simp at harg
  constructor
  · simp only [builtin_cd, hargc, hne, harg, List.drop]
    simp [cd_to_chdirs]
  · simp only [builtin_cd, hargc, hne, harg, List.drop]
    simp [cd_to]
    split <;> rfl


theorem spawned_process_events (log : List Event) :
    spawned (process_events log) = spawned log ∧
    inline_builtins (process_events log) = inline_builtins log := by
  induction log with
  | nil => exact ⟨rfl, rfl⟩
  | cons e log ih =>
    obtain ⟨ih1, ih2⟩ := ih
    simp only [process_events, spawned, inline_builtins] at ih1 ih2 ⊢
    cases e <;> simp [List.filter_cons, is_process_event, List.filterMap_cons, ih1, ih2]

/-- A foreground statement without pipe whose first token is a builtin: no
child is spawned, and `handle_builtin` is called by the shell process itself
on the clean arguments, unless the redirection has a syntax error or cannot be
set up. -/
theorem first_token_builtin_runs_inline (command_line : List Char) (sh : Shell) (cmd : String)
    (hpipe : has_pipe (tokenize_simple (strip_background command_line).1) = false)
    (hfg : (strip_background command_line).2 = false)
    (hcmd : (tokenize_simple (strip_background command_line).1).head? = some (some cmd))
    (hb : is_builtin_command cmd = true) :
    ∃ sh2, parse_and_execute command_line sh = some sh2 ∧
      spawned sh2.log = spawned sh.log ∧
      (inline_builtins sh2.log = inline_builtins sh.log ++
          [(parse_redirection (tokenize_simple (strip_background command_line).1)).1.clean_args] ∨
        inline_builtins sh2.log = inline_builtins sh.log) := by
  have hkey : ∀ (sh2 : Shell) (args : List (Option String)),
      (process_events sh2.log = process_events sh.log ++ [Event.handle_builtin args] ∨
        process_events sh2.log = process_events sh.log) →
      spawned sh2.log = spawned sh.log ∧
      (inline_builtins sh2.log = inline_builtins sh.log ++ [args] ∨
        inline_builtins sh2.log = inline_builtins sh.log) := by
    intro sh2 args h
    rw [← (spawned_process_events sh2.log).1, ← (spawned_process_events sh2.log).2,
      ← (spawned_process_events sh.log).1, ← (spawned_process_events sh.log).2]
    rcases h with h | h
    · rw [h]
      exact ⟨by simp [spawned], Or.inl (by simp [inline_builtins])⟩
    · rw [h]
      exact ⟨rfl, Or.inr rfl⟩
  cases htok : tokenize_simple (strip_background command_line).1 with
  | nil => rw [htok] at hcmd; simp at hcmd
  | cons tok0 toks =>
    rw [htok] at hcmd hpipe
    simp only [List.head?_cons, Option.some.injEq] at hcmd
    subst hcmd
    unfold parse_and_execute
    split
    · exact ⟨sh, rfl, rfl, Or.inr rfl⟩
    · simp only [htok, hpipe, hfg, Bool.false_eq_true, if_false, Bool.false_and,
        Option.getD_some, hb, if_true]
      split
      · next c tl hc =>
        refine ⟨_, rfl, ?_⟩
        rw [hc]
        apply hkey
        rcases process_events_builtin_inline
          ((parse_redirection (some cmd :: toks)).1.has_input_redirect ||
            (parse_redirection (some cmd :: toks)).1.has_output_redirect)
          (parse_redirection (some cmd :: toks)).1 (some c :: tl)
          (write_cerr (parse_redirection (some cmd :: toks)).2 sh) with h | ⟨_, h⟩
        · left
          rw [h, process_events_write_cerr]
        · right
          rw [h, process_events_write_cerr]
      · refine ⟨_, rfl, ?_⟩
        have hpe := process_events_write_cerr (parse_redirection (some cmd :: toks)).2 sh
        constructor
        · rw [← (spawned_process_events _).1, hpe, (spawned_process_events _).1]
        · right
          rw [← (spawned_process_events _).2, hpe, (spawned_process_events _).2]


/-! ## Claims on the processes of a pipeline -/

theorem forks_waits_sys_write (fd : Nat) (text : String) (sh : Shell) :
    fork_results_of (sys_write fd text sh).log = fork_results_of sh.log ∧
    waited (sys_write fd text sh).log = waited sh.log := by
  simp [sys_write, fork_results_of, waited]

theorem forks_waits_sys_close (fd : Nat) (sh : Shell) :
    fork_results_of (sys_close fd sh).log = fork_results_of sh.log ∧
    waited (sys_close fd sh).log = waited sh.log := by
  simp [sys_close, fork_results_of, waited]

theorem forks_waits_sys_pipe (sh : Shell) :
    fork_results_of (sys_pipe sh).2.log = fork_results_of sh.log ∧
    waited (sys_pipe sh).2.log = waited sh.log := by
  unfold sys_pipe
  split <;> simp [fork_results_of, waited]

theorem forks_waits_sys_fork (child : ChildRun) (sh : Shell) :
    fork_results_of (sys_fork child sh).2.log =
      fork_results_of sh.log ++ [(sys_fork child sh).1] ∧
    waited (sys_fork child sh).2.log = waited sh.log := by
  simp [sys_fork, fork_results_of, waited]

theorem forks_waits_sys_waitpid (pid : Int) (sh : Shell) :
    fork_results_of (sys_waitpid pid sh).log = fork_results_of sh.log ∧
    waited (sys_waitpid pid sh).log = waited sh.log ++ [pid] := by
  unfold sys_waitpid
  simp only []
  split <;> simp [sys_write, fork_results_of, waited]

theorem forks_waits_foldl_close (fds : List Nat) (sh : Shell) :
    fork_results_of (fds.foldl (fun s fd => sys_close fd s) sh).log = fork_results_of sh.log ∧
    waited (fds.foldl (fun s fd => sys_close fd s) sh).log = waited sh.log := by
  induction fds generalizing sh with
  | nil => exact ⟨rfl, rfl⟩
  | cons fd fds ih =>
    simp only [List.foldl_cons]
    rw [(ih _).1, (ih _).2]
    exact forks_waits_sys_close fd sh

/-- The waiting loop calls `waitpid` once for every entry of `pids`, in order,
and creates no process. -/
theorem forks_waits_foldl_waitpid (pids : List Int) (sh : Shell) :
    fork_results_of (pids.foldl (fun s pid => sys_waitpid pid s) sh).log =
      fork_results_of sh.log ∧
    waited (pids.foldl (fun s pid => sys_waitpid pid s) sh).log = waited sh.log ++ pids := by
  induction pids generalizing sh with
  | nil => exact ⟨rfl, by simp⟩
  | cons pid pids ih =>
    simp only [List.foldl_cons]
    rw [(ih _).1, (ih _).2, (forks_waits_sys_waitpid pid sh).1,
      (forks_waits_sys_waitpid pid sh).2]
    simp

theorem forks_waits_create_pipes (n : Nat) :
    ∀ (pipes : List Nat) (sh : Shell),
      fork_results_of (create_pipes n pipes sh).2.log = fork_results_of sh.log ∧
      waited (create_pipes n pipes sh).2.log = waited sh.log := by
  induction n with
  | zero => intro pipes sh; exact ⟨rfl, rfl⟩
  | succ n ih =>
    intro pipes sh
    have hp := forks_waits_sys_pipe sh
    rw [create_pipes]
    split
    · next sh1 h =>
      rw [h] at hp
      rw [(forks_waits_sys_write _ _ _).1, (forks_waits_sys_write _ _ _).2]
      exact hp
    · next rw1 sh1 h =>
      rw [h] at hp
      rw [(ih _ _).1, (ih _ _).2]
      exact hp

/-- One call of `execute_command_in_pipeline`: a stage with a program makes one
`fork()` call, whose value is returned; a stage without one makes none and
returns -1. -/
theorem forks_waits_execute_command_in_pipeline (cmd : Command) (i o : Nat) (sh : Shell) :
    fork_results_of (execute_command_in_pipeline cmd i o sh).2.log =
      fork_results_of sh.log ++
        (if has_program cmd then [(execute_command_in_pipeline cmd i o sh).1] else []) ∧
    waited (execute_command_in_pipeline cmd i o sh).2.log = waited sh.log ∧
    (has_program cmd = false → (execute_command_in_pipeline cmd i o sh).1 = -1) := by
  have hf : ∀ child : ChildRun,
      fork_results_of (if (sys_fork child sh).1 < 0 then
          ((sys_fork child sh).1, sys_write 2 "fork" (sys_fork child sh).2)
        else sys_fork child sh).2.log =
        fork_results_of sh.log ++ [(if (sys_fork child sh).1 < 0 then
          ((sys_fork child sh).1, sys_write 2 "fork" (sys_fork child sh).2)
        else sys_fork child sh).1] ∧
      waited (if (sys_fork child sh).1 < 0 then
          ((sys_fork child sh).1, sys_write 2 "fork" (sys_fork child sh).2)
        else sys_fork child sh).2.log = waited sh.log := by
    intro child
    split
    · simp only
      rw [(forks_waits_sys_write _ _ _).1, (forks_waits_sys_write _ _ _).2]
      exact forks_waits_sys_fork child sh
    · exact forks_waits_sys_fork child sh
  unfold execute_command_in_pipeline has_program
  split
  · next name tl hargs =>
    simp only [if_true]
    split
    · exact ⟨(hf _).1, (hf _).2, fun h => absurd h (by simp)⟩
    · exact ⟨(hf _).1, (hf _).2, fun h => absurd h (by simp)⟩
  · simp


/-- The launching loop: one `fork()` call for every stage with a program, and
`pids` receives the values returned that are process identifiers; nothing is
waited for. -/
theorem forks_waits_run_stages (n : Nat) (pipes : List Nat) (cmds : List Command) :
    ∀ (i : Nat) (pids : List Int) (recs : List StageRecord) (sh : Shell)
      (pids2 : List Int) (recs2 : List StageRecord) (sh2 : Shell),
      run_stages n pipes cmds i pids recs sh = some (pids2, recs2, sh2) →
      ∃ forks : List Int, forks.length = (cmds.filter has_program).length ∧
        fork_results_of sh2.log = fork_results_of sh.log ++ forks ∧
        pids2 = pids ++ forks.filter (fun pid => 0 < pid) ∧
        waited sh2.log = waited sh.log := by
  induction cmds with
  | nil =>
    intro i pids recs sh pids2 recs2 sh2 h
    simp only [run_stages, Option.some.injEq, Prod.mk.injEq] at h
    refine ⟨[], rfl, ?_, ?_, ?_⟩
    · rw [← h.2.2]; simp
    · rw [← h.1]; simp
    · rw [← h.2.2]
  | cons cmd rest ih =>
    intro i pids recs sh pids2 recs2 sh2 h
    rw [run_stages] at h
    split at h
    · next input_fd output_fd _ _ =>
      have hc : ∀ (b : Prop) [Decidable b] (fd : Nat) (s : Shell),
          fork_results_of (if b then sys_close fd s else s).log = fork_results_of s.log ∧
          waited (if b then sys_close fd s else s).log = waited s.log := by
        intro b _ fd s
        split
        · exact forks_waits_sys_close fd s
        · exact ⟨rfl, rfl⟩
      obtain ⟨e1, e2, e3⟩ := forks_waits_execute_command_in_pipeline cmd input_fd output_fd sh
      obtain ⟨forks, hlen, hfork, hpids, hwait⟩ := ih _ _ _ _ _ _ _ h
      rw [(hc _ _ _).1, (hc _ _ _).1, e1] at hfork
      rw [(hc _ _ _).2, (hc _ _ _).2, e2] at hwait
      cases hp : has_program cmd with
      | true =>
        rw [hp] at hfork
        simp only [if_true] at hfork
        refine ⟨(execute_command_in_pipeline cmd input_fd output_fd sh).1 :: forks,
          by simp [List.filter_cons, hp, hlen], ?_, ?_, hwait⟩
        · rw [hfork]; simp
        · rw [hpids]
          by_cases hpos : (execute_command_in_pipeline cmd input_fd output_fd sh).1 > 0
          · have hpos2 : 0 < (execute_command_in_pipeline cmd input_fd output_fd sh).1 := hpos
            simp [List.filter_cons, hpos, hpos2]
          · have hpos2 : ¬ 0 < (execute_command_in_pipeline cmd input_fd output_fd sh).1 := hpos
            simp [List.filter_cons, hpos, hpos2]
      | false =>
        rw [hp] at hfork
        simp only [Bool.false_eq_true, if_false, List.append_nil] at hfork
        have hneg := e3 hp
        refine ⟨forks, by simp [List.filter_cons, hp, hlen], hfork, ?_, hwait⟩
        rw [hpids, hneg]
        simp
    · exact absurd h (by simp)

/-- The pipeline `ls | sort | wc` in which the second `fork()` fails. -/
theorem pipeline_with_failed_fork :
    (execute_pipeline
        { commands := [{ args := [some "ls", none] }, { args := [some "sort", none] },
                       { args := [some "wc", none] }] }
        { os := { pipe_results := [some (3, 4), some (5, 6)],
                  fork_results := [100, -1, 102] } }).map
      (fun r => (fork_results_of r.shell.log, waited r.shell.log)) =
    some ([100, -1, 102], [100, 102]) := by
  decide


/-! ## Claims on output redirection -/

theorem is_plain_word_spec (w : String) (h : is_plain_word w = true) :
    w.data ≠ [] ∧ (∀ c ∈ w.data, is_word_char c = true) ∧ (∀ c ∈ w.data, c ≠ '&') ∧
    is_redirect_op w = false ∧ w ≠ "|" := by
  simp only [is_plain_word, Bool.and_eq_true, decide_eq_true_eq, List.all_eq_true] at h
  obtain ⟨h1, h2⟩ := h
  have hw : ∀ c ∈ w.data, is_word_char c = true := fun c hc => (h2 c hc).1
  have hnot : ∀ op : String, (∃ c ∈ op.data, is_word_char c = false) → op.data ≠ [] →
      w ≠ op := by
    intro op ⟨c, hc, hc2⟩ _ e
    rw [e] at hw
    rw [hw c hc] at hc2
    exact absurd hc2 (by decide)
  refine ⟨h1, hw, fun c hc => by simpa using (h2 c hc).2, ?_, ?_⟩
  · have a := hnot "<" ⟨'<', by decide, by decide⟩ (by decide)
    have b := hnot ">" ⟨'>', by decide, by decide⟩ (by decide)
    have c := hnot ">>" ⟨'>', by decide, by decide⟩ (by decide)
    simp [is_redirect_op, a, b, c]
  · exact hnot "|" ⟨'|', by decide, by decide⟩ (by decide)

theorem space_separated_cons (t u : String) (rest : List String) :
    space_separated (t :: u :: rest) = t.data ++ ' ' :: space_separated (u :: rest) := rfl

/-- Tokens written with single spaces between them are read back as they
are, when each is a non-empty run of word characters or the operator `>` or
`>>`. -/
theorem reference_tokens_space_separated (toks : List String)
    (h : ∀ t ∈ toks, (t.data ≠ [] ∧ ∀ c ∈ t.data, is_word_char c = true) ∨ t = ">" ∨ t = ">>") :
    reference_tokens (space_separated toks) = toks := by
  have hsp : is_space ' ' = true := by decide
  have hone : ∀ t : String,
      ((t.data ≠ [] ∧ ∀ c ∈ t.data, is_word_char c = true) ∨ t = ">" ∨ t = ">>") →
      ∀ rest : List Char, reference_scan (t.data ++ ' ' :: rest) [] = t :: reference_scan rest [] := by
    intro t ht rest
    rcases ht with ⟨hne, hw⟩ | ht | ht
    · rw [reference_scan_word_run t.data hw, List.nil_append, reference_scan_space _ _ _ hsp]
      simp [flush_word, hne]
    · subst ht
      have hd : (">" : String).data = ['>'] := rfl
      rw [hd, List.singleton_append, reference_scan_gt _ _ (by simp),
        reference_scan_space _ _ _ hsp]
      simp [flush_word]
    · subst ht
      have hd : (">>" : String).data = ['>', '>'] := rfl
      rw [hd]
      simp only [List.cons_append, List.nil_append]
      rw [reference_scan_gt_gt, reference_scan_space _ _ _ hsp]
      simp [flush_word]
  unfold reference_tokens
  induction toks with
  | nil => rfl
  | cons t rest ih =>
    cases rest with
    | nil =>
      rcases h t (by simp) with ⟨hne, hw⟩ | ht | ht
      · simp only [space_separated]
        rw [reference_scan_single_word _ hne hw]
      · subst ht; decide
      · subst ht; decide
    | cons u rest2 =>
      rw [space_separated_cons, hone t (h t (by simp)),
        ih (fun x hx => h x (List.mem_cons_of_mem _ hx))]

theorem unquoted_amps_none (s : List Char) (h : ∀ c ∈ s, c ≠ '&') :
    ∀ (i : Nat) (q : Option Char), unquoted_amps s i q = [] := by
  induction s with
  | nil => intro i q; cases q <;> rfl
  | cons c rest ih =>
    intro i q
    have hc : c ≠ '&' := h c (by simp)
    have ih2 := ih (fun x hx => h x (List.mem_cons_of_mem _ hx))
    cases q with
    | none => simp [unquoted_amps, hc, ih2]
    | some q => by_cases hq : c = q <;> simp [unquoted_amps, hq, ih2]

/-- A statement without any `&` that does not start with a blank is handed to
the tokenizer as it is, and is not background. -/
theorem strip_background_plain (s : List Char) (h : ∀ c ∈ s, c ≠ '&')
    (hb : ∀ c, s.head? = some c → is_blank c = false) :
    strip_background s = (s, false) := by
  have hd : s.dropWhile is_blank = s := by
    cases s with
    | nil => rfl
    | cons c rest => simp [List.dropWhile_cons, hb c rfl]
  rw [strip_background_eq, hd]
  simp [last_unquoted_amp, unquoted_amps_none s h]

theorem space_separated_chars (toks : List String) :
    ∀ c ∈ space_separated toks, c = ' ' ∨ ∃ t ∈ toks, c ∈ t.data := by
  induction toks with
  | nil => intro c hc; simp [space_separated] at hc
  | cons t rest ih =>
    cases rest with
    | nil =>
      intro c hc
      exact Or.inr ⟨t, by simp, by simpa [space_separated] using hc⟩
    | cons u rest2 =>
      intro c hc
      rw [space_separated_cons] at hc
      rcases List.mem_append.1 hc with hc | hc
      · exact Or.inr ⟨t, by simp, hc⟩
      · rcases List.mem_cons.1 hc with hc | hc
        · exact Or.inl hc
        · rcases ih c hc with h1 | ⟨x, hx, hx2⟩
          · exact Or.inl h1
          · exact Or.inr ⟨x, List.mem_cons_of_mem _ hx, hx2⟩


theorem file_after_append (path : String) (l1 l2 : List Event) (content : String) :
    file_after path (l1 ++ l2) content = file_after path l2 (file_after path l1 content) := by
  simp [file_after, List.foldl_append]

theorem sys_dup_log (fd : Nat) (sh : Shell) :
    (sys_dup fd sh).2.log = sh.log ++ [Event.dup fd (sys_dup fd sh).1] ∧
    (sys_dup fd sh).2.os.open_results = sh.os.open_results ∧
    (sys_dup fd sh).2.exited = sh.exited := by
  unfold sys_dup
  split <;> exact ⟨rfl, rfl, rfl⟩

/-- The function `setup_redirection` for an output redirection alone, when
`open` returns a descriptor other than 1: the file is opened for writing, with
`O_APPEND` exactly when `output_append` is set and with `O_TRUNC` otherwise,
and descriptor 1 refers to it afterwards. -/
theorem setup_redirection_output (redir : RedirectionInfo) (sh : Shell) (k : Nat)
    (hin : redir.has_input_redirect = false) (hout : redir.has_output_redirect = true)
    (hopen : sh.os.open_results.head?.join = some k) (hk : k ≠ 1) :
    (setup_redirection redir sh).1 = true ∧
    (setup_redirection redir sh).2.log = sh.log ++
      [Event.open_file redir.output_file true redir.output_append (some k),
        Event.dup2 k 1, Event.close k] ∧
    fd_lookup (setup_redirection redir sh).2.fds 1 =
      some (FileRef.file redir.output_file true redir.output_append) ∧
    (setup_redirection redir sh).2.exited = sh.exited := by
  have hl : fd_lookup ((k, FileRef.file redir.output_file true redir.output_append) ::
      fd_close sh.fds k) k = some (FileRef.file redir.output_file true redir.output_append) := by
    rw [fd_lookup_cons]; simp
  have h1 : (1 : Nat) ≠ k := fun e => hk e.symm
  simp only [setup_redirection, hin, Bool.false_eq_true, if_false, setup_output_redirection,
    hout, if_true, sys_open, hopen, sys_dup2, hl, Option.isSome_some, sys_close]
  simp
  rw [fd_lookup_close, if_neg hk, fd_lookup_dup2_target _ _ _ _ hl]

/-- The builtin `echo` run by `handle_builtin`: one `write` to descriptor 1 of
the arguments joined by single spaces and a newline. -/
theorem handle_builtin_echo (ws : List String) (sh : Shell) :
    (handle_builtin (some "echo" :: ws.map some ++ [none]) sh).2.log = sh.log ++
      [Event.handle_builtin (some "echo" :: ws.map some ++ [none]),
        Event.write 1 (fd_lookup sh.fds 1) (String.intercalate " " ws ++ "\n")] ∧
    (handle_builtin (some "echo" :: ws.map some ++ [none]) sh).2.exited = sh.exited := by
  have hargs : (((some "echo" :: ws.map some ++ [none]).takeWhile Option.isSome).filterMap id).drop 1
      = ws := by
    have : ((some "echo" :: (ws.map some ++ [none])).takeWhile Option.isSome) =
        some "echo" :: ws.map some := by
      rw [List.takeWhile_cons_of_pos (by simp)]
      congr 1
      induction ws with
      | nil => simp
      | cons w ws ih => simp [List.takeWhile_cons, ih]
    simp only [List.cons_append] at this ⊢
    rw [this]
    simp [List.filterMap_map]
  have hh := add_to_history_frame (join_tokens (some "echo" :: ws.map some ++ [none]))
    { sh with log := sh.log ++ [Event.handle_builtin (some "echo" :: ws.map some ++ [none])] }
  have hlog := add_to_history_log (join_tokens (some "echo" :: ws.map some ++ [none]))
    { sh with log := sh.log ++ [Event.handle_builtin (some "echo" :: ws.map some ++ [none])] }
  have hne : ("echo" : String) ≠ "history" := by decide
  simp only [List.cons_append] at hargs hh hlog ⊢
  simp only [handle_builtin, hne, ne_eq, not_false_eq_true, if_true, run_builtin,
    show ¬ ("echo" : String) = "cd" by decide, show ¬ ("echo" : String) = "pwd" by decide,
    if_false, builtin_echo, hargs, sys_write, hlog, hh.1, hh.2]
  exact ⟨by simp, trivial⟩

/-- The function `restore_stdio` opens no file and writes nothing. -/
theorem restore_stdio_log (a b : Option Nat) (sh : Shell) :
    ∃ evs, (restore_stdio a b sh).log = sh.log ++ evs ∧
      ∀ (path content : String), file_after path evs content = content := by
  rcases a with _ | a <;> rcases b with _ | b
  · exact ⟨[], by simp [restore_stdio, restore_one], fun _ _ => rfl⟩
  · exact ⟨[Event.dup2 b 1, Event.close b],
      by simp [restore_stdio, restore_one, sys_dup2, sys_close], fun _ _ => rfl⟩
  · exact ⟨[Event.dup2 a 0, Event.close a],
      by simp [restore_stdio, restore_one, sys_dup2, sys_close], fun _ _ => rfl⟩
  · exact ⟨[Event.dup2 a 0, Event.close a, Event.dup2 b 1, Event.close b],
      by simp [restore_stdio, restore_one, sys_dup2, sys_close], fun _ _ => rfl⟩

/-- The builtin `echo` run by `builtin_inline` with an output redirection
alone, when `open` returns a descriptor other than 1: afterwards the file
holds the arguments joined by single spaces and a newline, after its earlier
bytes when the redirection appends and after nothing when it does not. -/
theorem builtin_inline_echo (redir : RedirectionInfo) (ws : List String) (sh : Shell) (k : Nat)
    (hin : redir.has_input_redirect = false) (hout : redir.has_output_redirect = true)
    (hopen : sh.os.open_results.head?.join = some k) (hk : k ≠ 1) (hex : sh.exited = none) :
    ∃ evs, (builtin_inline true redir (some "echo" :: ws.map some ++ [none]) sh).log =
        sh.log ++ evs ∧
      Event.open_file redir.output_file true redir.output_append (some k) ∈ evs ∧
      ∀ content : String, file_after redir.output_file evs content =
        (if redir.output_append then content else "") ++ (String.intercalate " " ws ++ "\n") := by
  obtain ⟨l0, o0, x0⟩ := sys_dup_log 0 sh
  obtain ⟨l1, o1, x1⟩ := sys_dup_log 1 (sys_dup 0 sh).2
  have hopen2 : (sys_dup 1 (sys_dup 0 sh).2).2.os.open_results.head?.join = some k := by
    rw [o1, o0]; exact hopen
  obtain ⟨s1, s2, s3, s4⟩ := setup_redirection_output redir (sys_dup 1 (sys_dup 0 sh).2).2 k
    hin hout hopen2 hk
  obtain ⟨b1, b2⟩ := handle_builtin_echo ws (setup_redirection redir
    (sys_dup 1 (sys_dup 0 sh).2).2).2
  have hnx : (handle_builtin (some "echo" :: ws.map some ++ [none]) (setup_redirection redir
      (sys_dup 1 (sys_dup 0 sh).2).2).2).2.exited = none := by
    rw [b2, s4, x1, x0, hex]
  obtain ⟨revs, r1, r2⟩ := restore_stdio_log (sys_dup 0 sh).1 (sys_dup 1 (sys_dup 0 sh).2).1
    (handle_builtin (some "echo" :: ws.map some ++ [none]) (setup_redirection redir
      (sys_dup 1 (sys_dup 0 sh).2).2).2).2
  refine ⟨[Event.dup 0 (sys_dup 0 sh).1] ++ ([Event.dup 1 (sys_dup 1 (sys_dup 0 sh).2).1] ++
    ([Event.open_file redir.output_file true redir.output_append (some k),
        Event.dup2 k 1, Event.close k] ++
      ([Event.handle_builtin (some "echo" :: ws.map some ++ [none]),
        Event.write 1 (some (FileRef.file redir.output_file true redir.output_append))
          (String.intercalate " " ws ++ "\n")] ++ revs))), ?_, by simp, ?_⟩
  · simp only [builtin_inline, if_true, s1, hnx, Option.isSome_none, Bool.false_eq_true,
      if_false]
    rw [r1, b1, s2, s3, l1, l0]
    simp
  · intro content
    simp only [file_after_append, r2]
    cases ha : redir.output_append <;> simp [file_after, file_step]

/-- What `parse_redirection` makes of `echo`, words, and one output
redirection at the end. -/
theorem parse_redirection_echo_output (ws : List String) (op f : String)
    (hws : ∀ w ∈ ws, is_redirect_op w = false) (hop : op = ">" ∨ op = ">>") :
    parse_redirection (("echo" :: ws ++ [op, f]).map some) =
      ({ has_output_redirect := true, output_append := decide (op = ">>"), output_file := f,
         clean_args := some "echo" :: ws.map some ++ [none] }, []) := by
  have hw : ∀ t ∈ "echo" :: ws, is_redirect_op t = false := by
    intro t ht
    rcases List.mem_cons.1 ht with ht | ht
    · rw [ht]; decide
    · exact hws t ht
  have hsplit : ("echo" :: ws ++ [op, f]).map some =
      ("echo" :: ws).map some ++ [some op, some f] := by simp
  rw [parse_redirection, hsplit, parse_redirection_loop_words _ hw]
  rcases hop with h | h <;> subst h <;> simp [parse_redirection_loop]


/-- The statement `echo w1 ... wn > f`, or the same with `>>`, run by
`parse_and_execute` when `open` returns a descriptor other than 1: the events
it adds to the log leave the file `f` holding the words joined by single
spaces and a newline, after its earlier bytes for `>>` and after nothing for
`>`. -/
theorem echo_output_statement (ws : List String) (op f : String) (sh : Shell) (k : Nat)
    (hws : ∀ w ∈ ws, is_plain_word w = true) (hf : is_plain_word f = true)
    (hop : op = ">" ∨ op = ">>")
    (hopen : sh.os.open_results.head?.join = some k) (hk : k ≠ 1) (hex : sh.exited = none) :
    ∃ (sh2 : Shell) (evs : List Event),
      parse_and_execute (space_separated ("echo" :: (ws ++ [op, f]))) sh = some sh2 ∧
      sh2.log = sh.log ++ evs ∧
      Event.open_file f true (decide (op = ">>")) (some k) ∈ evs ∧
      ∀ content : String, file_after f evs content =
        (if op = ">>" then content else "") ++ (String.intercalate " " ws ++ "\n") := by
  have hopd : ∀ c ∈ op.data, c = '>' := by
    rcases hop with h | h <;> subst h <;> decide
  have hopne : op ≠ "|" := by
    rcases hop with h | h <;> subst h <;> decide
  -- the characters of the statement
  have hamp : ∀ c ∈ space_separated ("echo" :: (ws ++ [op, f])), c ≠ '&' := by
    intro c hc
    rcases space_separated_chars _ c hc with h | ⟨t, ht, hct⟩
    · rw [h]; decide
    · simp only [List.cons_append, List.mem_cons, List.mem_append, List.mem_singleton,
        List.not_mem_nil, or_false] at ht
      rcases ht with ht | ht | ht | ht
      · subst ht
        intro e
        rw [e] at hct
        exact absurd hct (by decide)
      · exact (is_plain_word_spec t (hws t ht)).2.2.1 c hct
      · subst ht
        rw [hopd c hct]; decide
      · subst ht
        exact (is_plain_word_spec t hf).2.2.1 c hct
  have hhead : ∃ rest : List Char,
      space_separated ("echo" :: (ws ++ [op, f])) = 'e' :: rest := by
    cases ws with
    | nil => exact ⟨_, rfl⟩
    | cons w ws2 => exact ⟨_, rfl⟩
  obtain ⟨rest, hrest⟩ := hhead
  have hsb : strip_background (space_separated ("echo" :: (ws ++ [op, f]))) =
      (space_separated ("echo" :: (ws ++ [op, f])), false) := by
    apply strip_background_plain _ hamp
    intro c hc
    rw [hrest] at hc
    simp only [List.head?_cons, Option.some.injEq] at hc
    rw [← hc]; decide
  have htoks : tokenize_simple (space_separated ("echo" :: (ws ++ [op, f]))) =
      some "echo" :: (ws ++ [op, f]).map some := by
    rw [tokenize_simple_eq_reference, reference_tokens_space_separated]
    · rfl
    · intro t ht
      simp only [List.cons_append, List.mem_cons, List.mem_append, List.mem_singleton,
        List.not_mem_nil, or_false] at ht
      rcases ht with ht | ht | ht | ht
      · subst ht; exact Or.inl ⟨by decide, by decide⟩
      · exact Or.inl ⟨(is_plain_word_spec t (hws t ht)).1, (is_plain_word_spec t (hws t ht)).2.1⟩
      · exact Or.inr (by rw [ht]; exact hop)
      · subst ht
        exact Or.inl ⟨(is_plain_word_spec t hf).1, (is_plain_word_spec t hf).2.1⟩
  have hnp : has_pipe (some "echo" :: (ws ++ [op, f]).map some) = false := by
    have hall : ∀ t ∈ "echo" :: (ws ++ [op, f]), t ≠ "|" := by
      intro t ht
      simp only [List.mem_cons, List.mem_append, List.mem_singleton,
        List.not_mem_nil, or_false] at ht
      rcases ht with ht | ht | ht | ht
      · rw [ht]; decide
      · exact (is_plain_word_spec t (hws t ht)).2.2.2.2
      · rw [ht]; exact hopne
      · rw [ht]; exact (is_plain_word_spec f hf).2.2.2.2
    have : some "echo" :: (ws ++ [op, f]).map some = ("echo" :: (ws ++ [op, f])).map some := rfl
    rw [this, has_pipe, List.any_eq_false]
    intro x hx
    obtain ⟨t, ht, hxt⟩ := List.mem_map.1 hx
    rw [← hxt]
    simpa using hall t ht
  have hpr := parse_redirection_echo_output ws op f
    (fun w hw => (is_plain_word_spec w (hws w hw)).2.2.2.1) hop
  simp only [List.map_cons, List.cons_append] at hpr
  have hne : ¬ (space_separated ("echo" :: (ws ++ [op, f]))).dropWhile
      (fun c => c = ' ' || c = '\t') = [] := by
    rw [hrest]
    simp [List.dropWhile_cons]
  obtain ⟨evs, he1, he3, he2⟩ := builtin_inline_echo
    { has_output_redirect := true, output_append := decide (op = ">>"), output_file := f,
      clean_args := some "echo" :: ws.map some ++ [none] } ws sh k rfl rfl hopen hk hex
  refine ⟨_, evs, ?_, he1, he3, ?_⟩
  · unfold parse_and_execute
    rw [if_neg hne]
    simp only [hsb, htoks, hnp, Bool.false_eq_true, if_false, Bool.false_and,
      Option.getD_some, show is_builtin_command "echo" = true by decide, if_true, hpr,
      List.cons_append, Bool.false_or, write_cerr, List.foldl_nil]
  · intro content
    rw [he2 content]
    simp

/-- C21: for words `w1 ... wn` and a path `f` free of whitespace, operator
characters and `&`, the statement `echo w1 ... wn > f`, run by
`parse_and_execute` when the file can be opened (on a descriptor other than
1), leaves the file `f` holding exactly the words joined by single spaces
followed by one newline, whatever it held before. -/
theorem echo_redirected_overwrites (ws : List String) (f : String) (sh : Shell) (k : Nat)
    (before : String)
    (hws : ∀ w ∈ ws, is_plain_word w = true) (hf : is_plain_word f = true)
    (hopen : sh.os.open_results.head?.join = some k) (hk : k ≠ 1) (hex : sh.exited = none) :
    ∃ (sh2 : Shell) (evs : List Event),
      parse_and_execute (space_separated ("echo" :: (ws ++ [">", f]))) sh = some sh2 ∧
      sh2.log = sh.log ++ evs ∧
      file_after f evs before = String.intercalate " " ws ++ "\n" := by
  obtain ⟨sh2, evs, h1, h2, _, h3⟩ :=
    echo_output_statement ws ">" f sh k hws hf (Or.inl rfl) hopen hk hex
  refine ⟨sh2, evs, h1, h2, ?_⟩
  rw [h3 before]
  simp

/-- C21, witness: `echo one two > out.txt` on a file that held `old bytes`. -/
theorem echo_redirected_overwrites_witness :
    ∃ (sh2 : Shell) (evs : List Event),
      parse_and_execute (space_separated ("echo" :: (["one", "two"] ++ [">", "out.txt"])))
        { os := { dup_results := [some 3, some 4], open_results := [some 5] } } = some sh2 ∧
      sh2.log = ({ os := { dup_results := [some 3, some 4], open_results := [some 5] } } :
        Shell).log ++ evs ∧
      file_after "out.txt" evs "old bytes" = String.intercalate " " ["one", "two"] ++ "\n" :=
  echo_redirected_overwrites ["one", "two"] "out.txt"
    { os := { dup_results := [some 3, some 4], open_results := [some 5] } } 5 "old bytes"
    (by decide) (by decide) (by decide) (by decide) rfl

/-- The statement `echo one two > out.txt` leaves the bytes `one two\n` in
`out.txt`. -/
theorem echo_one_two_example :
    (parse_and_execute "echo one two > out.txt".toList
        { os := { dup_results := [some 3, some 4], open_results := [some 5] } }).map
      (fun s => file_after "out.txt" s.log "old bytes") = some "one two\n" := by
  decide

/-- The line `echo one > out.txt; echo two >> out.txt` leaves the bytes
`one\ntwo\n` in `out.txt`. -/
theorem echo_then_append_example :
    (parse_semicolon_commands "echo one > out.txt; echo two >> out.txt".toList
        { os := { dup_results := [some 3, some 4, some 3, some 4],
                  open_results := [some 5, some 5] } }).map
      (fun s => file_after "out.txt" s.log "old bytes") = some "one\ntwo\n" := by
  decide


/-! ## The launches of a pipeline -/

theorem fork_events_append (l1 l2 : List Event) :
    fork_events (l1 ++ l2) = fork_events l1 ++ fork_events l2 := by
  simp [fork_events]

theorem waited_append (l1 l2 : List Event) : waited (l1 ++ l2) = waited l1 ++ waited l2 := by
  simp [waited]

/-- One call of `execute_command_in_pipeline`: it leaves the descriptor table
of the shell as it is and waits for nothing; for a stage with a first argument
it makes one `fork()` call, whose value it returns and whose child has the
table made by `child_wire`; for a stage without one it returns -1. -/
theorem execute_command_in_pipeline_launch (cmd : Command) (i o : Nat) (sh : Shell) :
    ∃ evs, (execute_command_in_pipeline cmd i o sh).2.log = sh.log ++ evs ∧
      (execute_command_in_pipeline cmd i o sh).2.fds = sh.fds ∧
      waited evs = [] ∧
      (has_program cmd = false →
        fork_events evs = [] ∧ (execute_command_in_pipeline cmd i o sh).1 = -1) ∧
      (has_program cmd = true → ∃ e, fork_events evs = [e] ∧
        e.1 = (execute_command_in_pipeline cmd i o sh).1 ∧
        (0 < (execute_command_in_pipeline cmd i o sh).1 →
          ∃ child, e.2 = some child ∧ some child.action = stage_action cmd ∧
            child.redirection = (if cmd.has_redirection then some cmd.redirection else none) ∧
            child.fds = child_wire i o sh.fds) ∧
        (¬ 0 < (execute_command_in_pipeline cmd i o sh).1 → e.2 = none)) := by
  have hf : ∀ child : ChildRun,
      ∃ evs, (if (sys_fork child sh).1 < 0 then
          ((sys_fork child sh).1, sys_write 2 "fork" (sys_fork child sh).2)
        else sys_fork child sh).2.log = sh.log ++ evs ∧
      (if (sys_fork child sh).1 < 0 then
          ((sys_fork child sh).1, sys_write 2 "fork" (sys_fork child sh).2)
        else sys_fork child sh).2.fds = sh.fds ∧
      waited evs = [] ∧
      ∃ e, fork_events evs = [e] ∧
        e.1 = (if (sys_fork child sh).1 < 0 then
          ((sys_fork child sh).1, sys_write 2 "fork" (sys_fork child sh).2)
        else sys_fork child sh).1 ∧
        (0 < (if (sys_fork child sh).1 < 0 then
            ((sys_fork child sh).1, sys_write 2 "fork" (sys_fork child sh).2)
          else sys_fork child sh).1 → e.2 = some child) ∧
        (¬ 0 < (if (sys_fork child sh).1 < 0 then
            ((sys_fork child sh).1, sys_write 2 "fork" (sys_fork child sh).2)
          else sys_fork child sh).1 → e.2 = none) := by
    intro child
    by_cases hneg : (sys_fork child sh).1 < 0
    · have hnp : ¬ 0 < (sys_fork child sh).1 := by omega
      refine ⟨[Event.fork (sys_fork child sh).1 none,
        Event.write 2 (fd_lookup sh.fds 2) "fork"], ?_, ?_, rfl, (_, none), rfl, ?_, ?_, ?_⟩
      · simp only [hneg, if_true]
        have hnp2 : ¬ 0 < (sh.os.fork_results.head?).getD (-1) := hnp
        simp [sys_fork, sys_write, hnp2]
      · simp only [hneg, if_true]; rfl
      · simp only [hneg, if_true]
      · simp only [hneg, if_true]
        intro h; exact absurd h hnp
      · intro _; rfl
    · refine ⟨[Event.fork (sys_fork child sh).1
          (if 0 < (sys_fork child sh).1 then some child else none)], ?_, ?_, rfl,
        (_, _), rfl, ?_, ?_, ?_⟩
      · simp only [hneg, if_false]; rfl
      · simp only [hneg, if_false]; rfl
      · simp only [hneg, if_false]
      · simp only [hneg, if_false]
        intro h; simp [h]
      · simp only [hneg, if_false]
        intro h; simp [h]
  unfold execute_command_in_pipeline has_program stage_action
  split
  · next name tl hargs =>
    split
    · next hb =>
      obtain ⟨evs, h1, h2, h3, e, h4, h5, h6, h7⟩ := hf
        { fds := child_wire i o sh.fds,
          redirection := if cmd.has_redirection then some cmd.redirection else none,
          action := ChildAction.handle_builtin cmd.args }
      exact ⟨evs, h1, h2, h3, fun h => absurd h (by simp), fun _ => ⟨e, h4, h5,
        fun hpos => ⟨_, h6 hpos, by simp [hb], rfl, rfl⟩, h7⟩⟩
    · next hb =>
      obtain ⟨evs, h1, h2, h3, e, h4, h5, h6, h7⟩ := hf
        { fds := child_wire i o sh.fds,
          redirection := if cmd.has_redirection then some cmd.redirection else none,
          action := ChildAction.execvp name cmd.args }
      exact ⟨evs, h1, h2, h3, fun h => absurd h (by simp), fun _ => ⟨e, h4, h5,
        fun hpos => ⟨_, h6 hpos, by simp [hb], rfl, rfl⟩, h7⟩⟩
  · exact ⟨[], by simp, rfl, rfl, fun _ => ⟨rfl, rfl⟩, fun h => absurd h (by simp)⟩


/-- The launching loop of `execute_pipeline`, for an invariant `Inv i T` of the
descriptor table `T` of the shell at the start of stage `i` that the closing
of the two descriptors of a stage carries to the next stage: the loop adds one
record per command, in order; it makes one `fork()` call for each command with
a first argument, which is the launch recorded for it, with a child whose
table is `child_wire` of the table of the shell at that stage; it returns -1
for the other commands, collects the pids returned, and waits for nothing. -/
theorem run_stages_launches (n : Nat) (pipes : List Nat) (Inv : Nat → FdTable → Prop)
    (hstep : ∀ (i input_fd output_fd : Nat) (T : FdTable), Inv i T →
      (if i > 0 then pipes[(i - 1) * 2]? else some 0) = some input_fd →
      (if i < n - 1 then pipes[i * 2 + 1]? else some 1) = some output_fd →
      Inv (i + 1) (if output_fd ≠ 1 then
        fd_close (if input_fd ≠ 0 then fd_close T input_fd else T) output_fd
        else (if input_fd ≠ 0 then fd_close T input_fd else T)))
    (cmds : List Command) :
    ∀ (i : Nat) (pids : List Int) (recs : List StageRecord) (sh : Shell)
      (pids2 : List Int) (recs2 : List StageRecord) (sh2 : Shell),
      run_stages n pipes cmds i pids recs sh = some (pids2, recs2, sh2) → Inv i sh.fds →
      ∃ (newrecs : List StageRecord) (evs : List Event),
        recs2 = recs ++ newrecs ∧ sh2.log = sh.log ++ evs ∧
        newrecs.map (fun r => r.cmd) = cmds ∧
        waited evs = [] ∧
        pids2 = pids ++ (newrecs.map (fun r => r.pid)).filter (fun pid => 0 < pid) ∧
        (∀ rec ∈ newrecs, has_program rec.cmd = false → rec.pid = -1) ∧
        List.Forall₂ (fun rec e => launched rec e ∧ ∀ child, e.2 = some child →
            ∃ T, Inv rec.stage T ∧ child.fds = child_wire rec.input_fd rec.output_fd T ∧
              (if rec.stage > 0 then pipes[(rec.stage - 1) * 2]? else some 0) =
                some rec.input_fd ∧
              (if rec.stage < n - 1 then pipes[rec.stage * 2 + 1]? else some 1) =
                some rec.output_fd)
          (newrecs.filter (fun r => has_program r.cmd)) (fork_events evs) := by
  induction cmds with
  | nil =>
    intro i pids recs sh pids2 recs2 sh2 h _
    simp only [run_stages, Option.some.injEq, Prod.mk.injEq] at h
    refine ⟨[], [], ?_, ?_, rfl, rfl, ?_, ?_, ?_⟩
    · rw [← h.2.1]; simp
    · rw [← h.2.2]; simp
    · rw [← h.1]; simp
    · intro rec hrec; simp at hrec
    · exact List.Forall₂.nil
  | cons cmd rest ih =>
    intro i pids recs sh pids2 recs2 sh2 h hinv
    rw [run_stages] at h
    split at h
    · next input_fd output_fd hin hout =>
      obtain ⟨evs0, l0, f0, w0, np0, p0⟩ :=
        execute_command_in_pipeline_launch cmd input_fd output_fd sh
      -- the two closes
      have hclose : ∃ cevs, (if output_fd ≠ 1 then sys_close output_fd
            (if input_fd ≠ 0 then
              sys_close input_fd (execute_command_in_pipeline cmd input_fd output_fd sh).2
            else (execute_command_in_pipeline cmd input_fd output_fd sh).2)
          else (if input_fd ≠ 0 then
              sys_close input_fd (execute_command_in_pipeline cmd input_fd output_fd sh).2
            else (execute_command_in_pipeline cmd input_fd output_fd sh).2)).log =
            (execute_command_in_pipeline cmd input_fd output_fd sh).2.log ++ cevs ∧
          waited cevs = [] ∧ fork_events cevs = [] ∧
          (if output_fd ≠ 1 then sys_close output_fd
            (if input_fd ≠ 0 then
              sys_close input_fd (execute_command_in_pipeline cmd input_fd output_fd sh).2
            else (execute_command_in_pipeline cmd input_fd output_fd sh).2)
          else (if input_fd ≠ 0 then
              sys_close input_fd (execute_command_in_pipeline cmd input_fd output_fd sh).2
            else (execute_command_in_pipeline cmd input_fd output_fd sh).2)).fds =
          (if output_fd ≠ 1 then
            fd_close (if input_fd ≠ 0 then fd_close sh.fds input_fd else sh.fds) output_fd
            else (if input_fd ≠ 0 then fd_close sh.fds input_fd else sh.fds)) := by
        by_cases ho : output_fd ≠ 1 <;> by_cases hi : input_fd ≠ 0
        · exact ⟨[Event.close input_fd, Event.close output_fd],
            by simp [ho, hi, sys_close], rfl, rfl, by simp [ho, hi, sys_close, f0]⟩
        · exact ⟨[Event.close output_fd],
            by simp [ho, hi, sys_close], rfl, rfl, by simp [ho, hi, sys_close, f0]⟩
        · exact ⟨[Event.close input_fd],
            by simp [ho, hi, sys_close], rfl, rfl, by simp [ho, hi, sys_close, f0]⟩
        · exact ⟨[], by simp [ho, hi], rfl, rfl, by simp [ho, hi, f0]⟩
      obtain ⟨cevs, cl, cw, cf, cfds⟩ := hclose
      have hinv2 := hstep i input_fd output_fd sh.fds hinv hin hout
      rw [← cfds] at hinv2
      obtain ⟨newrecs, evs, r1, r2, r3, r4, r5, r6, r7⟩ := ih _ _ _ _ _ _ _ h hinv2
      refine ⟨{ stage := i, cmd := cmd, input_fd := input_fd, output_fd := output_fd,
                pid := (execute_command_in_pipeline cmd input_fd output_fd sh).1 } :: newrecs,
        evs0 ++ cevs ++ evs, ?_, ?_, ?_, ?_, ?_, ?_, ?_⟩
      · rw [r1]; simp
      · rw [r2, cl, l0]; simp
      · simp [r3]
      · simp [waited_append, w0, cw, r4]
      · rw [r5]
        by_cases hpos : (execute_command_in_pipeline cmd input_fd output_fd sh).1 > 0
        · have hpos2 : 0 < (execute_command_in_pipeline cmd input_fd output_fd sh).1 := hpos
          simp [List.filter_cons, hpos, hpos2]
        · have hpos2 : ¬ 0 < (execute_command_in_pipeline cmd input_fd output_fd sh).1 := hpos
          simp [List.filter_cons, hpos, hpos2]
      · intro rec hrec hp
        rcases List.mem_cons.1 hrec with hrec | hrec
        · rw [hrec] at hp ⊢
          exact (np0 hp).2
        · exact r6 rec hrec hp
      · cases hp : has_program cmd with
        | false =>
          have hfe : fork_events (evs0 ++ cevs ++ evs) = fork_events evs := by
            simp [fork_events_append, (np0 hp).1, cf]
          rw [hfe, List.filter_cons]
          simp only [hp, Bool.false_eq_true, if_false]
          exact r7
        | true =>
          obtain ⟨e, e1, e2, e3, e4⟩ := p0 hp
          have hfe : fork_events (evs0 ++ cevs ++ evs) = e :: fork_events evs := by
            simp [fork_events_append, e1, cf]
          rw [hfe, List.filter_cons]
          simp only [hp, if_true]
          refine List.Forall₂.cons ⟨⟨e2, ?_, e4⟩, ?_⟩ r7
          · intro hpos
            obtain ⟨child, c1, c2, c3, _⟩ := e3 hpos
            exact ⟨child, c1, c2, c3⟩
          · intro child hchild
            by_cases hpos : 0 < (execute_command_in_pipeline cmd input_fd output_fd sh).1
            · obtain ⟨child2, c1, _, _, c4⟩ := e3 hpos
              rw [c1] at hchild
              simp only [Option.some.injEq] at hchild
              rw [← hchild]
              exact ⟨sh.fds, hinv, c4, hin, hout⟩
            · rw [e4 hpos] at hchild
              exact absurd hchild (by simp)
    · exact absurd h (by simp)


theorem create_pipes_events (n : Nat) :
    ∀ (pipes : List Nat) (sh : Shell),
      ∃ evs, (create_pipes n pipes sh).2.log = sh.log ++ evs ∧
        fork_events evs = [] ∧ waited evs = [] := by
  induction n with
  | zero => intro pipes sh; exact ⟨[], by simp [create_pipes], rfl, rfl⟩
  | succ n ih =>
    intro pipes sh
    have hp : ∃ e, (sys_pipe sh).2.log = sh.log ++ [e] ∧ fork_events [e] = [] ∧
        waited [e] = [] := by
      unfold sys_pipe
      split
      · exact ⟨_, rfl, rfl, rfl⟩
      · exact ⟨_, rfl, rfl, rfl⟩
    obtain ⟨e, h1, h2, h3⟩ := hp
    rw [create_pipes]
    split
    · next sh1 h =>
      rw [h] at h1
      simp only at h1
      exact ⟨[e, Event.write 2 (fd_lookup sh1.fds 2) "pipe"],
        by simp [sys_write, h1], by simpa [fork_events] using h2,
        by simpa [waited] using h3⟩
    · next rw1 sh1 h =>
      rw [h] at h1
      simp only at h1
      obtain ⟨evs, i1, i2, i3⟩ := ih (pipes ++ [rw1.1, rw1.2]) sh1
      refine ⟨e :: evs, by rw [i1, h1]; simp, ?_, ?_⟩
      · have := fork_events_append [e] evs
        simp only [List.singleton_append] at this
        rw [this, h2, i2]; rfl
      · have := waited_append [e] evs
        simp only [List.singleton_append] at this
        rw [this, h3, i3]; rfl

theorem foldl_close_events (fds : List Nat) (sh : Shell) :
    ∃ evs, (fds.foldl (fun s fd => sys_close fd s) sh).log = sh.log ++ evs ∧
      fork_events evs = [] ∧ waited evs = [] := by
  induction fds generalizing sh with
  | nil => exact ⟨[], by simp, rfl, rfl⟩
  | cons fd fds ih =>
    obtain ⟨evs, h1, h2, h3⟩ := ih (sys_close fd sh)
    refine ⟨Event.close fd :: evs, by rw [List.foldl_cons, h1]; simp [sys_close], ?_, ?_⟩
    · simpa [fork_events] using h2
    · simpa [waited] using h3

/-- The waiting loop: one `waitpid` call for every entry of `pids`, in order,
and no `fork()`. -/
theorem foldl_waitpid_events (pids : List Int) (sh : Shell) :
    ∃ evs, (pids.foldl (fun s pid => sys_waitpid pid s) sh).log = sh.log ++ evs ∧
      fork_events evs = [] ∧ waited evs = pids := by
  induction pids generalizing sh with
  | nil => exact ⟨[], by simp, rfl, rfl⟩
  | cons pid pids ih =>
    have hw : ∃ wevs, (sys_waitpid pid sh).log = sh.log ++ wevs ∧ fork_events wevs = [] ∧
        waited wevs = [pid] := by
      unfold sys_waitpid
      simp only []
      split
      · exact ⟨[Event.waitpid pid ((sh.os.wait_results.head?).getD WaitResult.ok),
          Event.write 2 (fd_lookup sh.fds 2) "waitpid"], by simp [sys_write], rfl, rfl⟩
      · exact ⟨[Event.waitpid pid ((sh.os.wait_results.head?).getD WaitResult.ok)],
          rfl, rfl, rfl⟩
    obtain ⟨wevs, w1, w2, w3⟩ := hw
    obtain ⟨evs, h1, h2, h3⟩ := ih (sys_waitpid pid sh)
    refine ⟨wevs ++ evs, by rw [List.foldl_cons, h1, w1]; simp, ?_, ?_⟩
    · rw [fork_events_append, w2, h2]; rfl
    · rw [waited_append, w3, h3]; rfl


/-- A pipeline of two or more commands whose channels are granted, for an
invariant of the descriptor table as in `run_stages_launches` that holds once
the channels are created: `execute_pipeline` first launches the stages, one
record per command and one `fork()` call per command with a first argument,
waiting for nothing, and afterwards, in foreground mode, calls `waitpid` once
for every pid recorded that is a process identifier, creating no process. -/
theorem execute_pipeline_launches (p : Pipeline) (sh : Shell) (chans : List (Nat × Nat))
    (rest : List (Option (Nat × Nat))) (Inv : Nat → FdTable → Prop)
    (hN : 2 ≤ p.commands.length)
    (hlen : chans.length = p.commands.length - 1)
    (hos : sh.os.pipe_results = chans.map some ++ rest)
    (hstep : ∀ (i input_fd output_fd : Nat) (T : FdTable), Inv i T →
      (if i > 0 then (channel_descriptors chans)[(i - 1) * 2]? else some 0) = some input_fd →
      (if i < p.commands.length - 1 then (channel_descriptors chans)[i * 2 + 1]? else some 1) =
        some output_fd →
      Inv (i + 1) (if output_fd ≠ 1 then
        fd_close (if input_fd ≠ 0 then fd_close T input_fd else T) output_fd
        else (if input_fd ≠ 0 then fd_close T input_fd else T)))
    (hentry : ∀ sh1, create_pipes chans.length [] sh = (some (channel_descriptors chans), sh1) →
      Inv 0 sh1.fds) :
    ∃ (r : PipelineRun) (evs1 evs2 : List Event), execute_pipeline p sh = some r ∧
      r.shell.log = sh.log ++ evs1 ++ evs2 ∧
      r.stages.map (fun rec => rec.cmd) = p.commands ∧
      waited evs1 = [] ∧ fork_events evs2 = [] ∧
      waited evs2 =
        (if p.background then []
          else (r.stages.map (fun rec => rec.pid)).filter (fun pid => 0 < pid)) ∧
      (∀ rec ∈ r.stages, has_program rec.cmd = false → rec.pid = -1) ∧
      List.Forall₂ (fun rec e => launched rec e ∧ ∀ child, e.2 = some child →
          ∃ T, Inv rec.stage T ∧ child.fds = child_wire rec.input_fd rec.output_fd T ∧
            (if rec.stage > 0 then (channel_descriptors chans)[(rec.stage - 1) * 2]?
              else some 0) = some rec.input_fd ∧
            (if rec.stage < p.commands.length - 1 then
              (channel_descriptors chans)[rec.stage * 2 + 1]? else some 1) =
              some rec.output_fd)
        (r.stages.filter (fun rec => has_program rec.cmd)) (fork_events evs1) := by
  obtain ⟨r, hr⟩ := execute_pipeline_defined p sh
  obtain ⟨sh1, hcp, _⟩ := create_pipes_ok chans [] sh rest hos
  simp only [List.nil_append] at hcp
  have hinv0 := hentry sh1 hcp
  obtain ⟨pevs, pl, pf, pw⟩ := create_pipes_events chans.length [] sh
  rw [hcp] at pl
  simp only at pl
  rw [hlen] at hcp
  rcases hcmds : p.commands with _ | ⟨c1, _ | ⟨c2, cs⟩⟩
  · rw [hcmds] at hN; simp at hN
  · rw [hcmds] at hN; simp at hN
  · rw [hcmds] at hcp hstep
    unfold execute_pipeline at hr
    rw [hcmds] at hr
    simp only [hcp] at hr
    split at hr
    · exact absurd hr (by simp)
    · next pids recs sh2 hrs =>
      obtain ⟨newrecs, sevs, r1, r2, r3, r4, r5, r6, r7⟩ :=
        run_stages_launches _ _ Inv hstep _ _ _ _ _ _ _ _ hrs hinv0
      simp only [List.nil_append] at r1 r5
      obtain ⟨cevs, c1l, c2l, c3l⟩ := foldl_close_events (channel_descriptors chans) sh2
      cases hbg : p.background with
      | false =>
        simp only [hbg, Bool.not_false, if_true, Option.some.injEq] at hr
        have hW : ∃ S4 : Shell,
            S4.log = (List.foldl (fun s fd => sys_close fd s) sh2
              (channel_descriptors chans)).log ∧
            r.shell.log = (List.foldl (fun s pid => sys_waitpid pid s) S4 pids).log ∧
            r.stages = recs := by
          rw [← hr]
          refine ⟨_, ?_, rfl, rfl⟩
          split <;> rfl
        obtain ⟨S4, hS4, hrl, hrs2⟩ := hW
        obtain ⟨wevs, w1, w2, w3⟩ := foldl_waitpid_events pids S4
        refine ⟨r, pevs ++ sevs ++ cevs, wevs, ?_, ?_, ?_, ?_, w2, ?_, ?_, ?_⟩
        · unfold execute_pipeline
          rw [hcmds]
          simp only [hcp, hrs, hbg, Bool.not_false, if_true, Option.some.injEq]
          exact hr
        · rw [hrl, w1, hS4, c1l, r2, pl]
          simp
        · rw [hrs2, r1, r3]
        · simp [waited_append, pw, r4, c3l]
        · simp only [Bool.false_eq_true, if_false]
          rw [w3, r5, hrs2, r1]
        · rw [hrs2, r1]; exact r6
        · rw [hrs2, r1]
          have hfe : fork_events (pevs ++ sevs ++ cevs) = fork_events sevs := by
            simp [fork_events_append, pf, c2l]
          rw [hfe]
          exact r7
      | true =>
        simp only [hbg, Bool.not_true, Bool.false_eq_true, if_false, Option.some.injEq] at hr
        refine ⟨r, pevs ++ sevs ++ cevs,
          [Event.write 1 (fd_lookup (List.foldl (fun s fd => sys_close fd s) sh2
            (channel_descriptors chans)).fds 1) "Background pipeline started\n"],
          ?_, ?_, ?_, ?_, rfl, ?_, ?_, ?_⟩
        · unfold execute_pipeline
          rw [hcmds]
          simp only [hcp, hrs, hbg, Bool.not_true, Bool.false_eq_true, if_false,
            Option.some.injEq]
          exact hr
        · rw [← hr]
          show (sys_write 1 _ _).log = _
          simp only [sys_write]
          rw [c1l, r2, pl]
          simp
        · rw [← hr]
          show recs.map (fun rec => rec.cmd) = _
          rw [r1, r3]
        · simp [waited_append, pw, r4, c3l]
        · simp [waited]
        · rw [← hr]
          show ∀ rec ∈ recs, _
          rw [r1]; exact r6
        · rw [← hr]
          show List.Forall₂ _ (recs.filter _) _
          rw [r1]
          have hfe : fork_events (pevs ++ sevs ++ cevs) = fork_events sevs := by
            simp [fork_events_append, pf, c2l]
          rw [hfe]
          exact r7


/-! ## The descriptors of the children of a pipeline -/

/-- Two entries of a list without repetition that are equal sit at the same
index. -/
theorem nodup_getElem?_index (l : List Nat) (h : l.Nodup) (a b x : Nat)
    (ha : l[a]? = some x) (hb : l[b]? = some x) : a = b := by
  by_contra hne
  rcases Nat.lt_or_gt_of_ne hne with hlt | hlt
  · have hbl : b < l.length := (List.getElem?_eq_some_iff.1 hb).1
    exact (List.nodup_iff_getElem?_ne_getElem?.1 h a b hlt hbl) (by rw [ha, hb])
  · have hal : a < l.length := (List.getElem?_eq_some_iff.1 ha).1
    exact (List.nodup_iff_getElem?_ne_getElem?.1 h b a hlt hal) (by rw [ha, hb])

/-- The descriptors of channels that the system handed out without repetition:
a read end is never a write end, and the ends of different channels
differ. -/
theorem channel_descriptors_distinct (chans : List (Nat × Nat))
    (h : (channel_descriptors chans).Nodup) (j k : Nat)
    (hj : j < chans.length) (hk : k < chans.length) :
    (chans.getD j (0, 0)).1 ≠ (chans.getD k (0, 0)).2 ∧
    (j ≠ k → (chans.getD j (0, 0)).1 ≠ (chans.getD k (0, 0)).1 ∧
      (chans.getD j (0, 0)).2 ≠ (chans.getD k (0, 0)).2) := by
  have rj := channel_descriptors_read chans j hj
  have rk := channel_descriptors_read chans k hk
  have wj := channel_descriptors_write chans j hj
  have wk := channel_descriptors_write chans k hk
  refine ⟨?_, fun hne => ⟨?_, ?_⟩⟩
  · intro e
    rw [← e] at wk
    have := nodup_getElem?_index _ h _ _ _ rj wk
    omega
  · intro e
    rw [← e] at rk
    have := nodup_getElem?_index _ h _ _ _ rj rk
    omega
  · intro e
    rw [← e] at wk
    have := nodup_getElem?_index _ h _ _ _ wj wk
    omega

theorem channel_descriptors_mem (chans : List (Nat × Nat)) (j : Nat) (hj : j < chans.length) :
    (chans.getD j (0, 0)).1 ∈ channel_descriptors chans ∧
    (chans.getD j (0, 0)).2 ∈ channel_descriptors chans :=
  ⟨List.mem_iff_getElem?.2 ⟨_, channel_descriptors_read chans j hj⟩,
   List.mem_iff_getElem?.2 ⟨_, channel_descriptors_write chans j hj⟩⟩

/-- The descriptor table after the channels are created, for descriptors that
the system handed out without repetition: the ends of channel `j` refer to the
channel numbered `pipe_count + j`, and every other descriptor is as it was. -/
theorem create_pipes_table (chans : List (Nat × Nat)) :
    ∀ (pipes : List Nat) (sh sh1 : Shell) (ps : List Nat),
      (channel_descriptors chans).Nodup →
      sh.os.pipe_results.take chans.length = chans.map some →
      create_pipes chans.length pipes sh = (some ps, sh1) →
      (∀ d, d ∉ channel_descriptors chans → fd_lookup sh1.fds d = fd_lookup sh.fds d) ∧
      ∀ j, j < chans.length →
        fd_lookup sh1.fds (chans.getD j (0, 0)).1 =
          some (FileRef.pipe_read (sh.pipe_count + j)) ∧
        fd_lookup sh1.fds (chans.getD j (0, 0)).2 =
          some (FileRef.pipe_write (sh.pipe_count + j)) := by
  induction chans with
  | nil =>
    intro pipes sh sh1 ps _ _ h
    simp only [List.length_nil, create_pipes, Prod.mk.injEq] at h
    rw [← h.2]
    exact ⟨fun _ _ => rfl, fun j hj => absurd hj (by simp)⟩
  | cons c cs ih =>
    intro pipes sh sh1 ps hnd hos h
    have hhead : sh.os.pipe_results.head?.join = some c := by
      cases hl : sh.os.pipe_results with
      | nil => rw [hl] at hos; simp at hos
      | cons x xs =>
        rw [hl] at hos
        simp only [List.length_cons, List.take_succ_cons, List.map_cons, List.cons.injEq] at hos
        rw [hos.1]; rfl
    have htail : sh.os.pipe_results.tail.take cs.length = cs.map some := by
      cases hl : sh.os.pipe_results with
      | nil => rw [hl] at hos; simp at hos
      | cons x xs =>
        rw [hl] at hos
        simp only [List.length_cons, List.take_succ_cons, List.map_cons, List.cons.injEq] at hos
        exact hos.2
    simp only [channel_descriptors, List.nodup_cons, List.mem_cons, not_or] at hnd
    obtain ⟨⟨h12, h1cs⟩, h2cs, hndcs⟩ := hnd
    simp only [List.length_cons, create_pipes, sys_pipe, hhead] at h
    obtain ⟨hframe, hends⟩ := ih _ _ sh1 ps hndcs htail h
    simp only at hframe hends
    constructor
    · intro d hd
      simp only [channel_descriptors, List.mem_cons, not_or] at hd
      obtain ⟨hd1, hd2, hdcs⟩ := hd
      rw [hframe d hdcs, fd_lookup_cons, if_neg (fun e => hd1 e.symm), fd_lookup_cons,
        if_neg (fun e => hd2 e.symm), fd_lookup_close, if_neg (fun e => hd2 e.symm),
        fd_lookup_close, if_neg (fun e => hd1 e.symm)]
    · intro j hj
      cases j with
      | zero =>
        simp only [List.getD_cons_zero, Nat.add_zero]
        rw [hframe c.1 h1cs, hframe c.2 h2cs, fd_lookup_cons, fd_lookup_cons, fd_lookup_cons]
        simp [h12, fd_lookup_cons]
      | succ j =>
        simp only [List.getD_cons_succ]
        have := hends j (by simpa using hj)
        simp only [Nat.add_assoc, Nat.add_comm 1 j] at this
        exact this

theorem child_wire_lookup (i o : Nat) (T : FdTable) (ri ro : FileRef)
    (hio : i ≠ o) (hi1 : i ≠ 1) (ho0 : o ≠ 0)
    (hi : i ≠ 0 → fd_lookup T i = some ri) (ho : o ≠ 1 → fd_lookup T o = some ro) :
    fd_lookup (child_wire i o T) 0 = (if i = 0 then fd_lookup T 0 else some ri) ∧
    fd_lookup (child_wire i o T) 1 = (if o = 1 then fd_lookup T 1 else some ro) := by
  unfold child_wire
  by_cases i0 : i = 0 <;> by_cases o1 : o = 1
  · simp [i0, o1]
  · have h := ho o1
    rw [i0] at hio
    simp only [i0, o1, ne_eq, not_true_eq_false, not_false_eq_true, if_true, if_false]
    rw [fd_lookup_close, if_neg ho0, fd_lookup_dup2_other _ _ _ _ (by decide),
      fd_lookup_close, if_neg o1, fd_lookup_dup2_target _ _ _ _ h]
    exact ⟨rfl, rfl⟩
  · have h := hi i0
    simp only [i0, o1, ne_eq, not_true_eq_false, not_false_eq_true, if_true, if_false]
    rw [fd_lookup_close, if_neg i0, fd_lookup_dup2_target _ _ _ _ h,
      fd_lookup_close, if_neg hi1, fd_lookup_dup2_other _ _ _ _ (by decide)]
    exact ⟨rfl, rfl⟩
  · have h := hi i0
    have h2 := ho o1
    have h3 : fd_lookup (fd_close (fd_dup2 T i 0) i) o = some ro := by
      rw [fd_lookup_close, if_neg hio, fd_lookup_dup2_other _ _ _ _ (fun e => ho0 e.symm), h2]
    simp only [i0, o1, ne_eq, not_true_eq_false, not_false_eq_true, if_true, if_false]
    rw [fd_lookup_close, if_neg ho0, fd_lookup_dup2_other _ _ _ _ (by decide),
      fd_lookup_close, if_neg i0, fd_lookup_dup2_target _ _ _ _ h,
      fd_lookup_close, if_neg o1, fd_lookup_dup2_target _ _ _ _ h3]
    exact ⟨rfl, rfl⟩

theorem channels_held_entry (chans : List (Nat × Nat)) (rest : List (Option (Nat × Nat)))
    (sh sh1 : Shell)
    (hos : sh.os.pipe_results = chans.map some ++ rest)
    (hnd : (channel_descriptors chans).Nodup)
    (hne : ∀ d ∈ channel_descriptors chans, d ≠ 0 ∧ d ≠ 1)
    (h : create_pipes chans.length [] sh = (some (channel_descriptors chans), sh1)) :
    channels_held (fd_lookup sh.fds 0) (fd_lookup sh.fds 1) sh.pipe_count chans 0 sh1.fds := by
  have htake : sh.os.pipe_results.take chans.length = chans.map some := by
    rw [hos, List.take_left' (by simp)]
  obtain ⟨hframe, hends⟩ := create_pipes_table chans [] sh sh1 _ hnd htake h
  refine ⟨hframe 0 (fun hm => (hne 0 hm).1 rfl), hframe 1 (fun hm => (hne 1 hm).2 rfl), ?_⟩
  intro j hj
  exact ⟨fun _ => (hends j hj).1, fun _ => (hends j hj).2⟩

/-- The descriptors handed to stage `i`, read off the vector `pipes`. -/
theorem stage_descriptors (chans : List (Nat × Nat)) (n i input_fd output_fd : Nat)
    (hn : chans.length = n - 1)
    (hin : (if i > 0 then (channel_descriptors chans)[(i - 1) * 2]? else some 0) = some input_fd)
    (hout : (if i < n - 1 then (channel_descriptors chans)[i * 2 + 1]? else some 1) =
      some output_fd) :
    (i = 0 → input_fd = 0) ∧
    (0 < i → i - 1 < chans.length ∧ input_fd = (chans.getD (i - 1) (0, 0)).1) ∧
    (i < n - 1 → output_fd = (chans.getD i (0, 0)).2) ∧
    (¬ i < n - 1 → output_fd = 1) := by
  refine ⟨?_, ?_, ?_, ?_⟩
  · intro h0
    rw [if_neg (by omega)] at hin
    exact (Option.some.inj hin).symm
  · intro hpos
    rw [if_pos hpos] at hin
    have hlt : i - 1 < chans.length := by
      by_contra hge
      have : (channel_descriptors chans)[(i - 1) * 2]? = none := by
        apply List.getElem?_eq_none
        rw [channel_descriptors_length]
        omega
      rw [this] at hin
      exact absurd hin (by simp)
    rw [channel_descriptors_read chans _ hlt] at hin
    exact ⟨hlt, (Option.some.inj hin).symm⟩
  · intro hlt
    rw [if_pos hlt, channel_descriptors_write chans i (by omega)] at hout
    exact (Option.some.inj hout).symm
  · intro hge
    rw [if_neg hge] at hout
    exact (Option.some.inj hout).symm

theorem fd_lookup_parent_close (T : FdTable) (input_fd output_fd d : Nat)
    (hi : input_fd ≠ 0 → d ≠ input_fd) (ho : output_fd ≠ 1 → d ≠ output_fd) :
    fd_lookup (if output_fd ≠ 1 then
        fd_close (if input_fd ≠ 0 then fd_close T input_fd else T) output_fd
        else (if input_fd ≠ 0 then fd_close T input_fd else T)) d = fd_lookup T d := by
  by_cases h1 : output_fd ≠ 1 <;> by_cases h0 : input_fd ≠ 0
  · rw [if_pos h1, if_pos h0, fd_lookup_close, if_neg (fun e => ho h1 e.symm), fd_lookup_close,
      if_neg (fun e => hi h0 e.symm)]
  · rw [if_pos h1, if_neg h0, fd_lookup_close, if_neg (fun e => ho h1 e.symm)]
  · rw [if_neg h1, if_pos h0, fd_lookup_close, if_neg (fun e => hi h0 e.symm)]
  · rw [if_neg h1, if_neg h0]

theorem channels_held_step (chans : List (Nat × Nat)) (n : Nat) (stdin stdout : Option FileRef)
    (first : Nat)
    (hn : chans.length = n - 1)
    (hnd : (channel_descriptors chans).Nodup)
    (hne : ∀ d ∈ channel_descriptors chans, d ≠ 0 ∧ d ≠ 1)
    (i input_fd output_fd : Nat) (T : FdTable)
    (hT : channels_held stdin stdout first chans i T)
    (hin : (if i > 0 then (channel_descriptors chans)[(i - 1) * 2]? else some 0) = some input_fd)
    (hout : (if i < n - 1 then (channel_descriptors chans)[i * 2 + 1]? else some 1) =
      some output_fd) :
    channels_held stdin stdout first chans (i + 1)
      (if output_fd ≠ 1 then
        fd_close (if input_fd ≠ 0 then fd_close T input_fd else T) output_fd
        else (if input_fd ≠ 0 then fd_close T input_fd else T)) := by
  obtain ⟨s0, s1, s2, s3⟩ := stage_descriptors chans n i input_fd output_fd hn hin hout
  obtain ⟨t0, t1, t2⟩ := hT
  have hinmem : input_fd ≠ 0 → input_fd ∈ channel_descriptors chans := by
    intro h
    have hpos : 0 < i := by
      by_contra h0
      exact h (s0 (by omega))
    rw [(s1 hpos).2]
    exact (channel_descriptors_mem chans _ (s1 hpos).1).1
  have houtmem : output_fd ≠ 1 → output_fd ∈ channel_descriptors chans := by
    intro h
    have hlt : i < n - 1 := by
      by_contra hge
      exact h (s3 hge)
    rw [s2 hlt]
    exact (channel_descriptors_mem chans _ (by omega)).2
  refine ⟨?_, ?_, ?_⟩
  · rw [fd_lookup_parent_close, t0]
    · intro h e; exact (hne _ (hinmem h)).1 e.symm
    · intro h e; exact (hne _ (houtmem h)).1 e.symm
  · rw [fd_lookup_parent_close, t1]
    · intro h e; exact (hne _ (hinmem h)).2 e.symm
    · intro h e; exact (hne _ (houtmem h)).2 e.symm
  · intro j hj
    constructor
    · intro hij
      rw [fd_lookup_parent_close, (t2 j hj).1 (by omega)]
      · intro h
        have hpos : 0 < i := by
          by_contra h0
          exact h (s0 (by omega))
        rw [(s1 hpos).2]
        exact ((channel_descriptors_distinct chans hnd j (i - 1) hj (s1 hpos).1).2
          (by omega)).1
      · intro h
        have hlt : i < n - 1 := by
          by_contra hge
          exact h (s3 hge)
        rw [s2 hlt]
        exact (channel_descriptors_distinct chans hnd j i hj (by omega)).1
    · intro hij
      rw [fd_lookup_parent_close, (t2 j hj).2 (by omega)]
      · intro h
        have hpos : 0 < i := by
          by_contra h0
          exact h (s0 (by omega))
        rw [(s1 hpos).2]
        exact fun e => (channel_descriptors_distinct chans hnd (i - 1) j (s1 hpos).1 hj).1 e.symm
      · intro h
        have hlt : i < n - 1 := by
          by_contra hge
          exact h (s3 hge)
        rw [s2 hlt]
        exact ((channel_descriptors_distinct chans hnd j i hj (by omega)).2 (by omega)).2

/-- The standard streams of the child of stage `i`, launched from a table in
which the channel ends are held. -/
theorem channels_held_child (chans : List (Nat × Nat)) (n : Nat) (stdin stdout : Option FileRef)
    (first : Nat)
    (hn : chans.length = n - 1)
    (hnd : (channel_descriptors chans).Nodup)
    (hne : ∀ d ∈ channel_descriptors chans, d ≠ 0 ∧ d ≠ 1)
    (i input_fd output_fd : Nat) (T : FdTable)
    (hT : channels_held stdin stdout first chans i T)
    (hin : (if i > 0 then (channel_descriptors chans)[(i - 1) * 2]? else some 0) = some input_fd)
    (hout : (if i < n - 1 then (channel_descriptors chans)[i * 2 + 1]? else some 1) =
      some output_fd) :
    fd_lookup (child_wire input_fd output_fd T) 0 =
      (if i = 0 then stdin else some (FileRef.pipe_read (first + (i - 1)))) ∧
    fd_lookup (child_wire input_fd output_fd T) 1 =
      (if i = n - 1 then stdout else some (FileRef.pipe_write (first + i))) := by
  obtain ⟨s0, s1, s2, s3⟩ := stage_descriptors chans n i input_fd output_fd hn hin hout
  obtain ⟨t0, t1, t2⟩ := hT
  have hin01 : input_fd ≠ 0 → 0 < i ∧ input_fd ≠ 1 := by
    intro h
    have hpos : 0 < i := by
      by_contra h0
      exact h (s0 (by omega))
    refine ⟨hpos, ?_⟩
    rw [(s1 hpos).2]
    exact (hne _ (channel_descriptors_mem chans _ (s1 hpos).1).1).2
  have hout01 : output_fd ≠ 1 → i < n - 1 ∧ output_fd ≠ 0 := by
    intro h
    have hlt : i < n - 1 := by
      by_contra hge
      exact h (s3 hge)
    refine ⟨hlt, ?_⟩
    rw [s2 hlt]
    exact (hne _ (channel_descriptors_mem chans _ (by omega)).2).1
  have hio : input_fd ≠ output_fd := by
    by_cases h0 : input_fd = 0
    · by_cases h1 : output_fd = 1
      · omega
      · have := (hout01 h1).2
        omega
    · by_cases h1 : output_fd = 1
      · have := (hin01 h0).2
        omega
      · have hpos := (hin01 h0).1
        have hlt := (hout01 h1).1
        rw [(s1 hpos).2, s2 hlt]
        exact (channel_descriptors_distinct chans hnd (i - 1) i (s1 hpos).1 (by omega)).1
  have hi1 : input_fd ≠ 1 := by
    by_cases h0 : input_fd = 0
    · omega
    · exact (hin01 h0).2
  have ho0 : output_fd ≠ 0 := by
    by_cases h1 : output_fd = 1
    · omega
    · exact (hout01 h1).2
  have hri : input_fd ≠ 0 → fd_lookup T input_fd = some (FileRef.pipe_read (first + (i - 1))) := by
    intro h
    have hpos := (hin01 h).1
    rw [(s1 hpos).2]
    exact (t2 _ (s1 hpos).1).1 (by omega)
  have hro : output_fd ≠ 1 → fd_lookup T output_fd = some (FileRef.pipe_write (first + i)) := by
    intro h
    have hlt := (hout01 h).1
    rw [s2 hlt]
    exact (t2 _ (by omega)).2 (by omega)
  obtain ⟨c0, c1⟩ := child_wire_lookup input_fd output_fd T _ _ hio hi1 ho0 hri hro
  constructor
  · rw [c0, t0]
    by_cases h0 : i = 0
    · rw [if_pos (s0 h0), if_pos h0]
    · have hpos : 0 < i := by omega
      have : input_fd ≠ 0 := by
        rw [(s1 hpos).2]
        exact (hne _ (channel_descriptors_mem chans _ (s1 hpos).1).1).1
      rw [if_neg this, if_neg h0]
  · rw [c1, t1]
    by_cases h1 : i < n - 1
    · have : output_fd ≠ 1 := by
        rw [s2 h1]
        exact (hne _ (channel_descriptors_mem chans _ (by omega)).2).2
      rw [if_neg this, if_neg (by omega)]
    · rw [if_pos (s3 h1), if_pos (by omega)]


/-- C5: for every pipeline with N >= 2 commands, `execute_pipeline` never
indexes the vector of channel descriptors out of range (its result is not
`none`, whatever the system calls return); and when the system grants the
channels (`chans` lists the descriptor pairs returned by the `pipe()` calls,
in order) it creates exactly N-1 channels, holding their 2(N-1) descriptors,
and calls `execute_command_in_pipeline` for each stage `i < N` exactly once,
in order, with the read end of channel `i-1` as input (descriptor 0 when
`i = 0`) and the write end of channel `i` as output (descriptor 1 when
`i = N-1`).  All the forks of the call are made before `evs2`, one for every
stage that has a program, in the order of the stages, and the child of a fork
that succeeded runs the program of its stage; when the descriptors granted are
pairwise different and none of them is 0 or 1 (as `pipe()` guarantees to a
process whose descriptors 0 and 1 are open), descriptor 0 of the child of
stage `i` refers to the read end of channel `i-1` (to what the shell's
descriptor 0 refers to when `i = 0`) and its descriptor 1 to the write end of
channel `i` (to what the shell's descriptor 1 refers to when `i = N-1`). -/
theorem execute_pipeline_wiring (p : Pipeline) (sh : Shell)
    (hN : 2 ≤ p.commands.length) :
    (∃ r, execute_pipeline p sh = some r) ∧
    ∀ (chans : List (Nat × Nat)) (rest : List (Option (Nat × Nat))),
      chans.length = p.commands.length - 1 →
      sh.os.pipe_results = chans.map some ++ rest →
      ∃ (r : PipelineRun) (evs1 evs2 : List Event), execute_pipeline p sh = some r ∧
        r.shell.pipe_count = sh.pipe_count + (p.commands.length - 1) ∧
        r.pipes = channel_descriptors chans ∧
        r.pipes.length = 2 * (p.commands.length - 1) ∧
        r.stages.length = p.commands.length ∧
        (∀ i, i < p.commands.length →
          ∃ rec, r.stages[i]? = some rec ∧ rec.stage = i ∧ p.commands[i]? = some rec.cmd ∧
            rec.input_fd = (if i = 0 then 0 else (chans.getD (i - 1) (0, 0)).1) ∧
            rec.output_fd =
              (if i = p.commands.length - 1 then 1 else (chans.getD i (0, 0)).2)) ∧
        r.shell.log = sh.log ++ evs1 ++ evs2 ∧ fork_events evs2 = [] ∧
        List.Forall₂ launched
          (r.stages.filter (fun rec => has_program rec.cmd)) (fork_events evs1) ∧
        ((channel_descriptors chans).Nodup →
          (∀ d ∈ channel_descriptors chans, d ≠ 0 ∧ d ≠ 1) →
          List.Forall₂
            (wired (fd_lookup sh.fds 0) (fd_lookup sh.fds 1) sh.pipe_count
              (p.commands.length - 1))
            (r.stages.filter (fun rec => has_program rec.cmd)) (fork_events evs1)) := by
  refine ⟨execute_pipeline_defined p sh, fun chans rest hlen hos => ?_⟩
  obtain ⟨r0, hr0, c1, c2, c3, c4, c5⟩ := execute_pipeline_channels p sh chans rest hN hlen hos
  obtain ⟨r, evs1, evs2, hr, l1, _, _, l4, _, _, l7⟩ :=
    execute_pipeline_launches p sh chans rest
      (fun i T => (channel_descriptors chans).Nodup →
        (∀ d ∈ channel_descriptors chans, d ≠ 0 ∧ d ≠ 1) →
        channels_held (fd_lookup sh.fds 0) (fd_lookup sh.fds 1) sh.pipe_count chans i T)
      hN hlen hos
      (fun i input_fd output_fd T hT hin hout hnd hne =>
        channels_held_step chans p.commands.length _ _ _ hlen hnd hne i input_fd output_fd T
          (hT hnd hne) hin hout)
      (fun sh1 hcp hnd hne => channels_held_entry chans rest sh sh1 hos hnd hne hcp)
  have hrr : r0 = r := Option.some.inj (hr0.symm.trans hr)
  subst hrr
  refine ⟨r0, evs1, evs2, hr0, c1, c2, c3, c4, c5, l1, l4, ?_, ?_⟩
  · exact List.Forall₂.imp (fun _ _ h => h.1) l7
  · intro hnd hne
    refine List.Forall₂.imp ?_ l7
    intro rec e hre child hchild
    obtain ⟨T, hT, hfds, hin, hout⟩ := hre.2 child hchild
    rw [hfds]
    exact channels_held_child chans p.commands.length _ _ _ hlen hnd hne rec.stage
      rec.input_fd rec.output_fd T (hT hnd hne) hin hout

/-- C5, witness: the pipeline `ls | sort | wc` with the channels (3, 4) and
(5, 6); the three children read and write the ends of the two channels. -/
theorem execute_pipeline_wiring_witness :
    ∃ (r : PipelineRun) (evs1 : List Event), execute_pipeline
        { commands := [{ args := [some "ls", none] }, { args := [some "sort", none] },
                       { args := [some "wc", none] }] }
        { os := { pipe_results := [some (3, 4), some (5, 6)], fork_results := [100, 101, 102] } }
        = some r ∧
      r.pipes = [3, 4, 5, 6] ∧
      r.stages.map (fun s => (s.stage, s.input_fd, s.output_fd)) =
        [(0, 0, 4), (1, 3, 6), (2, 5, 1)] ∧
      List.Forall₂ (wired (some (FileRef.std 0)) (some (FileRef.std 1)) 0 2)
        (r.stages.filter (fun rec => has_program rec.cmd)) (fork_events evs1) ∧
      (fork_events r.shell.log).map
          (fun e => (e.1, e.2.map (fun c => (fd_lookup c.fds 0, fd_lookup c.fds 1)))) =
        [(100, some (some (FileRef.std 0), some (FileRef.pipe_write 0))),
         (101, some (some (FileRef.pipe_read 0), some (FileRef.pipe_write 1))),
         (102, some (some (FileRef.pipe_read 1), some (FileRef.std 1)))] := by
  obtain ⟨r, evs1, _, h, _, hp, _, _, _, _, _, _, hw⟩ := (execute_pipeline_wiring
    { commands := [{ args := [some "ls", none] }, { args := [some "sort", none] },
                   { args := [some "wc", none] }] }
    { os := { pipe_results := [some (3, 4), some (5, 6)], fork_results := [100, 101, 102] } }
    (by decide)).2 [(3, 4), (5, 6)] [] (by decide) (by decide)
  refine ⟨r, evs1, h, hp, ?_, hw (by decide) (by decide), ?_⟩
  · have h3 : (execute_pipeline
        { commands := [{ args := [some "ls", none] }, { args := [some "sort", none] },
                       { args := [some "wc", none] }] }
        { os := { pipe_results := [some (3, 4), some (5, 6)],
                  fork_results := [100, 101, 102] } }).map
        (fun r => r.stages.map (fun s => (s.stage, s.input_fd, s.output_fd))) =
        some [(0, 0, 4), (1, 3, 6), (2, 5, 1)] := by decide
    rw [h] at h3
    simpa using h3
  · have h4 : (execute_pipeline
        { commands := [{ args := [some "ls", none] }, { args := [some "sort", none] },
                       { args := [some "wc", none] }] }
        { os := { pipe_results := [some (3, 4), some (5, 6)],
                  fork_results := [100, 101, 102] } }).map
        (fun r => (fork_events r.shell.log).map
          (fun e => (e.1, e.2.map (fun c => (fd_lookup c.fds 0, fd_lookup c.fds 1))))) =
        some [(100, some (some (FileRef.std 0), some (FileRef.pipe_write 0))),
         (101, some (some (FileRef.pipe_read 0), some (FileRef.pipe_write 1))),
         (102, some (some (FileRef.pipe_read 1), some (FileRef.std 1)))] := by decide
    rw [h] at h4
    simpa using h4

/-! ## The order of the launches and the waits -/

theorem launched_results (recs : List StageRecord) (evs : List (Int × Option ChildRun))
    (h : List.Forall₂ launched recs evs) :
    evs.map (fun e => e.1) = recs.map (fun rec => rec.pid) := by
  induction h with
  | nil => rfl
  | cons hab _ ih => simp only [List.map_cons, ih, hab.1]

theorem spawned_stage_pids (recs : List StageRecord)
    (h : ∀ rec ∈ recs, has_program rec.cmd = false → rec.pid = -1) :
    (recs.map (fun rec => rec.pid)).filter (fun pid => 0 < pid) =
      ((recs.filter (fun rec => has_program rec.cmd)).map (fun rec => rec.pid)).filter
        (fun pid => 0 < pid) := by
  induction recs with
  | nil => rfl
  | cons a l ih =>
    have ih2 := ih (fun rec hm => h rec (List.mem_cons_of_mem _ hm))
    by_cases hp : has_program a.cmd = true
    · simp only [List.map_cons, List.filter_cons, hp, if_true, ih2]
    · have hpid := h a (List.mem_cons_self _ _) (by simpa using hp)
      simp only [List.map_cons, List.filter_cons, hp, hpid, ih2]
      simp

theorem stages_with_program (recs : List StageRecord) (cmds : List Command)
    (h : recs.map (fun rec => rec.cmd) = cmds) :
    (recs.filter (fun rec => has_program rec.cmd)).length = (cmds.filter has_program).length := by
  rw [← h, List.filter_map, List.length_map]
  rfl

/-- C26: in a foreground pipeline of N >= 2 stages whose channels were
granted, whatever the `fork()` calls return, the calls of `execute_pipeline`
fall into two parts: in the first (`evs1`) it calls `fork()` once for every
stage that has a non-empty argument list, in the order of the stages, the
child of a `fork()` that succeeded being the one that runs the program of that
stage, and it calls no `waitpid`; in the second (`evs2`), afterwards, it calls
no `fork()` and calls `waitpid` exactly once for each value returned by these
`fork()` calls that is a process identifier (a spawned process), in the order
of the stages, and for nothing else. -/
theorem pipeline_waits_for_every_spawned (p : Pipeline) (sh : Shell)
    (chans : List (Nat × Nat)) (rest : List (Option (Nat × Nat)))
    (hN : 2 ≤ p.commands.length) (hfg : p.background = false)
    (hlen : chans.length = p.commands.length - 1)
    (hos : sh.os.pipe_results = chans.map some ++ rest) :
    ∃ (r : PipelineRun) (evs1 evs2 : List Event), execute_pipeline p sh = some r ∧
      r.shell.log = sh.log ++ evs1 ++ evs2 ∧
      r.stages.map (fun rec => rec.cmd) = p.commands ∧
      List.Forall₂ launched
        (r.stages.filter (fun rec => has_program rec.cmd)) (fork_events evs1) ∧
      (fork_events evs1).length = (p.commands.filter has_program).length ∧
      waited evs1 = [] ∧ fork_events evs2 = [] ∧
      waited evs2 = ((fork_events evs1).map (fun e => e.1)).filter (fun pid => 0 < pid) := by
  obtain ⟨r, evs1, evs2, hr, l1, l2, l3, l4, l5, l6, l7⟩ :=
    execute_pipeline_launches p sh chans rest (fun _ _ => True) hN hlen hos
      (fun _ _ _ _ _ _ _ => trivial) (fun _ _ => trivial)
  have hl : List.Forall₂ launched
      (r.stages.filter (fun rec => has_program rec.cmd)) (fork_events evs1) :=
    List.Forall₂.imp (fun _ _ h => h.1) l7
  refine ⟨r, evs1, evs2, hr, l1, l2, hl, ?_, l3, l4, ?_⟩
  · rw [← hl.length_eq, stages_with_program _ _ l2]
  · rw [l5, hfg, launched_results _ _ hl, ← spawned_stage_pids _ l6]
    simp

/-- C26, witness: the pipeline `ls | sort | wc` in which the second `fork()`
fails: three `fork()` calls, and then `waitpid` on the processes 100 and
102. -/
theorem pipeline_waits_for_every_spawned_witness :
    (∃ (r : PipelineRun) (evs1 evs2 : List Event), execute_pipeline
        { commands := [{ args := [some "ls", none] }, { args := [some "sort", none] },
                       { args := [some "wc", none] }] }
        { os := { pipe_results := [some (3, 4), some (5, 6)],
                  fork_results := [100, -1, 102] } } = some r ∧
      r.shell.log = [] ++ evs1 ++ evs2 ∧
      r.stages.map (fun rec => rec.cmd) =
        [{ args := [some "ls", none] }, { args := [some "sort", none] },
         { args := [some "wc", none] }] ∧
      List.Forall₂ launched
        (r.stages.filter (fun rec => has_program rec.cmd)) (fork_events evs1) ∧
      (fork_events evs1).length =
        (([{ args := [some "ls", none] }, { args := [some "sort", none] },
           { args := [some "wc", none] }] : List Command).filter has_program).length ∧
      waited evs1 = [] ∧ fork_events evs2 = [] ∧
      waited evs2 = ((fork_events evs1).map (fun e => e.1)).filter (fun pid => 0 < pid)) ∧
    (execute_pipeline
        { commands := [{ args := [some "ls", none] }, { args := [some "sort", none] },
                       { args := [some "wc", none] }] }
        { os := { pipe_results := [some (3, 4), some (5, 6)],
                  fork_results := [100, -1, 102] } }).map
      (fun r => forks_and_waits r.shell.log) =
      some [Sum.inl 100, Sum.inl (-1), Sum.inl 102, Sum.inr 100, Sum.inr 102] :=
  ⟨pipeline_waits_for_every_spawned
    { commands := [{ args := [some "ls", none] }, { args := [some "sort", none] },
                   { args := [some "wc", none] }] }
    { os := { pipe_results := [some (3, 4), some (5, 6)], fork_results := [100, -1, 102] } }
    [(3, 4), (5, 6)] [] (by decide) rfl (by decide) (by decide), by decide⟩

/-- C19: in a pipeline of two or more stages the shell process never calls
`handle_builtin` itself, and its working directory and previous-directory
record are the same after `execute_pipeline` returns as before; and when the
channels of the pipeline are granted, the stages of the pipeline that have a
program are launched by one `fork()` each, in the order of the stages, and
the child made for a stage whose program is a builtin is the process that
calls `handle_builtin` on the arguments of that stage and then exits. -/
theorem pipeline_builtins_run_in_children (p : Pipeline) (sh : Shell)
    (hN : 2 ≤ p.commands.length) :
    (∃ r, execute_pipeline p sh = some r ∧
      r.shell.cwd = sh.cwd ∧ r.shell.previous_dir = sh.previous_dir ∧
      inline_builtins r.shell.log = inline_builtins sh.log) ∧
    (∀ (chans : List (Nat × Nat)) (rest : List (Option (Nat × Nat))),
      chans.length = p.commands.length - 1 →
      sh.os.pipe_results = chans.map some ++ rest →
      ∃ (r : PipelineRun) (evs1 evs2 : List Event), execute_pipeline p sh = some r ∧
        r.shell.log = sh.log ++ evs1 ++ evs2 ∧
        r.stages.map (fun rec => rec.cmd) = p.commands ∧
        fork_events evs2 = [] ∧
        List.Forall₂
          (fun rec e => launched rec e ∧
            ∀ (name : String) (args : List (Option String)),
              rec.cmd.args = some name :: args → is_builtin_command name = true →
              (0 < rec.pid → ∃ child, e.2 = some child ∧
                child.action = ChildAction.handle_builtin rec.cmd.args) ∧
              (¬ 0 < rec.pid → e.2 = none))
          (r.stages.filter (fun rec => has_program rec.cmd)) (fork_events evs1)) := by
  constructor
  · obtain ⟨r, hr⟩ := execute_pipeline_defined p sh
    have h := execute_pipeline_multi_globals p sh r hN hr
    exact ⟨r, hr, h.1, h.2.1, h.2.2.1⟩
  · intro chans rest hlen hos
    obtain ⟨r, evs1, evs2, hr, l1, l2, _, l4, _, _, l7⟩ :=
      execute_pipeline_launches p sh chans rest (fun _ _ => True) hN hlen hos
        (fun _ _ _ _ _ _ _ => trivial) (fun _ _ => trivial)
    refine ⟨r, evs1, evs2, hr, l1, l2, l4, List.Forall₂.imp ?_ l7⟩
    intro rec e h
    refine ⟨h.1, fun name args hargs hb => ⟨fun hpos => ?_, h.1.2.2⟩⟩
    obtain ⟨child, hc, hact, _⟩ := h.1.2.1 hpos
    refine ⟨child, hc, ?_⟩
    simp only [stage_action, hargs, hb, if_true, Option.some.injEq] at hact
    rw [hact, hargs]

/-- C19, witness: the statement `cd /tmp | true`, with the directory change
granted wherever it would run: the shell stays in `/home`, and the first of
the two children is the one that calls `handle_builtin`. -/
theorem pipeline_builtins_run_in_children_witness :
    (∃ r, execute_pipeline (parse_pipeline (tokenize_simple "cd /tmp | true".toList)).1
        { os := { pipe_results := [some (3, 4)], fork_results := [100, 101],
                  chdir_results := [some "/tmp"] }, cwd := "/home" } = some r ∧
      r.shell.cwd = "/home" ∧ r.shell.previous_dir = "" ∧
      inline_builtins r.shell.log = inline_builtins []) ∧
    (∃ (r : PipelineRun) (evs1 : List Event),
      execute_pipeline (parse_pipeline (tokenize_simple "cd /tmp | true".toList)).1
        { os := { pipe_results := [some (3, 4)], fork_results := [100, 101],
                  chdir_results := [some "/tmp"] }, cwd := "/home" } = some r ∧
      List.Forall₂ launched
        (r.stages.filter (fun rec => has_program rec.cmd)) (fork_events evs1)) ∧
    (execute_pipeline (parse_pipeline (tokenize_simple "cd /tmp | true".toList)).1
        { os := { pipe_results := [some (3, 4)], fork_results := [100, 101],
                  chdir_results := [some "/tmp"] }, cwd := "/home" }).map
      (fun r => ((fork_events r.shell.log).map (fun e => (e.1, e.2.map (fun c => c.action))),
        inline_builtins r.shell.log, chdirs r.shell.log, r.shell.cwd)) =
      some ([(100, some (ChildAction.handle_builtin [some "cd", some "/tmp", none])),
             (101, some (ChildAction.execvp "true" [some "true", none]))], [], [], "/home") := by
  have h := pipeline_builtins_run_in_children
    (parse_pipeline (tokenize_simple "cd /tmp | true".toList)).1
    { os := { pipe_results := [some (3, 4)], fork_results := [100, 101],
              chdir_results := [some "/tmp"] }, cwd := "/home" } (by decide)
  refine ⟨h.1, ?_, rfl⟩
  obtain ⟨r, evs1, _, hr, _, _, _, hf⟩ := h.2 [(3, 4)] [] (by decide) (by decide)
  exact ⟨r, evs1, hr, List.Forall₂.imp (fun _ _ x => x.1) hf⟩

/-! ## A single builtin stage behind a pipe operator -/

theorem restore_stdio_directories (a b : Option Nat) (sh : Shell) :
    (restore_stdio a b sh).cwd = sh.cwd ∧
    (restore_stdio a b sh).previous_dir = sh.previous_dir := by
  cases a <;> cases b <;> exact ⟨rfl, rfl⟩

/-- A builtin run inline adds exactly one process event, its own call, unless
it carries a redirection whose setup fails: then it adds none. -/
theorem process_events_builtin_inline_exact (with_redirection : Bool) (redir : RedirectionInfo)
    (args : List (Option String)) (sh : Shell) :
    process_events (builtin_inline with_redirection redir args sh).log =
      process_events sh.log ++
        (if with_redirection = true ∧
            (setup_redirection redir (sys_dup 1 (sys_dup 0 sh).2).2).1 = false
          then [] else [Event.handle_builtin args]) := by
  unfold builtin_inline
  cases with_redirection with
  | false => simp [process_events_handle_builtin]
  | true =>
    simp only [if_true, true_and]
    cases hs : (setup_redirection redir (sys_dup 1 (sys_dup 0 sh).2).2).1 with
    | false => simp
    | true =>
      simp only [if_true]
      split <;> simp [process_events_handle_builtin]

/-- The directories of the shell after a builtin that was run inline behind a
redirection whose setup succeeded are the ones the builtin left. -/
theorem builtin_inline_directories (redir : RedirectionInfo)
    (args : List (Option String)) (sh : Shell)
    (hs : (setup_redirection redir (sys_dup 1 (sys_dup 0 sh).2).2).1 = true) :
    (builtin_inline true redir args sh).cwd =
      (handle_builtin args (setup_redirection redir (sys_dup 1 (sys_dup 0 sh).2).2).2).2.cwd ∧
    (builtin_inline true redir args sh).previous_dir =
      (handle_builtin args
        (setup_redirection redir (sys_dup 1 (sys_dup 0 sh).2).2).2).2.previous_dir := by
  unfold builtin_inline
  simp only [if_true, hs]
  split
  · exact ⟨rfl, rfl⟩
  · exact restore_stdio_directories _ _ _

/-- C3 (as amended): for every statement that uses a pipe operator and yields
exactly one stage whose program is a builtin (e.g. `cd /tmp |`),
`parse_and_execute` creates no channel and no process: the only process event
it adds is the call of `handle_builtin` made by the shell process itself, and
it adds that one unless the stage carries a redirection whose setup
(`setup_redirection`, after the two `dup` calls that save the standard
descriptors) fails; then it adds none.  Without redirection the shell
afterwards is exactly the state that `handle_builtin` left, and with a
redirection whose setup succeeds its working directory and previous-directory
record are the ones `handle_builtin` left: a directory change made by the
builtin stays in effect.  Here `s0` is the shell when the stage is run, the
statement in the history and the syntax errors of its segments reported. -/
theorem single_builtin_stage_runs_inline (command_line : List Char) (sh s0 : Shell)
    (cmd : Command) (name : String) (rest : List (Option String))
    (hpipe : has_pipe (tokenize_simple (strip_background command_line).1) = true)
    (hone : (parse_pipeline (tokenize_simple (strip_background command_line).1)).1.commands
      = [cmd])
    (hargs : cmd.args = some name :: rest) (hb : is_builtin_command name = true)
    (hs0 : s0 =
      write_cerr (parse_pipeline (tokenize_simple (strip_background command_line).1)).2
        (add_to_history (join_tokens (tokenize_simple (strip_background command_line).1))
          sh)) :
    ∃ sh2, parse_and_execute command_line sh = some sh2 ∧
      process_events sh2.log = process_events sh.log ++
        (if cmd.has_redirection = true ∧
            (setup_redirection cmd.redirection (sys_dup 1 (sys_dup 0 s0).2).2).1 = false
          then [] else [Event.handle_builtin cmd.args]) ∧
      (cmd.has_redirection = false → sh2 = (handle_builtin cmd.args s0).2) ∧
      (cmd.has_redirection = true →
        (setup_redirection cmd.redirection (sys_dup 1 (sys_dup 0 s0).2).2).1 = true →
        sh2.cwd = (handle_builtin cmd.args
          (setup_redirection cmd.redirection (sys_dup 1 (sys_dup 0 s0).2).2).2).2.cwd ∧
        sh2.previous_dir = (handle_builtin cmd.args
          (setup_redirection cmd.redirection
            (sys_dup 1 (sys_dup 0 s0).2).2).2).2.previous_dir) := by
  have hne : ¬ command_line.dropWhile (fun c => c = ' ' || c = '\t') = [] := by
    intro h
    rw [blank_statement_has_no_pipe command_line h] at hpipe
    exact Bool.false_ne_true hpipe
  cases htok : tokenize_simple (strip_background command_line).1 with
  | nil => rw [htok] at hpipe; simp [has_pipe] at hpipe
  | cons tok0 toks =>
    rw [htok] at hpipe hone hs0
    have hex := execute_pipeline_single_builtin
      { (parse_pipeline (tok0 :: toks)).1 with
        background := (strip_background command_line).2 } cmd name rest
      (write_cerr (parse_pipeline (tok0 :: toks)).2
        (add_to_history (join_tokens (tok0 :: toks)) sh)) hone hargs hb
    rw [← hs0] at hex
    refine ⟨builtin_inline cmd.has_redirection cmd.redirection cmd.args s0, ?_, ?_, ?_, ?_⟩
    · unfold parse_and_execute
      simp only [hne, if_false, htok, hpipe, if_true, ← hs0, hex, Option.map_some']
    · rw [process_events_builtin_inline_exact, hs0, process_events_write_cerr,
        add_to_history_log]
    · intro hr
      simp [builtin_inline, hr]
    · intro hr hs
      rw [hr]
      exact builtin_inline_directories _ _ _ hs

/-- C3, witness: the statements `cd /tmp |` and `cd /tmp > out.txt |`, the
second with the two `dup` calls and the `open` call granted: in both the shell
process runs the builtin itself and is in `/tmp` afterwards. -/
theorem single_builtin_stage_runs_inline_witness :
    (∃ sh2, parse_and_execute "cd /tmp |".toList
        { os := { chdir_results := [some "/tmp"] }, cwd := "/home" } = some sh2 ∧
      process_events sh2.log = [Event.handle_builtin [some "cd", some "/tmp", none]] ∧
      sh2.cwd = "/tmp") ∧
    (∃ sh2, parse_and_execute "cd /tmp > out.txt |".toList
        { os := { chdir_results := [some "/tmp"], dup_results := [some 3, some 4],
                  open_results := [some 5] }, cwd := "/home" } = some sh2 ∧
      process_events sh2.log = [Event.handle_builtin [some "cd", some "/tmp", none]] ∧
      sh2.cwd = "/tmp" ∧ sh2.previous_dir = "/home") := by
  constructor
  · obtain ⟨sh2, h1, h2, h3, _⟩ := single_builtin_stage_runs_inline "cd /tmp |".toList
      { os := { chdir_results := [some "/tmp"] }, cwd := "/home" } _
      { args := [some "cd", some "/tmp", none],
        redirection := { clean_args := [some "cd", some "/tmp", none] } }
      "cd" [some "/tmp", none] (by decide) (by decide) rfl (by decide) rfl
    refine ⟨sh2, h1, h2, ?_⟩
    rw [h3 rfl]
    decide
  · obtain ⟨sh2, h1, h2, _, h4⟩ := single_builtin_stage_runs_inline
      "cd /tmp > out.txt |".toList
      { os := { chdir_results := [some "/tmp"], dup_results := [some 3, some 4],
                open_results := [some 5] }, cwd := "/home" } _
      { args := [some "cd", some "/tmp", none],
        redirection := { has_output_redirect := true, output_file := "out.txt",
                         clean_args := [some "cd", some "/tmp", none] },
        has_redirection := true }
      "cd" [some "/tmp", none] (by decide) (by decide) rfl (by decide) rfl
    obtain ⟨h5, h6⟩ := h4 rfl (by decide)
    refine ⟨sh2, h1, h2, ?_, ?_⟩
    · rw [h5]; decide
    · rw [h6]; decide

/-! ## Output redirection with `>>` in general -/

/-- The statement `echo two < in.txt >> out.txt` on a file `out.txt` that held
`one\n`: the file is not truncated and holds `one\ntwo\n` afterwards. -/
theorem echo_append_with_input_example :
    (parse_and_execute "echo two < in.txt >> out.txt".toList
        { os := { dup_results := [some 3, some 4], open_results := [some 5, some 6] } }).map
      (fun s => file_after "out.txt" s.log "one\n") = some "one\ntwo\n" := by
  decide
end PosixShell
